import Mathlib

/-!
# nicovideo-rss-diy: record store, event log, clients, feed and scheduler

A shallow embedding of `internal/repository/video.go`,
`internal/repository/notification.go`, `internal/repository/rss.go`,
`internal/client/client.go` (`SearchVideo`), `internal/config/config.go`
(`LoadConfig`), `internal/rss/rss.go` and the `worker` and HTTP handler of
`main.go`, followed by the properties proved about them.

Modelling conventions.

* The scheduler is sequential; the results and durations of the calls it makes
  and the outcome of each `select` are arguments, and a pass yields the list of
  the calls and waits it made. A `time.Duration` is an `Int` of nanoseconds.
* Library functions outside the repository (`strings.TrimSpace`, `AddDate`,
  `crc32.ChecksumIEEE`, `xml.MarshalIndent`, ...) are parameters.

* `[]*Video` is a `List Video`; a `time.Time` is the instant it denotes, an
  `Int`; `map[string]struct{}` is a `Finset String`.
* A Go run-time panic (a negative capacity given to `make`, a slice bound
  out of range) is the result `none`.
* `len` results are natural numbers.
-/

namespace NicoRSS

/-! ## Record store (`internal/repository/video.go`) -/

/-- One ingested record (`type Video struct`). -/
structure Video where
  ID : String
  Title : String
  Description : String
  StartTime : Int
  ThumbnailURL : String
  ThumbnailType : String
  ThumbnailLength : Int
  TagsConnectedStr : String
deriving DecidableEq, Repr

/-- The in-memory store (`type VideoRepository struct`). -/
structure VideoRepository where
  Videos : List Video
  seenIDs : Finset String
  Capacity : Int

instance : DecidableEq VideoRepository := fun a b =>
  decidable_of_iff (a.Videos = b.Videos ∧ a.seenIDs = b.seenIDs ∧ a.Capacity = b.Capacity)
    (by cases a; cases b; simp)

instance : DecidableEq (Option (VideoRepository × Nat)) := fun a b =>
  match a, b with
  | none, none => isTrue rfl
  | none, some _ => isFalse (by simp)
  | some _, none => isFalse (by simp)
  | some x, some y =>
    decidable_of_iff (x.1 = y.1 ∧ x.2 = y.2) (by cases x; cases y; simp)

instance : DecidableEq (Option VideoRepository) := fun a b =>
  match a, b with
  | none, none => isTrue rfl
  | none, some _ => isFalse (by simp)
  | some _, none => isFalse (by simp)
  | some x, some y => decidable_of_iff (x = y) (by simp)

/-- `NewVideoRepository`: `make([]*Video, 0, capacity)` panics on a negative
capacity. -/
def NewVideoRepository (capacity : Int) : Option VideoRepository :=
  if capacity < 0 then none
  else some { Videos := [], seenIDs := ∅, Capacity := capacity }

/-- The filtering loop of `AddSortedVideos`: walks the batch in order, keeps a
record whose id is not in the index and enters that id at once. Returns
`toMerge` and the index after the loop. -/
def collectUnseen : List Video → Finset String → List Video × Finset String
  | [], seen => ([], seen)
  | v :: vs, seen =>
    if v.ID ∈ seen then collectUnseen vs seen
    else ((v :: (collectUnseen vs (insert v.ID seen)).1),
          (collectUnseen vs (insert v.ID seen)).2)

/-- The loop of `mergeSortedVideos` while the head `e` of the stored list is
fixed: new records are emitted until one is strictly older than `e`; then `e`
is emitted and the loop goes on with the stored tail (`next`). -/
def mergeLoop (e : Video) (es : List Video) (next : List Video → List Video) :
    List Video → List Video
  | [] => e :: es
  | n :: ns =>
    if n.StartTime < e.StartTime then e :: next (n :: ns)
    else n :: mergeLoop e es next ns

/-- `mergeSortedVideos`: two-pointer merge; the stored head is taken only when
its `StartTime` is strictly `After` the head of the new list, otherwise the new
head is taken. When one list is exhausted the rest of the other is appended. -/
def mergeSortedVideos : List Video → List Video → List Video
  | [] => fun newVideos => newVideos
  | e :: es => mergeLoop e es (mergeSortedVideos es)

/-- The `delete(r.seenIDs, v.ID)` loop over the removed records. -/
def deleteIDs (seen : Finset String) (removed : List Video) : Finset String :=
  removed.foldl (fun s v => s.erase v.ID) seen

/-- `TrimToCapacity`: returns the trimmed repository and the number of removed
records. With more records than a negative capacity the slice expression
`r.Videos[r.Capacity:]` panics. -/
def TrimToCapacity (r : VideoRepository) : Option (VideoRepository × Nat) :=
  if (r.Videos.length : Int) ≤ r.Capacity then some (r, 0)
  else if r.Capacity < 0 then none
  else
    some ({ Videos := r.Videos.take r.Capacity.toNat,
            seenIDs := deleteIDs r.seenIDs (r.Videos.drop r.Capacity.toNat),
            Capacity := r.Capacity },
          (r.Videos.drop r.Capacity.toNat).length)

/-- `AddSortedVideos`: returns the repository after the call and the returned
count. -/
def AddSortedVideos (r : VideoRepository) (newVideos : List Video) :
    Option (VideoRepository × Nat) :=
  if newVideos.length = 0 then some (r, 0)
  else
    let toMerge := (collectUnseen newVideos r.seenIDs).1
    let seen := (collectUnseen newVideos r.seenIDs).2
    if toMerge.length = 0 then some ({ r with seenIDs := seen }, 0)
    else
      match TrimToCapacity { Videos := mergeSortedVideos r.Videos toMerge,
                             seenIDs := seen, Capacity := r.Capacity } with
      | none => none
      | some (r', _) => some (r', toMerge.length)

/-- A mutating call on the store. -/
inductive RepoCall where
  | add (batch : List Video)
  | trim
deriving DecidableEq

/-- One call applied to a repository; the returned count is dropped. -/
def applyCall (r : VideoRepository) : RepoCall → Option VideoRepository
  | .add batch => (AddSortedVideos r batch).map Prod.fst
  | .trim => (TrimToCapacity r).map Prod.fst

/-- A sequence of calls applied in order, stopping at a panic. -/
def runCalls : VideoRepository → List RepoCall → Option VideoRepository
  | r, [] => some r
  | r, c :: cs => (applyCall r c).bind (fun r' => runCalls r' cs)

/-- The state after `NewVideoRepository(capacity)` and then the calls. -/
def runFromNew (capacity : Int) (calls : List RepoCall) : Option VideoRepository :=
  (NewVideoRepository capacity).bind (fun r => runCalls r calls)

/-- Adjacent pairs are ordered newest first:
`earlier.StartTime >= later.StartTime`. -/
def SortedDesc : List Video → Prop
  | [] => True
  | [_] => True
  | a :: b :: l => b.StartTime ≤ a.StartTime ∧ SortedDesc (b :: l)

/-- Decision procedure for `SortedDesc`. -/
def SortedDesc.dec : (l : List Video) → Decidable (SortedDesc l)
  | [] => isTrue trivial
  | [_] => isTrue trivial
  | _ :: b :: l => @instDecidableAnd _ _ _ (SortedDesc.dec (b :: l))

instance (l : List Video) : Decidable (SortedDesc l) := SortedDesc.dec l

/-- A record with the given id and start time, the other fields empty. -/
def mkVideo (id : String) (t : Int) : Video :=
  { ID := id, Title := "", Description := "", StartTime := t, ThumbnailURL := "",
    ThumbnailType := "", ThumbnailLength := 0, TagsConnectedStr := "" }

/-- The part of `AddSortedVideos` after the filtering loop found something to
merge. -/
def addMerged (r : VideoRepository) (toMerge : List Video) : VideoRepository :=
  { Videos := (mergeSortedVideos r.Videos toMerge).take r.Capacity.toNat,
    seenIDs := (r.seenIDs ∪ (toMerge.map Video.ID).toFinset) \
      (((mergeSortedVideos r.Videos toMerge).drop r.Capacity.toNat).map Video.ID).toFinset,
    Capacity := r.Capacity }

/-- The invariants of a usable repository: the capacity is not negative and
not exceeded, no id occurs twice, and the index holds exactly the ids of the
stored records. -/
def WellFormed (r : VideoRepository) : Prop :=
  0 ≤ r.Capacity ∧ (r.Videos.length : Int) ≤ r.Capacity ∧
    (r.Videos.map Video.ID).Nodup ∧ r.seenIDs = (r.Videos.map Video.ID).toFinset

instance (r : VideoRepository) : Decidable (WellFormed r) :=
  inferInstanceAs (Decidable (0 ≤ r.Capacity ∧ (r.Videos.length : Int) ≤ r.Capacity ∧
    (r.Videos.map Video.ID).Nodup ∧ r.seenIDs = (r.Videos.map Video.ID).toFinset))

/-- In `l` the record `a` occurs, and its first occurrence is before any
occurrence of `b`. -/
def Precedes (a b : Video) (l : List Video) : Prop :=
  l.indexOf a < l.indexOf b

instance (a b : Video) (l : List Video) : Decidable (Precedes a b l) :=
  inferInstanceAs (Decidable (l.indexOf a < l.indexOf b))

/-- The merge example: stored `[t5, t3, t1]`, capacity 10. -/
def mergeExampleRepo : VideoRepository :=
  { Videos := [mkVideo "v5" 5, mkVideo "v3" 3, mkVideo "v1" 1],
    seenIDs := {"v5", "v3", "v1"}, Capacity := 10 }

/-- The merge example: incoming `[t4, t2]`. -/
def mergeExampleBatch : List Video := [mkVideo "v4" 4, mkVideo "v2" 2]

/-- The merge example: the state after the call. -/
def mergeExampleResult : VideoRepository :=
  { Videos := [mkVideo "v5" 5, mkVideo "v4" 4, mkVideo "v3" 3, mkVideo "v2" 2, mkVideo "v1" 1],
    seenIDs := {"v5", "v4", "v3", "v2", "v1"}, Capacity := 10 }

/-- A full repository of capacity 2 holding `t3, t2`. -/
def fullRepo : VideoRepository :=
  { Videos := [mkVideo "v3" 3, mkVideo "v2" 2], seenIDs := {"v3", "v2"}, Capacity := 2 }

/-- Tie example: the stored record. -/
def tieOld : Video := mkVideo "old" 5

/-- Tie example: the incoming record, with the same `StartTime`. -/
def tieNew : Video := mkVideo "new" 5

/-- Tie example: the repository before the call. -/
def tieRepo : VideoRepository :=
  { Videos := [tieOld], seenIDs := {"old"}, Capacity := 10 }

/-- Tie example: the repository after `AddSortedVideos [tieNew]`. -/
def tieResult : VideoRepository :=
  { Videos := [tieNew, tieOld], seenIDs := {"new", "old"}, Capacity := 10 }

/-- Trim example: the batch `t3, t2, t1`. -/
def trimBatch : List Video := [mkVideo "v3" 3, mkVideo "v2" 2, mkVideo "v1" 1]

/-- Trim example: the empty repository of capacity 2. -/
def emptyRepo2 : VideoRepository := { Videos := [], seenIDs := ∅, Capacity := 2 }

/-- The list `S` holds the newest records of `U`: it is strictly descending by
`StartTime`, made of records of `U`, at most `k` long, and a record of `U`
that is missing from it is missing because `S` is full with newer records. -/
def NewestOf (U S : List Video) (k : Nat) : Prop :=
  S.Pairwise (fun a b => b.StartTime < a.StartTime) ∧ (∀ v ∈ S, v ∈ U) ∧ S.length ≤ k ∧
    ∀ w ∈ U, w ∉ S → S.length = k ∧ ∀ v ∈ S, w.StartTime < v.StartTime

/-- The `c` newest of the distinct supplied records, newest first, as a
function of the supplied records alone. -/
def newestFirst (c : Nat) (supplied : List Video) : List Video :=
  ((supplied.dedup).insertionSort (fun a b => b.StartTime ≤ a.StartTime)).take c

/-! ## Event log (`internal/repository/notification.go`)

The `Description` of a notification is a Go `error`. Its type is the parameter
`E`, and the library function `errors.Is` is the parameter `errorsIs`.
`time.Now()` is the parameter `now`. `DuplicateCount` is an unbounded integer:
a count grows by one per call and stays far below `2^63`. -/

/-- `type NotificationLevel int`. -/
abbrev NotificationLevel := Int

/-- `NotificationInfo`, the constant `iota = 0`. -/
def NotificationInfo : NotificationLevel := 0

/-- `NotificationError`, the constant `iota = 1`. -/
def NotificationError : NotificationLevel := 1

/-- One status event (`type Notification struct`). -/
structure Notification (E : Type) where
  Level : NotificationLevel
  Title : String
  Description : E
  Date : Int
  AllowDuplication : Bool
  DuplicateCount : Int
deriving DecidableEq, Repr

/-- The event log (`type NotificationRepository struct`). -/
structure NotificationRepository (E : Type) where
  Notifications : List (Notification E)
deriving DecidableEq

/-- `NewNotificationRepository`: an empty log. -/
def NewNotificationRepository {E : Type} : NotificationRepository E :=
  { Notifications := [] }

/-- The loop of `AddNotification`: at the first entry `n` with
`errors.Is(n.Description, description) && n.AllowDuplication` the entry is
replaced by `new` with `DuplicateCount = n.DuplicateCount + 1` and the loop
returns; `none` when the loop ends without a replacement. -/
def overwriteFirst {E : Type} (errorsIs : E → E → Bool) (new : Notification E) :
    List (Notification E) → Option (List (Notification E))
  | [] => none
  | n :: rest =>
    if errorsIs n.Description new.Description && n.AllowDuplication then
      some ({ new with DuplicateCount := n.DuplicateCount + 1 } :: rest)
    else (overwriteFirst errorsIs new rest).map (fun l => n :: l)

/-- `AddNotification`, called at time `now`. -/
def AddNotification {E : Type} (errorsIs : E → E → Bool) (now : Int)
    (r : NotificationRepository E) (level : NotificationLevel) (title : String)
    (description : E) (allowDuplication : Bool) : NotificationRepository E :=
  let new : Notification E :=
    { Level := level, Title := title, Description := description,
      AllowDuplication := allowDuplication, Date := now, DuplicateCount := 0 }
  if allowDuplication then
    match overwriteFirst errorsIs new r.Notifications with
    | some l => { Notifications := l }
    | none => { Notifications := r.Notifications ++ [new] }
  else { Notifications := r.Notifications ++ [new] }

/-- `ClearNotifications`. -/
def ClearNotifications {E : Type} (_r : NotificationRepository E) : NotificationRepository E :=
  { Notifications := [] }

/-- A call on the event log. -/
inductive LogCall (E : Type) where
  | add (now : Int) (level : NotificationLevel) (title : String) (description : E)
      (allowDuplication : Bool)
  | clear
deriving DecidableEq

/-- One call applied to the log. -/
def applyLogCall {E : Type} (errorsIs : E → E → Bool) (r : NotificationRepository E) :
    LogCall E → NotificationRepository E
  | .add now level title description allowDuplication =>
    AddNotification errorsIs now r level title description allowDuplication
  | .clear => ClearNotifications r

/-- The log after `NewNotificationRepository` and then the calls, in order. -/
def runLog {E : Type} (errorsIs : E → E → Bool) (calls : List (LogCall E)) :
    NotificationRepository E :=
  calls.foldl (applyLogCall errorsIs) NewNotificationRepository

/-- The number of `AddNotification` calls with the given cause after the last
`ClearNotifications` of the sequence. -/
def addsSinceClear {E : Type} [DecidableEq E] (cause : E) (calls : List (LogCall E)) : Nat :=
  calls.foldl (fun k c =>
    match c with
    | .add _ _ _ description _ => if description = cause then k + 1 else k
    | .clear => 0) 0

/-- The entry matches the cause of a duplicate-tolerant add:
`errors.Is(n.Description, cause) && n.AllowDuplication`. -/
def matchesCause {E : Type} (errorsIs : E → E → Bool) (cause : E) (n : Notification E) : Bool :=
  errorsIs n.Description cause && n.AllowDuplication

/-- Index of the first entry satisfying `p`. -/
def firstIndex {α : Type} (p : α → Bool) : List α → Option Nat
  | [] => none
  | a :: l => if p a then some 0 else (firstIndex p l).map (fun i => i + 1)

/-- Reference definition of the add, following the specification: with
`allowDuplication` and an existing duplicate-tolerant entry of the same cause,
the first such entry is replaced in place by the new level, title and
timestamp with `duplicate-count = old + 1`; otherwise an entry with
`duplicate-count = 0` is appended. -/
def addNotificationRef {E : Type} (errorsIs : E → E → Bool) (now : Int)
    (r : NotificationRepository E) (level : NotificationLevel) (title : String)
    (cause : E) (allowDuplication : Bool) : NotificationRepository E :=
  match (if allowDuplication then firstIndex (matchesCause errorsIs cause) r.Notifications
         else none) with
  | some i =>
    { Notifications := r.Notifications.modify
        (fun old => { Level := level, Title := title, Description := cause, Date := now,
                      AllowDuplication := true, DuplicateCount := old.DuplicateCount + 1 }) i }
  | none =>
    { Notifications := r.Notifications ++
        [{ Level := level, Title := title, Description := cause, Date := now,
           AllowDuplication := allowDuplication, DuplicateCount := 0 }] }

/-- The test `TestAddNotification`, the log before its fourth add: the one
error value `desc` is the number 7, compared by identity. -/
def testLog3 : NotificationRepository Nat :=
  runLog (fun a b => a == b)
    [.add 0 NotificationInfo "Test0" 7 false, .add 1 NotificationInfo "Test1" 7 true,
     .add 2 NotificationError "Test2" 7 true]

/-- No duplicate-tolerant entry matches a later duplicate-tolerant entry. -/
def NoLaterMatch {E : Type} (errorsIs : E → E → Bool) (log : List (Notification E)) : Prop :=
  log.Pairwise (fun a b => a.AllowDuplication = true → b.AllowDuplication = true →
    errorsIs a.Description b.Description = false)

/-- When all entries of cause `X` are duplicate-tolerant, there is none and
`k = 0`, or there is one, whose `DuplicateCount` is `k - 1`. -/
def CauseCount {E : Type} [DecidableEq E] (X : E) (log : List (Notification E)) (k : Nat) :
    Prop :=
  (∀ n ∈ log, n.Description = X → n.AllowDuplication = true) →
    (log.filter (fun n => decide (n.Description = X)) = [] ∧ k = 0) ∨
    ∃ n, log.filter (fun n => decide (n.Description = X)) = [n] ∧ n.DuplicateCount + 1 = k

/-- A call sequence on the event log over causes that are numbers compared by
equality: cause 7 is added three times after the clear, always
duplicate-tolerant. -/
def dedupCalls : List (LogCall Nat) :=
  [.add 0 NotificationError "T" 7 true, .clear, .add 1 NotificationError "T" 7 true,
   .add 2 NotificationInfo "other" 8 false, .add 3 NotificationInfo "T2" 7 true,
   .add 4 NotificationInfo "T3" 7 true]

/-! ## Search client (`internal/client/client.go`)

A Go `error` value made by `errors.New` or `fmt.Errorf` is a pointer; `addr`
stands for its address, so that equality of `GoError` values is the pointer
equality `errors.Is` tests. What the network answers is an argument of the
call. -/

/-- Error values: `errors.New(text)`, `fmt.Errorf` without `%w`, and
`fmt.Errorf` with one `%w` operand. -/
inductive GoError where
  | new (addr : Nat) (text : String)
  | errorf (addr : Nat) (msg : String)
  | errorfW (addr : Nat) (msg : String) (wrapped : GoError)
deriving DecidableEq, Repr

/-- The method `Error()`. -/
def GoError.Error : GoError → String
  | .new _ text => text
  | .errorf _ msg => msg
  | .errorfW _ msg _ => msg

/-- The library function `errors.Is` on these values: `err == target`, else
the same test on what `err` unwraps to. -/
def errorsIs : GoError → GoError → Bool
  | .new a t, target => decide (GoError.new a t = target)
  | .errorf a m, target => decide (GoError.errorf a m = target)
  | .errorfW a m w, target => decide (GoError.errorfW a m w = target) || errorsIs w target

/-- `ErrFiltersFormat`, a package-level `errors.New`. -/
def ErrFiltersFormat : GoError := .new 0 "filtersパラメータの書式が間違っています"

/-- `ErrRespQueryParse`. -/
def ErrRespQueryParse : GoError := .new 1 "リクエストに不正なパラメーターがあります"

/-- `ErrRespInternal`. -/
def ErrRespInternal : GoError := .new 2 "サーバーの異常です。"

/-- `ErrRespMaintainance`. -/
def ErrRespMaintainance : GoError :=
  .new 3 "サービスがメンテナンス中です。メンテナンス終了までお待ち下さい。"

/-- `type ResponseMetadata struct`. -/
structure ResponseMetadata where
  Status : Int
  ID : String
  TotalCount : Int
  ErrorCode : String
  ErrorMessage : String
deriving DecidableEq, Repr

/-- `type SearchVideoResponse struct`. -/
structure SearchVideoResponse where
  Meta : ResponseMetadata
  Videos : List Video
deriving DecidableEq, Repr

/-- What the world outside answers during one `SearchVideo` call: the errors
of `url.JoinPath`, `http.NewRequestWithContext` and `httpClient.Do` (if any),
the HTTP status, the result of decoding the body, and the address of the error
value the call allocates when it fails. -/
structure SearchExchange where
  joinPathErr : Option GoError
  newRequestErr : Option GoError
  doErr : Option GoError
  StatusCode : Int
  Status : String
  decoded : Except GoError SearchVideoResponse
  addr : Nat

/-- The second `switch` of `SearchVideo`, on `respoData.Meta.Status`. -/
def metaStatusResult (addr : Nat) (respoData : SearchVideoResponse) :
    Option SearchVideoResponse × Option GoError :=
  let tail := " (HTTP status " ++ toString respoData.Meta.Status ++ ", " ++
    respoData.Meta.ErrorMessage ++ ")"
  if respoData.Meta.Status = 200 then (some respoData, none)
  else if respoData.Meta.Status = 400 then
    (none, some (.errorfW addr ("エラーが返却されました: " ++ ErrRespQueryParse.Error ++ tail)
      ErrRespQueryParse))
  else if respoData.Meta.Status = 500 then
    (none, some (.errorfW addr ("エラーが返却されました: " ++ ErrRespInternal.Error ++ tail)
      ErrRespInternal))
  else if respoData.Meta.Status = 503 then
    (none, some (.errorfW addr ("エラーが返却されました: " ++ ErrRespMaintainance.Error ++ tail)
      ErrRespMaintainance))
  else
    (none, some (.errorf addr ("不明なエラーが発生しました: HTTP status code " ++
      toString respoData.Meta.Status ++ ", " ++ respoData.Meta.ErrorMessage)))

/-- `VideoClient.SearchVideo`: the returned pair `(*SearchVideoResponse, error)`,
`none` for `nil`. The query only goes into the request. -/
def SearchVideo (x : SearchExchange) (_query : String) (filters : List String) :
    Option SearchVideoResponse × Option GoError :=
  if filters.any (fun filter => decide ((filter.splitOn "=").length ≠ 2)) then
    (none, some (.errorfW x.addr
      ("filtersパラメーターをセットできません: " ++ ErrFiltersFormat.Error) ErrFiltersFormat))
  else
    match x.joinPathErr with
    | some err => (none, some (.errorfW x.addr ("URLを作成できません: " ++ err.Error) err))
    | none =>
      match x.newRequestErr with
      | some err =>
        (none, some (.errorfW x.addr ("コンテキストを作成できません: " ++ err.Error) err))
      | none =>
        match x.doErr with
        | some err => (none, some err)
        | none =>
          if x.StatusCode = 200 then
            match x.decoded with
            | .error err =>
              (none, some (.errorfW x.addr
                ("レスポンスのデコードに失敗しました: " ++ err.Error) err))
            | .ok respoData => metaStatusResult x.addr respoData
          else if x.StatusCode = 500 then
            (none, some (.errorfW x.addr
              ("動画情報取得に失敗しました: " ++ ErrRespInternal.Error) ErrRespInternal))
          else if x.StatusCode = 503 then
            (none, some (.errorfW x.addr
              ("動画情報取得に失敗しました: " ++ ErrRespMaintainance.Error) ErrRespMaintainance))
          else
            (none, some (.errorf x.addr ("動画情報取得に不明なエラーで失敗しました: HTTP " ++
              toString x.StatusCode ++ " " ++ x.Status)))

/-- An answer with HTTP 200 and the given decoded body, nothing else failing. -/
def okExchange (respoData : SearchVideoResponse) : SearchExchange :=
  { joinPathErr := none, newRequestErr := none, doErr := none, StatusCode := 200,
    Status := "200 OK", decoded := .ok respoData, addr := 100 }

/-- A decoded body with the given `meta.status` and error message, no data. -/
def metaOnly (status : Int) (errorMessage : String) : SearchVideoResponse :=
  { Meta := { Status := status, ID := "", TotalCount := 0, ErrorCode := "",
              ErrorMessage := errorMessage },
    Videos := [] }

/-! ## Configuration (`internal/config/config.go`)

The library functions `strings.TrimSpace` and `strings.ToLower` are the
parameters `trimSpace` and `toLower`; reading and parsing the file are
arguments of the call. -/

/-- `type SearchQuery struct`. -/
structure SearchQuery where
  Query : String
deriving DecidableEq, Repr

/-- `type System struct`. -/
structure System where
  Version : String
deriving DecidableEq, Repr

/-- `type Config struct`; a missing `log` key leaves `Log` empty. -/
structure Config where
  SearchQueries : List SearchQuery
  Log : String
  System : System
deriving DecidableEq, Repr

/-- The loop of `LoadConfig` over the queries: each query is replaced by its
trimmed text; `none` at the first query that is empty after trimming. -/
def trimQueries (trimSpace : String → String) : List SearchQuery → Option (List SearchQuery)
  | [] => some []
  | q :: qs =>
    if trimSpace q.Query = "" then none
    else (trimQueries trimSpace qs).map (fun l => { Query := trimSpace q.Query } :: l)

/-- The log level `LoadConfig` checks and stores. -/
def normaliseLog (trimSpace toLower : String → String) (log : String) : String :=
  if toLower (trimSpace log) = "" then "info" else toLower (trimSpace log)

/-- `LoadConfig`: the returned pair `(*Config, error)`. `file` is the result of
`os.ReadFile`, `unmarshal` that of `json.Unmarshal` into a `Config`, `addr` the
address of the error value a failure allocates. -/
def LoadConfig (trimSpace toLower : String → String) (addr : Nat)
    (file : Except GoError String) (unmarshal : String → Except GoError Config) :
    Option Config × Option GoError :=
  match file with
  | .error err =>
    (none, some (.errorfW addr ("設定ファイルの読み込みに失敗しました: " ++ err.Error) err))
  | .ok data =>
    match unmarshal data with
    | .error err =>
      (none, some (.errorfW addr ("設定ファイルの解析に失敗しました: " ++ err.Error) err))
    | .ok cfg =>
      let logLevel := normaliseLog trimSpace toLower cfg.Log
      if logLevel = "debug" ∨ logLevel = "info" ∨ logLevel = "error" then
        match trimQueries trimSpace cfg.SearchQueries with
        | none =>
          (none, some (.errorf addr ("検索タグ内容を空にすることはできません。" ++
            "APIガイドを参照してください(https://site.nicovideo.jp/search-api-docs/snapshot)。" ++
            "(任意のfilters併用は未対応です)")))
        | some queries =>
          (some { SearchQueries := queries, Log := logLevel, System := { Version := "1.0.0" } },
           none)
      else
        (none, some (.errorf addr "logはdebug/info/errorのいずれかである必要があります。"))

/-- The white space of `unicode.IsSpace`. -/
def isSpace (c : Char) : Bool :=
  c.toNat ∈ [0x09, 0x0A, 0x0B, 0x0C, 0x0D, 0x20, 0x85, 0xA0, 0x1680, 0x2028, 0x2029, 0x202F,
    0x205F, 0x3000] || (0x2000 ≤ c.toNat && c.toNat ≤ 0x200A)

/-- `strings.TrimSpace` on a string of valid code points. -/
def goTrimSpace (s : String) : String :=
  String.mk ((s.data.dropWhile isSpace).reverse.dropWhile isSpace).reverse

/-- `strings.ToLower` on a string whose letters are ASCII letters. -/
def asciiToLower (s : String) : String :=
  String.mk (s.data.map Char.toLower)

/-- The configuration of `TestLoadConfig_Success`, as parsed. -/
def testConfig : Config :=
  { SearchQueries := [{ Query := "  VOCALOID  " }, { Query := "ソフトウェアトーク劇場" }],
    Log := "DEBUG", System := { Version := "" } }

/-- A configuration whose level and query are padded with white space. -/
def paddedConfig : Config :=
  { SearchQueries := [{ Query := "\t VOCALOID \n" }], Log := " Error\t\n",
    System := { Version := "" } }

/-! ## Rendering and the published feed (`internal/rss/rss.go`,
`internal/repository/rss.go`) -/

/-- The library functions the rendering, the feed and the scheduler call:
`time.Time.Format(time.RFC822)`, `time.Time.Unix`, `url.PathEscape`,
`crc32.ChecksumIEEE`, `time.Time.AddDate` (years, months, days) and
`time.Date(y, m, d, 5, 0, 0, 0, loc)` for the date and location of its
argument. -/
structure Lib where
  formatRFC822 : Int → String
  unix : Int → Int
  pathEscape : String → String
  crc32 : List UInt8 → Nat
  addDate : Int → Int → Int → Int → Int
  atFive : Int → Int

/-- `type GUID struct`. -/
structure GUID where
  Value : String
  IsPermaLink : Bool
deriving DecidableEq, Repr

/-- `type Enclosure struct`; `MediaType` is the field `Type`. -/
structure Enclosure where
  URL : String
  Length : Int
  MediaType : String
deriving DecidableEq, Repr

/-- `type Category struct`. -/
structure Category where
  Value : String
  Domain : String
deriving DecidableEq, Repr

/-- `type Item struct`; `Enclosure` is a pointer, `none` for `nil`. -/
structure Item where
  Title : String
  Link : String
  Description : String
  PubDate : String
  GUID : GUID
  Enclosure : Option Enclosure
  Category : List Category
deriving DecidableEq, Repr

/-- `NotificationLevel.String`. -/
def NotificationLevel.String (n : NotificationLevel) : String :=
  if n = NotificationInfo then "INFO"
  else if n = NotificationError then "ERROR"
  else "UNKNOWN"

/-- `Video.URL`. -/
def Video.URL (v : Video) : String := "https://nico.ms/" ++ v.ID

/-- `TagSearchURL`. -/
def TagSearchURL (lib : Lib) (tag : String) : String :=
  "https://www.nicovideo.jp/tag/" ++ lib.pathEscape tag

/-- `Video.Tags`. -/
def Video.Tags (v : Video) : List String := v.TagsConnectedStr.splitOn " "

/-- The item `GenerateRSS` makes of a notification. -/
def notificationItem (lib : Lib) (n : Notification GoError) : Item :=
  let desc := if n.AllowDuplication = true ∧ n.DuplicateCount > 0
    then n.Description.Error ++ "(重複: " ++ toString (n.DuplicateCount + 1) ++ "件)"
    else n.Description.Error
  let title := "[" ++ NotificationLevel.String n.Level ++ "] " ++ n.Title
  { Title := title, Link := "", Description := desc, PubDate := lib.formatRFC822 n.Date,
    GUID := { Value := toString (lib.unix n.Date) ++ "-" ++ title, IsPermaLink := false },
    Enclosure := none, Category := [] }

/-- The item `GenerateRSS` makes of a record: the enclosure is attached when
the thumbnail URL and type are non-empty and the length is positive. -/
def videoItem (lib : Lib) (v : Video) : Item :=
  { Title := v.Title, Link := v.URL, Description := v.Description,
    PubDate := lib.formatRFC822 v.StartTime,
    GUID := { Value := v.URL, IsPermaLink := true },
    Enclosure :=
      if v.ThumbnailURL ≠ "" ∧ v.ThumbnailType ≠ "" ∧ v.ThumbnailLength > 0 then
        some { URL := v.ThumbnailURL, MediaType := v.ThumbnailType,
               Length := v.ThumbnailLength }
      else none,
    Category :=
      if v.TagsConnectedStr ≠ "" then
        v.Tags.map (fun tag => { Value := tag, Domain := TagSearchURL lib tag })
      else [] }

/-- The items of the channel `GenerateRSS` marshals: the notifications, then
the records. -/
def feedItems (lib : Lib) (notifications : List (Notification GoError))
    (videos : List Video) : List Item :=
  notifications.map (notificationItem lib) ++ videos.map (videoItem lib)

/-- `GenerateRSS`; `marshal` is `xml.MarshalIndent` on the channel with these
items. -/
def GenerateRSS (lib : Lib) (marshal : List Item → Except GoError (List UInt8))
    (notifications : List (Notification GoError)) (videos : List Video) :
    Except GoError (List UInt8) :=
  marshal (feedItems lib notifications videos)

/-- `type RSSRepository struct`, without the lock. -/
structure RSSRepository where
  data : List UInt8
  ModifiedAt : Int
  Etag : String
deriving DecidableEq, Repr

/-- `NewRSSRepository`, at time `now`. -/
def NewRSSRepository (now : Int) : RSSRepository :=
  { data := [], ModifiedAt := now, Etag := "" }

/-- The entity tag `SetFeed` computes: `fmt.Sprintf("W/%d-%x", len, crc32)`. -/
def etagOf (lib : Lib) (data : List UInt8) : String :=
  "W/" ++ toString data.length ++ "-" ++ String.mk (Nat.toDigits 16 (lib.crc32 data))

/-- `RSSRepository.SetFeed`, at time `now`; the three assignments are made
under the write lock. -/
def SetFeed (lib : Lib) (r : RSSRepository) (data : List UInt8) (now : Int) : RSSRepository :=
  { r with data := data, ModifiedAt := now, Etag := etagOf lib data }

/-- `RSSRepository.Feed`: the payload, read under the read lock. -/
def Feed (r : RSSRepository) : List UInt8 := r.data

/-- What the HTTP handler of `main` hands to the client: the `ETag` header,
the modification time and the body. -/
structure Served where
  etag : String
  modifiedAt : Int
  payload : List UInt8
deriving DecidableEq, Repr

/-- The three values of one state of the repository. -/
def snapshotOf (r : RSSRepository) : Served :=
  { etag := r.Etag, modifiedAt := r.ModifiedAt, payload := Feed r }

/-- The worker goroutine may run `SetFeed data` at time `now` at this point. -/
def publishIf (lib : Lib) (r : RSSRepository) (p : Option (List UInt8 × Int)) : RSSRepository :=
  match p with
  | none => r
  | some (data, now) => SetFeed lib r data now

/-- The HTTP handler of `main`, run while the worker goroutine publishes. The
handler reads the field `rRepo.Etag`, then the field `rRepo.ModifiedAt`, then
calls `rRepo.Feed()`; only the last takes the lock, and the lock is not held
from one read to the next. `p0`, `p1`, `p2` tell whether a `SetFeed` runs
before the first, the second and the third read. The result is what is served
and the repository afterwards. -/
def handler (lib : Lib) (r : RSSRepository) (p0 p1 p2 : Option (List UInt8 × Int)) :
    Served × RSSRepository :=
  let r0 := publishIf lib r p0
  let etag := r0.Etag
  let r1 := publishIf lib r0 p1
  let modifiedAt := r1.ModifiedAt
  let r2 := publishIf lib r1 p2
  ({ etag := etag, modifiedAt := modifiedAt, payload := Feed r2 }, r2)

/-! ## Scheduler (`main.go`, function `worker`)

The scheduler is sequential. What the world outside does is an argument: the
result and duration of each call, and, for each `select`, whether the context
is done before the timer fires. A duration is a number of nanoseconds. -/

/-- `thumbnailMeta`; `MediaType` is the field `Type`. -/
structure thumbnailMeta where
  URL : String
  MediaType : String
  Length : Int
deriving DecidableEq, Repr

/-- One `SearchVideo` call as `doVideo` sees it: the returned response or
error, `reqEndAt.Sub(reqBeginAt)`, and the time of the `AddNotification` that
follows a failure. -/
structure SearchCall where
  result : Except GoError SearchVideoResponse
  reqTime : Int
  notifiedAt : Int

/-- One `FetchThumbnailMeta` call as `doThumbnail` sees it. -/
structure FetchCall where
  result : Except GoError thumbnailMeta
  reqTime : Int
  notifiedAt : Int

/-- What the scheduler does, in order: a `SearchVideo` call for query `i`, an
`AddSortedVideos`, an `AddNotification`, a pacing wait on `time.After(d)`, a
`FetchThumbnailMeta` call for record `i`, the `FetchLastModified` call, and
`SetFeed`. -/
inductive Action where
  | search (i : Nat) (query : String) (rangeStart rangeEnd : Int)
  | merge (videos : List Video)
  | notify (now : Int) (level : NotificationLevel) (title : String) (cause : GoError)
      (allowDuplication : Bool)
  | wait (d : Int)
  | fetch (i : Nat) (thumbnailURL : String)
  | fetchLastModified
  | publish (data : List UInt8)
deriving DecidableEq, Repr

/-- `time.Second`. -/
def second : Int := 1000000000

/-- `time.Minute`. -/
def minute : Int := 60 * second

/-- `LOOP_INTERVAL`. -/
def LOOP_INTERVAL : Int := 15 * minute

/-- `ERROR_KEEPON_THRESHOLD`. -/
def ERROR_KEEPON_THRESHOLD : Nat := 5

/-- Title of the event for a failed query after which the pass goes on. -/
def searchErrorTitle : String := "動画検索の際にエラーが発生しました。"

/-- Title of the event for a failed query that ends the pass. -/
def searchAbortTitle : String :=
  "動画検索の際にエラーが発生しました。次回検索はクールダウン後になります。"

/-- Title of the event that ends the enrichment pass. -/
def thumbnailAbortTitle : String :=
  "サムネイル画像情報取得の際に連続でエラーが発生しました。次回取得はクールダウン後になります。"

/-- Title of the event recorded when the search pass is skipped. -/
def skipTitle : String := "更新を一時停止中..."

/-- Text of the error recorded when the search pass is skipped. -/
def skipText : String := "動画スナップショットAPIのデータ切り替えを待っています"

/-- The test of `doVideo` after a failed call:
`errors.Is(err, ErrFiltersFormat) || errors.Is(err, ErrRespQueryParse)`. -/
def recoverable (err : GoError) : Bool :=
  errorsIs err ErrFiltersFormat || errorsIs err ErrRespQueryParse

/-- The pacing wait of `doVideo`: one minute, or the request time if longer. -/
def queryWaitTime (reqTime : Int) : Int :=
  if reqTime > minute then reqTime else minute

/-- The pacing wait of `doThumbnail`: one second, or the request time if
longer. -/
def fetchWaitTime (reqTime : Int) : Int :=
  if reqTime > second then reqTime else second

/-- The state a pass leaves: the two repositories, whether the pass saw the
context done, and what it did. -/
structure PassResult where
  vRepo : VideoRepository
  nRepo : NotificationRepository GoError
  cancelled : Bool
  actions : List Action

/-- The same result with `acts` done before. -/
def PassResult.after (acts : List Action) (r : PassResult) : PassResult :=
  { r with actions := acts ++ r.actions }

/-- The `for i, q := range queries` loop of `doVideo` from index `i` on, `n`
being `len(queries)`. `none` is a panic of `AddSortedVideos`. -/
def doVideoLoop (search : Nat → SearchCall) (cancelInWait : Nat → Bool) (n : Nat)
    (rangeStart rangeEnd : Int) :
    Nat → List SearchQuery → VideoRepository → NotificationRepository GoError →
      Option PassResult
  | _, [], vRepo, nRepo =>
    some { vRepo := vRepo, nRepo := nRepo, cancelled := false, actions := [] }
  | i, q :: qs, vRepo, nRepo =>
    match (search i).result with
    | .error err =>
      if recoverable err then
        (doVideoLoop search cancelInWait n rangeStart rangeEnd (i + 1) qs vRepo
          (AddNotification errorsIs (search i).notifiedAt nRepo NotificationError
            searchErrorTitle err true)).map
          (PassResult.after [.search i q.Query rangeStart rangeEnd,
            .notify (search i).notifiedAt NotificationError searchErrorTitle err true])
      else
        some { vRepo := vRepo,
               nRepo := AddNotification errorsIs (search i).notifiedAt nRepo NotificationError
                 searchAbortTitle err true,
               cancelled := false,
               actions := [.search i q.Query rangeStart rangeEnd,
                 .notify (search i).notifiedAt NotificationError searchAbortTitle err true] }
    | .ok resp =>
      match AddSortedVideos vRepo resp.Videos with
      | none => none
      | some (vRepo', _) =>
        if (i : Int) < (n : Int) - 1 then
          if cancelInWait i then
            some { vRepo := vRepo', nRepo := nRepo, cancelled := true,
                   actions := [.search i q.Query rangeStart rangeEnd, .merge resp.Videos,
                     .wait (queryWaitTime (search i).reqTime)] }
          else
            (doVideoLoop search cancelInWait n rangeStart rangeEnd (i + 1) qs vRepo' nRepo).map
              (PassResult.after [.search i q.Query rangeStart rangeEnd, .merge resp.Videos,
                .wait (queryWaitTime (search i).reqTime)])
        else
          (doVideoLoop search cancelInWait n rangeStart rangeEnd (i + 1) qs vRepo' nRepo).map
            (PassResult.after [.search i q.Query rangeStart rangeEnd, .merge resp.Videos])

/-- `doVideo`. -/
def doVideo (search : Nat → SearchCall) (cancelInWait : Nat → Bool)
    (rangeStart rangeEnd : Int) (queries : List SearchQuery) (vRepo : VideoRepository)
    (nRepo : NotificationRepository GoError) : Option PassResult :=
  doVideoLoop search cancelInWait queries.length rangeStart rangeEnd 0 queries vRepo nRepo

/-- The condition under which `doThumbnail` fetches the metadata of a record:
`v.ThumbnailType == "" || v.ThumbnailLength == 0`. -/
def needsFetch (v : Video) : Bool :=
  decide (v.ThumbnailType = "") || decide (v.ThumbnailLength = 0)

/-- What the loop of `doThumbnail` leaves: the records from the current index
on, the event log, whether the loop returned on a done context, and what it
did. -/
structure ThumbResult where
  videos : List Video
  nRepo : NotificationRepository GoError
  cancelled : Bool
  actions : List Action

/-- The same result with record `v` before and `acts` done before. -/
def ThumbResult.after (v : Video) (acts : List Action) (r : ThumbResult) : ThumbResult :=
  { r with videos := v :: r.videos, actions := acts ++ r.actions }

/-- The `for i, v := range vRepo.Videos` loop of `doThumbnail` from index `i`
on, `n` being `len(vRepo.Videos)`, `errorCount` the counter and `done` whether
the context was done when the pass began. -/
def doThumbnailLoop (fetch : Nat → FetchCall) (cancelInWait : Nat → Bool) (done : Bool)
    (n : Nat) : Nat → List Video → Nat → NotificationRepository GoError → ThumbResult
  | _, [], _, nRepo => { videos := [], nRepo := nRepo, cancelled := false, actions := [] }
  | i, v :: vs, errorCount, nRepo =>
    if needsFetch v then
      match (fetch i).result with
      | .error err =>
        if errorCount + 1 ≥ ERROR_KEEPON_THRESHOLD then
          { videos := v :: vs,
            nRepo := AddNotification errorsIs (fetch i).notifiedAt nRepo NotificationError
              thumbnailAbortTitle err true,
            cancelled := false,
            actions := [.fetch i v.ThumbnailURL,
              .notify (fetch i).notifiedAt NotificationError thumbnailAbortTitle err true] }
        else
          (doThumbnailLoop fetch cancelInWait done n (i + 1) vs (errorCount + 1) nRepo).after v
            [.fetch i v.ThumbnailURL]
      | .ok thumbMeta =>
        if (i : Int) < (n : Int) - 1 then
          if done || cancelInWait i then
            { videos := { v with ThumbnailType := thumbMeta.MediaType,
                                 ThumbnailLength := thumbMeta.Length } :: vs,
              nRepo := nRepo, cancelled := true,
              actions := [.fetch i v.ThumbnailURL, .wait (fetchWaitTime (fetch i).reqTime)] }
          else
            (doThumbnailLoop fetch cancelInWait done n (i + 1) vs 0 nRepo).after
              { v with ThumbnailType := thumbMeta.MediaType,
                       ThumbnailLength := thumbMeta.Length }
              [.fetch i v.ThumbnailURL, .wait (fetchWaitTime (fetch i).reqTime)]
        else
          (doThumbnailLoop fetch cancelInWait done n (i + 1) vs 0 nRepo).after
            { v with ThumbnailType := thumbMeta.MediaType,
                     ThumbnailLength := thumbMeta.Length }
            [.fetch i v.ThumbnailURL]
    else
      (doThumbnailLoop fetch cancelInWait done n (i + 1) vs errorCount nRepo).after v []

/-- `doThumbnail`; the records are changed in place. `cancelled` tells whether
the context is known to be done when the pass is over. -/
def doThumbnail (fetch : Nat → FetchCall) (cancelInWait : Nat → Bool) (done : Bool)
    (vRepo : VideoRepository) (nRepo : NotificationRepository GoError) : PassResult :=
  let r := doThumbnailLoop fetch cancelInWait done vRepo.Videos.length 0 vRepo.Videos 0 nRepo
  { vRepo := { vRepo with Videos := r.videos }, nRepo := r.nRepo,
    cancelled := done || r.cancelled, actions := r.actions }

/-- The state of `worker` between cycles. -/
structure WorkerState where
  vRepo : VideoRepository
  nRepo : NotificationRepository GoError
  rRepo : RSSRepository
  noNewDataLater : Int

/-- What the world outside does during one cycle of `worker`: the clock at the
start, the search and fetch calls and whether the context is done in the wait
after each, the address and time of the event of a skipped search, the result
of `FetchLastModified`, the clock of the fallback, the clock of `SetFeed`, and
whether the context is done in the final `select`. -/
structure CycleEnv where
  now : Int
  search : Nat → SearchCall
  cancelInQueryWait : Nat → Bool
  fetch : Nat → FetchCall
  cancelInFetchWait : Nat → Bool
  skipAddr : Nat
  skipNotifiedAt : Int
  lastModified : Except GoError Int
  fallbackNow : Int
  publishedAt : Int
  cancelInSleep : Bool

/-- The part of a cycle up to the search pass: the log is cleared, the window
is computed, and either `doVideo` runs or one event is recorded. -/
def searchOrSkip (lib : Lib) (env : CycleEnv) (queries : List SearchQuery)
    (st : WorkerState) : Option PassResult :=
  let nRepo := ClearNotifications st.nRepo
  let searchStart := lib.addDate env.now 0 0 (-1)
  let searchEnd := lib.addDate searchStart (-1) 0 0
  if searchStart < st.noNewDataLater + LOOP_INTERVAL then
    doVideo env.search env.cancelInQueryWait searchStart searchEnd queries st.vRepo nRepo
  else
    some { vRepo := st.vRepo,
           nRepo := AddNotification errorsIs env.skipNotifiedAt nRepo NotificationInfo skipTitle
             (.new env.skipAddr skipText) true,
           cancelled := false,
           actions := [.notify env.skipNotifiedAt NotificationInfo skipTitle
             (.new env.skipAddr skipText) true] }

/-- One cycle of the `for` loop of `worker`: the state after it, what it did,
and whether the loop returns in the final `select`. `none` is a panic. -/
def cycle (lib : Lib) (marshal : List Item → Except GoError (List UInt8)) (env : CycleEnv)
    (queries : List SearchQuery) (st : WorkerState) :
    Option (WorkerState × List Action × Bool) :=
  match searchOrSkip lib env queries st with
  | none => none
  | some p1 =>
    let p2 := doThumbnail env.fetch env.cancelInFetchWait p1.cancelled p1.vRepo p1.nRepo
    let noNewDataLater :=
      match env.lastModified with
      | .error _ => env.fallbackNow
      | .ok lastModified => lib.atFive lastModified
    match GenerateRSS lib marshal p2.nRepo.Notifications p2.vRepo.Videos with
    | .error _ => none
    | .ok rssBytes =>
      some ({ vRepo := p2.vRepo, nRepo := p2.nRepo,
              rRepo := SetFeed lib st.rRepo rssBytes env.publishedAt,
              noNewDataLater := noNewDataLater },
            p1.actions ++ p2.actions ++ [.fetchLastModified, .publish rssBytes],
            p2.cancelled || env.cancelInSleep)

/-- The loop of `worker` over the cycles whose outside world is given: it ends
with the cycle whose final `select` returns. -/
def worker (lib : Lib) (marshal : List Item → Except GoError (List UInt8))
    (queries : List SearchQuery) : List CycleEnv → WorkerState →
      Option (WorkerState × List Action)
  | [], st => some (st, [])
  | env :: envs, st =>
    match cycle lib marshal env queries st with
    | none => none
    | some (st', acts, exit) =>
      if exit then some (st', acts)
      else (worker lib marshal queries envs st').map (fun r => (r.1, acts ++ r.2))

/-- No index `j` with `s ≤ j < i` ends the pass. -/
def noStopBetween (stops : Nat → Bool) (s i : Nat) : Bool :=
  (List.range' s (i - s)).all (fun j => !stops j)

/-- The elements of `l`, numbered from `s`, that a pass reaches when it goes
through `l` in order and ends after the first index at which `stops` holds. -/
def issuedFrom {α : Type} (stops : Nat → Bool) (s : Nat) (l : List α) : List (Nat × α) :=
  (l.enumFrom s).filter (fun p => noStopBetween stops s p.1)

/-- The search pass ends after query `i`: the call fails with an error that is
not recoverable, or it succeeds, `i` is not the last query and the context is
done in the wait. -/
def searchStops (search : Nat → SearchCall) (cancelInWait : Nat → Bool) (n : Nat)
    (i : Nat) : Bool :=
  match (search i).result with
  | .error err => !recoverable err
  | .ok _ => decide ((i : Int) < (n : Int) - 1) && cancelInWait i

/-- What the search pass does for query `i` when it reaches it. -/
def queryActions (search : Nat → SearchCall) (n : Nat) (rangeStart rangeEnd : Int)
    (p : Nat × SearchQuery) : List Action :=
  .search p.1 p.2.Query rangeStart rangeEnd ::
    match (search p.1).result with
    | .error err =>
      [.notify (search p.1).notifiedAt NotificationError
        (if recoverable err then searchErrorTitle else searchAbortTitle) err true]
    | .ok resp =>
      .merge resp.Videos ::
        (if (p.1 : Int) < (n : Int) - 1 then [.wait (queryWaitTime (search p.1).reqTime)]
         else [])

/-- The store after the `AddSortedVideos` calls among the actions. -/
def replayStore : List Action → VideoRepository → Option VideoRepository
  | [], vRepo => some vRepo
  | .merge videos :: acts, vRepo =>
    (AddSortedVideos vRepo videos).bind (fun r => replayStore acts r.1)
  | _ :: acts, vRepo => replayStore acts vRepo

/-- The event log after the `AddNotification` calls among the actions. -/
def replayLog : List Action → NotificationRepository GoError → NotificationRepository GoError
  | [], nRepo => nRepo
  | .notify now level title cause allow :: acts, nRepo =>
    replayLog acts (AddNotification errorsIs now nRepo level title cause allow)
  | _ :: acts, nRepo => replayLog acts nRepo

/-- The fetch for record `i` fails. -/
def fetchFails (fetch : Nat → FetchCall) (i : Nat) : Bool :=
  match (fetch i).result with
  | .error _ => true
  | .ok _ => false

/-- The number of failed fetches in a row at the end of the first `k` records,
with no successful fetch in between; records that need no fetch are left out. -/
def failRun (fetch : Nat → FetchCall) (videos : List Video) (k : Nat) : Nat :=
  ((((videos.enumFrom 0).take k).filter (fun p => needsFetch p.2)).reverse.takeWhile
    (fun p => fetchFails fetch p.1)).length

/-- The enrichment pass ends after record `i`: the record needs a fetch, and
the fetch fails as one of `ERROR_KEEPON_THRESHOLD` or more failures in a row,
or it succeeds, `i` is not the last record and the context is done in the
wait. -/
def thumbStops (fetch : Nat → FetchCall) (cancelInWait : Nat → Bool) (done : Bool) (n : Nat)
    (videos : List Video) (i : Nat) : Bool :=
  match videos[i]? with
  | none => false
  | some v =>
    needsFetch v &&
      match (fetch i).result with
      | .error _ => decide (ERROR_KEEPON_THRESHOLD ≤ failRun fetch videos (i + 1))
      | .ok _ => decide ((i : Int) < (n : Int) - 1) && (done || cancelInWait i)

/-- What the enrichment pass does for record `i` when it reaches it. -/
def recordActions (fetch : Nat → FetchCall) (n : Nat) (videos : List Video)
    (p : Nat × Video) : List Action :=
  if needsFetch p.2 then
    .fetch p.1 p.2.ThumbnailURL ::
      match (fetch p.1).result with
      | .error err =>
        if ERROR_KEEPON_THRESHOLD ≤ failRun fetch videos (p.1 + 1) then
          [.notify (fetch p.1).notifiedAt NotificationError thumbnailAbortTitle err true]
        else []
      | .ok _ =>
        if (p.1 : Int) < (n : Int) - 1 then [.wait (fetchWaitTime (fetch p.1).reqTime)] else []
  else []

/-- Record `i` after the pass reached it: filled from a successful fetch if it
needed one, unchanged otherwise. -/
def visited (fetch : Nat → FetchCall) (p : Nat × Video) : Video :=
  if needsFetch p.2 then
    match (fetch p.1).result with
    | .error _ => p.2
    | .ok thumbMeta =>
      { p.2 with ThumbnailType := thumbMeta.MediaType, ThumbnailLength := thumbMeta.Length }
  else p.2

/-- A successful `SearchVideo` call returning the given records, taking
`reqTime`. -/
def okSearch (videos : List Video) (reqTime : Int) : SearchCall :=
  { result := .ok { Meta := (metaOnly 200 "").Meta, Videos := videos }, reqTime := reqTime,
    notifiedAt := 0 }

/-- A failed `SearchVideo` call. -/
def failedSearch (err : GoError) : SearchCall :=
  { result := .error err, reqTime := second, notifiedAt := 7 }

/-- An error wrapping `ErrRespQueryParse`, as `SearchVideo` returns for
`meta.status` 400. -/
def queryRejected : GoError := .errorfW 100 "query parse error" ErrRespQueryParse

/-- An error wrapping `ErrRespInternal`. -/
def serverInternal : GoError := .errorfW 101 "please retry later" ErrRespInternal

/-- Four queries: the first is rejected, the second succeeds in 90 s, the
third fails with a server error, the fourth would succeed. -/
def mixedSearch (i : Nat) : SearchCall :=
  if i = 0 then failedSearch queryRejected
  else if i = 1 then okSearch [mkVideo "v1" 1] (90 * second)
  else if i = 2 then failedSearch serverInternal
  else okSearch [] second

/-- The context is never done in a wait. -/
def neverDone : Nat → Bool := fun _ => false

/-- The context is done in the wait after step 0. -/
def doneInFirstWait : Nat → Bool := fun i => decide (i = 0)

/-- Four configured queries. -/
def fourQueries : List SearchQuery :=
  [{ Query := "a" }, { Query := "b" }, { Query := "c" }, { Query := "d" }]

/-- Two configured queries. -/
def twoQueries : List SearchQuery := [{ Query := "a" }, { Query := "b" }]

/-- The empty repository of capacity 200 of `main`. -/
def emptyRepo200 : VideoRepository := { Videos := [], seenIDs := ∅, Capacity := 200 }

/-- The action is an `AddNotification`. -/
def Action.isNotify : Action → Bool
  | .notify _ _ _ _ _ => true
  | _ => false

/-- Stand-ins for the library functions, for evaluating examples: times print
as their number, a day is 86400 s, nothing is escaped, the checksum is 0. -/
def demoLib : Lib :=
  { formatRFC822 := fun t => toString t, unix := fun t => t / second,
    pathEscape := fun tag => tag, crc32 := fun _ => 0,
    addDate := fun t years months days => t + (365 * years + 30 * months + days) * (86400 * second),
    atFive := fun t => t }

/-- A successful `FetchThumbnailMeta` call: a JPEG of 6337 bytes, in `reqTime`. -/
def okFetch (reqTime : Int) : FetchCall :=
  { result := .ok { URL := "u", MediaType := "image/jpeg", Length := 6337 },
    reqTime := reqTime, notifiedAt := 0 }

/-- A failed `FetchThumbnailMeta` call. -/
def failedFetch : FetchCall :=
  { result := .error serverInternal, reqTime := second, notifiedAt := 9 }

/-- A record with the given id whose thumbnail metadata is not known yet. -/
def bareVideo (id : String) (t : Int) : Video :=
  { mkVideo id t with ThumbnailURL := "https://img/" ++ id }

/-- A record whose thumbnail metadata is known. -/
def fullVideo (id : String) (t : Int) : Video :=
  { mkVideo id t with
      ThumbnailURL := "https://img/" ++ id, ThumbnailType := "image/jpeg",
      ThumbnailLength := 6337 }

/-- A record fetched from a server that gave no length: the type is known and
the length is -1. -/
def noLengthVideo : Video :=
  { mkVideo "v9" 9 with
      ThumbnailURL := "https://img/v9", ThumbnailType := "image/jpeg",
      ThumbnailLength := -1 }

/-- A store with one populated record and one record without metadata. -/
def twoRecordRepo : VideoRepository :=
  { Videos := [fullVideo "v2" 2, bareVideo "v1" 1], seenIDs := {"v2", "v1"}, Capacity := 200 }

/-- A store of six records, none with thumbnail metadata. -/
def sixBareRepo : VideoRepository :=
  { Videos := [bareVideo "v6" 6, bareVideo "v5" 5, bareVideo "v4" 4, bareVideo "v3" 3,
      bareVideo "v2" 2, bareVideo "v1" 1],
    seenIDs := {"v6", "v5", "v4", "v3", "v2", "v1"}, Capacity := 200 }

/-- A store of two records, none with thumbnail metadata. -/
def twoBareRepo : VideoRepository :=
  { Videos := [bareVideo "v2" 2, bareVideo "v1" 1], seenIDs := {"v2", "v1"}, Capacity := 200 }

/-- Three configured queries. -/
def threeQueries : List SearchQuery := [{ Query := "a" }, { Query := "b" }, { Query := "c" }]

/-- Every query succeeds with nothing new: the first call takes 90 s, the
others 10 s. -/
def pacedSearch (i : Nat) : SearchCall :=
  if i = 0 then okSearch [] (90 * second) else okSearch [] (10 * second)

/-- The action is an `AddNotification` of level `NotificationInfo`. -/
def Action.isInfo : Action → Bool
  | .notify _ level _ _ _ => decide (level = NotificationInfo)
  | _ => false

/-- The action is a `SearchVideo` call. -/
def Action.isSearch : Action → Bool
  | .search _ _ _ _ => true
  | _ => false

/-- A marshaller that never fails, for evaluating examples. -/
def demoMarshal : List Item → Except GoError (List UInt8) := fun _ => .ok []

/-- A cycle starting at time `now` in which every search call succeeds with
nothing new, every fetch fails, the context is done in the wait after the
steps `cancelAt` of the search pass, and the freshness fetch fails. -/
def demoEnv (now : Int) (cancelAt : Nat → Bool) : CycleEnv :=
  { now := now, search := fun _ => okSearch [] second, cancelInQueryWait := cancelAt,
    fetch := fun _ => failedFetch, cancelInFetchWait := neverDone, skipAddr := 50,
    skipNotifiedAt := now, lastModified := .error serverInternal, fallbackNow := now,
    publishedAt := now, cancelInSleep := false }

/-- The state of `worker` at the first cycle when it starts at time `now`, but
with one record in the store. -/
def demoState (now : Int) : WorkerState :=
  { vRepo := { Videos := [bareVideo "v1" 1], seenIDs := {"v1"}, Capacity := 200 },
    nRepo := ⟨[]⟩, rRepo := NewRSSRepository now, noNewDataLater := now }

/-- The causes passed to `AddNotification` in a call sequence, in order. -/
def causesOf {E : Type} (calls : List (LogCall E)) : List E :=
  calls.filterMap (fun c =>
    match c with
    | .add _ _ _ description _ => some description
    | .clear => none)

/-- Two duplicate-tolerant adds: first an error that wraps `ErrRespQueryParse`,
as `SearchVideo` returns it, then `ErrRespQueryParse` itself. -/
def wrappedCalls : List (LogCall GoError) :=
  [.add 0 NotificationError "A" queryRejected true,
   .add 1 NotificationInfo "B" ErrRespQueryParse true]

/-- A call sequence over Go errors: `ErrRespQueryParse` is added twice; the
other causes, a wrapper of `ErrRespInternal` and `ErrRespInternal` itself, are
unrelated to it. -/
def goDedupCalls : List (LogCall GoError) :=
  [.add 0 NotificationError "T" serverInternal true,
   .add 1 NotificationError "T" ErrRespQueryParse true,
   .add 2 NotificationInfo "T2" ErrRespInternal true,
   .add 3 NotificationInfo "T3" ErrRespQueryParse true]

/-! ## Lemmas on the merge -/

theorem mergeSortedVideos_nil_left (nw : List Video) : mergeSortedVideos [] nw = nw := rfl

theorem mergeSortedVideos_nil_right (ex : List Video) : mergeSortedVideos ex [] = ex := by
  cases ex <;> rfl

theorem mergeSortedVideos_cons_cons (e : Video) (es : List Video) (n : Video) (ns : List Video) :
    mergeSortedVideos (e :: es) (n :: ns) =
      if n.StartTime < e.StartTime then e :: mergeSortedVideos es (n :: ns)
      else n :: mergeSortedVideos (e :: es) ns := rfl

theorem mergeSortedVideos_perm (ex : List Video) :
    ∀ nw, (mergeSortedVideos ex nw).Perm (ex ++ nw) := by
  induction ex with
  | nil => intro nw; simp [mergeSortedVideos_nil_left]
  | cons e es ih =>
    intro nw
    induction nw with
    | nil => simp [mergeSortedVideos_nil_right]
    | cons n ns ihn =>
      rw [mergeSortedVideos_cons_cons]
      split
      · exact (ih (n :: ns)).cons e
      · exact (ihn.cons n).trans List.perm_middle.symm

theorem mem_mergeSortedVideos {ex nw : List Video} {v : Video} :
    v ∈ mergeSortedVideos ex nw ↔ v ∈ ex ∨ v ∈ nw := by
  rw [(mergeSortedVideos_perm ex nw).mem_iff, List.mem_append]

theorem length_mergeSortedVideos (ex nw : List Video) :
    (mergeSortedVideos ex nw).length = ex.length + nw.length := by
  rw [(mergeSortedVideos_perm ex nw).length_eq, List.length_append]

/-- Descending order stated for all pairs instead of adjacent ones. -/
theorem sortedDesc_iff_pairwise (l : List Video) :
    SortedDesc l ↔ l.Pairwise (fun a b => b.StartTime ≤ a.StartTime) := by
  haveI : IsTrans Video (fun a b => b.StartTime ≤ a.StartTime) :=
    ⟨fun _ _ _ h1 h2 => le_trans h2 h1⟩
  rw [← List.chain'_iff_pairwise]
  induction l with
  | nil => simp [SortedDesc]
  | cons a l ih =>
    cases l with
    | nil => simp [SortedDesc]
    | cons b l =>
      rw [SortedDesc, List.chain'_cons]
      exact and_congr_right (fun _ => ih)

theorem mergeSortedVideos_pairwise (ex : List Video) :
    ∀ nw, ex.Pairwise (fun a b => b.StartTime ≤ a.StartTime) →
      nw.Pairwise (fun a b => b.StartTime ≤ a.StartTime) →
      (mergeSortedVideos ex nw).Pairwise (fun a b => b.StartTime ≤ a.StartTime) := by
  induction ex with
  | nil => intro nw _ h; simpa [mergeSortedVideos_nil_left] using h
  | cons e es ih =>
    intro nw
    induction nw with
    | nil => intro h _; simpa [mergeSortedVideos_nil_right] using h
    | cons n ns ihn =>
      intro hex hnw
      rw [mergeSortedVideos_cons_cons]
      rw [List.pairwise_cons] at hex hnw
      split
      · rename_i hlt
        rw [List.pairwise_cons]
        refine ⟨?_, ih (n :: ns) hex.2 (List.pairwise_cons.mpr hnw)⟩
        intro b hb
        rcases mem_mergeSortedVideos.mp hb with hb | hb
        · exact hex.1 b hb
        · rcases List.mem_cons.mp hb with rfl | hb
          · exact le_of_lt hlt
          · exact le_trans (hnw.1 b hb) (le_of_lt hlt)
      · rename_i hge
        rw [List.pairwise_cons]
        refine ⟨?_, ihn (List.pairwise_cons.mpr hex) hnw.2⟩
        intro b hb
        have hen : e.StartTime ≤ n.StartTime := not_lt.mp hge
        rcases mem_mergeSortedVideos.mp hb with hb | hb
        · rcases List.mem_cons.mp hb with rfl | hb
          · exact hen
          · exact le_trans (hex.1 b hb) hen
        · exact hnw.1 b hb

/-! ## Lemmas on the filtering loop -/

theorem collectUnseen_sublist (b : List Video) :
    ∀ seen, List.Sublist (collectUnseen b seen).1 b := by
  induction b with
  | nil => intro seen; simp [collectUnseen]
  | cons v vs ih =>
    intro seen
    unfold collectUnseen
    split
    · exact (ih seen).cons v
    · exact (ih _).cons₂ v

theorem collectUnseen_not_mem (b : List Video) :
    ∀ seen, ∀ v ∈ (collectUnseen b seen).1, v.ID ∉ seen := by
  induction b with
  | nil => intro seen v hv; simp [collectUnseen] at hv
  | cons w ws ih =>
    intro seen v hv
    unfold collectUnseen at hv
    split at hv
    · exact ih seen v hv
    · rename_i hw
      rcases List.mem_cons.mp hv with rfl | hv
      · exact hw
      · exact fun h => ih _ v hv (Finset.mem_insert_of_mem h)

theorem collectUnseen_nodup (b : List Video) :
    ∀ seen, ((collectUnseen b seen).1.map Video.ID).Nodup := by
  induction b with
  | nil => intro seen; simp [collectUnseen]
  | cons w ws ih =>
    intro seen
    unfold collectUnseen
    split
    · exact ih seen
    · rw [List.map_cons, List.nodup_cons]
      refine ⟨?_, ih _⟩
      intro hmem
      rcases List.mem_map.mp hmem with ⟨u, hu, hid⟩
      exact collectUnseen_not_mem ws _ u hu (hid ▸ Finset.mem_insert_self _ _)

theorem collectUnseen_seen (b : List Video) :
    ∀ seen, (collectUnseen b seen).2 = seen ∪ (b.map Video.ID).toFinset := by
  induction b with
  | nil => intro seen; simp [collectUnseen]
  | cons w ws ih =>
    intro seen
    unfold collectUnseen
    split
    · rename_i hw
      rw [ih seen]
      ext x
      simp only [Finset.mem_union, List.mem_toFinset, List.map_cons, List.mem_cons]
      constructor
      · rintro (h | h)
        · exact Or.inl h
        · exact Or.inr (Or.inr h)
      · rintro (h | h | h)
        · exact Or.inl h
        · exact Or.inl (h ▸ hw)
        · exact Or.inr h
    · show (collectUnseen ws (insert w.ID seen)).2 = _
      rw [ih _]
      ext x
      simp only [Finset.mem_union, Finset.mem_insert, List.mem_toFinset, List.map_cons,
        List.mem_cons]
      tauto

theorem collectUnseen_seen_eq (b : List Video) :
    ∀ seen, (collectUnseen b seen).2
      = seen ∪ ((collectUnseen b seen).1.map Video.ID).toFinset := by
  induction b with
  | nil => intro seen; simp [collectUnseen]
  | cons w ws ih =>
    intro seen
    unfold collectUnseen
    split
    · exact ih seen
    · show (collectUnseen ws (insert w.ID seen)).2 = _
      rw [ih _]
      ext x
      simp only [Finset.mem_union, Finset.mem_insert, List.mem_toFinset, List.map_cons,
        List.mem_cons]
      tauto

/-- With pairwise distinct ids in the batch the loop is a plain filter. -/
theorem collectUnseen_eq_filter (b : List Video) :
    ∀ seen, (b.map Video.ID).Nodup →
      (collectUnseen b seen).1 = b.filter (fun v => decide (v.ID ∉ seen)) := by
  induction b with
  | nil => intro seen _; simp [collectUnseen]
  | cons w ws ih =>
    intro seen hnd
    rw [List.map_cons, List.nodup_cons] at hnd
    unfold collectUnseen
    split
    · rename_i hw
      rw [ih seen hnd.2, List.filter_cons_of_neg (by simpa using hw)]
    · rename_i hw
      show w :: (collectUnseen ws (insert w.ID seen)).1 = _
      rw [ih _ hnd.2, List.filter_cons_of_pos (by simpa using hw)]
      congr 1
      apply List.filter_congr
      intro x hx
      have hne : x.ID ≠ w.ID := fun h => hnd.1 (h ▸ List.mem_map_of_mem _ hx)
      simp [Finset.mem_insert, hne]

/-! ## Lemmas on trimming -/

theorem deleteIDs_eq (removed : List Video) :
    ∀ seen, deleteIDs seen removed = seen \ (removed.map Video.ID).toFinset := by
  induction removed with
  | nil => intro seen; simp [deleteIDs]
  | cons v vs ih =>
    intro seen
    have h := ih (seen.erase v.ID)
    unfold deleteIDs at h ⊢
    rw [List.foldl_cons, h]
    ext x
    simp only [Finset.mem_sdiff, Finset.mem_erase, List.mem_toFinset, List.map_cons,
      List.mem_cons]
    tauto

theorem ids_take_eq_sdiff (l : List Video) (k : Nat) (hnd : (l.map Video.ID).Nodup) :
    (l.map Video.ID).toFinset \ ((l.drop k).map Video.ID).toFinset
      = ((l.take k).map Video.ID).toFinset := by
  have hsplit : l.map Video.ID = (l.take k).map Video.ID ++ (l.drop k).map Video.ID := by
    rw [← List.map_append, List.take_append_drop]
  rw [hsplit, List.nodup_append] at hnd
  ext x
  constructor
  · intro hx
    rw [Finset.mem_sdiff, List.mem_toFinset, List.mem_toFinset, hsplit, List.mem_append] at hx
    rw [List.mem_toFinset]
    tauto
  · intro hx
    rw [List.mem_toFinset] at hx
    rw [Finset.mem_sdiff, List.mem_toFinset, List.mem_toFinset, hsplit, List.mem_append]
    exact ⟨Or.inl hx, fun h => hnd.2.2 hx h⟩

/-- `TrimToCapacity` in closed form for a non-negative capacity. -/
theorem TrimToCapacity_eq (r : VideoRepository) (h : 0 ≤ r.Capacity) :
    TrimToCapacity r =
      some ({ Videos := r.Videos.take r.Capacity.toNat,
              seenIDs := r.seenIDs \ ((r.Videos.drop r.Capacity.toNat).map Video.ID).toFinset,
              Capacity := r.Capacity },
            (r.Videos.drop r.Capacity.toNat).length) := by
  unfold TrimToCapacity
  split
  · rename_i hle
    have hk : r.Videos.length ≤ r.Capacity.toNat := by omega
    rw [List.take_of_length_le hk, List.drop_of_length_le hk]
    simp
  · rw [if_neg (not_lt.mpr h), deleteIDs_eq]

/-- `AddSortedVideos` in closed form for a non-negative capacity. -/
theorem AddSortedVideos_eq (r : VideoRepository) (batch : List Video) (h : 0 ≤ r.Capacity) :
    AddSortedVideos r batch =
      if (collectUnseen batch r.seenIDs).1 = [] then some (r, 0)
      else some (addMerged r (collectUnseen batch r.seenIDs).1,
                 (collectUnseen batch r.seenIDs).1.length) := by
  unfold AddSortedVideos
  by_cases hb : batch.length = 0
  · have hb' : batch = [] := List.length_eq_zero.mp hb
    subst hb'
    simp [collectUnseen]
  · rw [if_neg hb]
    by_cases hm : (collectUnseen batch r.seenIDs).1 = []
    · have hs := collectUnseen_seen_eq batch r.seenIDs
      rw [hm] at hs
      simp only [hm, List.length_nil, if_true]
      simp at hs
      rw [hs]
    · have hm' : ¬ (collectUnseen batch r.seenIDs).1.length = 0 := by
        rwa [List.length_eq_zero]
      simp only [hm', hm, if_false]
      have ht := TrimToCapacity_eq
        { Videos := mergeSortedVideos r.Videos (collectUnseen batch r.seenIDs).1,
          seenIDs := (collectUnseen batch r.seenIDs).2, Capacity := r.Capacity } h
      rw [ht]
      simp only [addMerged, collectUnseen_seen_eq batch r.seenIDs]

theorem wellFormed_new {c : Int} {r : VideoRepository} (h : NewVideoRepository c = some r) :
    WellFormed r ∧ r.Capacity = c := by
  unfold NewVideoRepository at h
  split at h
  · cases h
  · rename_i hc
    cases h
    exact ⟨⟨not_lt.mp hc, by simpa using not_lt.mp hc, by simp, by simp⟩, rfl⟩

theorem wellFormed_trim {r r' : VideoRepository} {n : Nat} (hwf : WellFormed r)
    (h : TrimToCapacity r = some (r', n)) : WellFormed r' ∧ r'.Capacity = r.Capacity := by
  obtain ⟨hc, _, hnd, hseen⟩ := hwf
  rw [TrimToCapacity_eq r hc] at h
  cases h
  refine ⟨⟨hc, ?_, ?_, ?_⟩, rfl⟩
  · have := List.length_take_le r.Capacity.toNat r.Videos
    show ((r.Videos.take r.Capacity.toNat).length : Int) ≤ r.Capacity
    omega
  · exact hnd.sublist ((List.take_sublist _ _).map _)
  · show r.seenIDs \ _ = _
    rw [hseen, ids_take_eq_sdiff _ _ hnd]

theorem nodup_ids_merge {r : VideoRepository} (batch : List Video)
    (hnd : (r.Videos.map Video.ID).Nodup)
    (hseen : ∀ v ∈ r.Videos, v.ID ∈ r.seenIDs) :
    ((mergeSortedVideos r.Videos (collectUnseen batch r.seenIDs).1).map Video.ID).Nodup := by
  rw [((mergeSortedVideos_perm _ _).map Video.ID).nodup_iff, List.map_append, List.nodup_append]
  refine ⟨hnd, collectUnseen_nodup _ _, ?_⟩
  intro x hx hx'
  rcases List.mem_map.mp hx with ⟨v, hv, rfl⟩
  rcases List.mem_map.mp hx' with ⟨u, hu, hid⟩
  exact collectUnseen_not_mem batch _ u hu (hid ▸ hseen v hv)

theorem wellFormed_add {r r' : VideoRepository} {n : Nat} (batch : List Video)
    (hwf : WellFormed r) (h : AddSortedVideos r batch = some (r', n)) :
    WellFormed r' ∧ r'.Capacity = r.Capacity := by
  obtain ⟨hc, hlen, hnd, hseen⟩ := hwf
  rw [AddSortedVideos_eq r batch hc] at h
  split at h
  · cases h
    exact ⟨⟨hc, hlen, hnd, hseen⟩, rfl⟩
  · cases h
    have hmnd := nodup_ids_merge batch hnd
      (fun v hv => by rw [hseen]; exact List.mem_toFinset.mpr (List.mem_map_of_mem _ hv))
    refine ⟨⟨hc, ?_, ?_, ?_⟩, rfl⟩
    · have := List.length_take_le r.Capacity.toNat
        (mergeSortedVideos r.Videos (collectUnseen batch r.seenIDs).1)
      simp only [addMerged]
      omega
    · exact hmnd.sublist ((List.take_sublist _ _).map _)
    · simp only [addMerged]
      rw [← ids_take_eq_sdiff _ _ hmnd, hseen]
      congr 1
      ext x
      simp only [Finset.mem_union, List.mem_toFinset, List.mem_map, mem_mergeSortedVideos]
      constructor
      · rintro (⟨v, hv, rfl⟩ | ⟨v, hv, rfl⟩)
        · exact ⟨v, Or.inl hv, rfl⟩
        · exact ⟨v, Or.inr hv, rfl⟩
      · rintro ⟨v, hv | hv, rfl⟩
        · exact Or.inl ⟨v, hv, rfl⟩
        · exact Or.inr ⟨v, hv, rfl⟩

theorem wellFormed_applyCall {r r' : VideoRepository} (c : RepoCall) (hwf : WellFormed r)
    (h : applyCall r c = some r') : WellFormed r' ∧ r'.Capacity = r.Capacity := by
  cases c with
  | add batch =>
    simp only [applyCall, Option.map_eq_some', Prod.exists, exists_and_right, exists_eq_right] at h
    obtain ⟨n, hn⟩ := h
    exact wellFormed_add batch hwf hn
  | trim =>
    simp only [applyCall, Option.map_eq_some', Prod.exists, exists_and_right, exists_eq_right] at h
    obtain ⟨n, hn⟩ := h
    exact wellFormed_trim hwf hn

theorem wellFormed_runCalls (calls : List RepoCall) :
    ∀ {r r' : VideoRepository}, WellFormed r → runCalls r calls = some r' →
      WellFormed r' ∧ r'.Capacity = r.Capacity := by
  induction calls with
  | nil => intro r r' hwf h; cases h; exact ⟨hwf, rfl⟩
  | cons c cs ih =>
    intro r r' hwf h
    simp only [runCalls, Option.bind_eq_some] at h
    obtain ⟨r1, h1, h2⟩ := h
    have w1 := wellFormed_applyCall c hwf h1
    have w2 := ih w1.1 h2
    exact ⟨w2.1, w2.2.trans w1.2⟩

theorem wellFormed_runFromNew {c : Int} {calls : List RepoCall} {r : VideoRepository}
    (h : runFromNew c calls = some r) : WellFormed r ∧ r.Capacity = c := by
  simp only [runFromNew, Option.bind_eq_some] at h
  obtain ⟨r0, h0, h1⟩ := h
  have w0 := wellFormed_new h0
  have w1 := wellFormed_runCalls calls w0.1 h1
  exact ⟨w1.1, w1.2.trans w0.2⟩

/-- No call panics on a repository with a non-negative capacity. -/
theorem applyCall_isSome (r : VideoRepository) (c : RepoCall) (h : 0 ≤ r.Capacity) :
    ∃ r', applyCall r c = some r' ∧ r'.Capacity = r.Capacity := by
  cases c with
  | add batch =>
    simp only [applyCall, AddSortedVideos_eq r batch h]
    split
    · exact ⟨r, rfl, rfl⟩
    · exact ⟨_, rfl, rfl⟩
  | trim =>
    simp only [applyCall, TrimToCapacity_eq r h]
    exact ⟨_, rfl, rfl⟩

theorem runCalls_isSome (calls : List RepoCall) :
    ∀ r : VideoRepository, 0 ≤ r.Capacity → ∃ r', runCalls r calls = some r' := by
  induction calls with
  | nil => intro r _; exact ⟨r, rfl⟩
  | cons c cs ih =>
    intro r h
    obtain ⟨r1, h1, hc⟩ := applyCall_isSome r c h
    obtain ⟨r2, h2⟩ := ih r1 (hc ▸ h)
    exact ⟨r2, by simp [runCalls, h1, h2]⟩

theorem runFromNew_isSome (c : Int) (calls : List RepoCall) (h : 0 ≤ c) :
    ∃ r, runFromNew c calls = some r := by
  obtain ⟨r, hr⟩ := runCalls_isSome calls ⟨[], ∅, c⟩ h
  exact ⟨r, by simp [runFromNew, NewVideoRepository, not_lt.mpr h, hr]⟩

theorem TrimToCapacity_videos {r r' : VideoRepository} {n : Nat}
    (h : TrimToCapacity r = some (r', n)) :
    r'.Videos = r.Videos.take r.Capacity.toNat := by
  unfold TrimToCapacity at h
  split at h
  · rename_i hle
    cases h
    exact (List.take_of_length_le (by omega)).symm
  · split at h
    · cases h
    · cases h
      rfl

theorem AddSortedVideos_cases {r r' : VideoRepository} {batch : List Video} {n : Nat}
    (h : AddSortedVideos r batch = some (r', n)) :
    (r'.Videos = r.Videos ∧ n = 0) ∨
    (r'.Videos = (mergeSortedVideos r.Videos (collectUnseen batch r.seenIDs).1).take
        r.Capacity.toNat ∧ n = (collectUnseen batch r.seenIDs).1.length) := by
  unfold AddSortedVideos at h
  split at h
  · cases h
    exact Or.inl ⟨rfl, rfl⟩
  · simp only at h
    split at h
    · cases h
      exact Or.inl ⟨rfl, rfl⟩
    · split at h
      · cases h
      · rename_i r1 k ht
        cases h
        exact Or.inr ⟨TrimToCapacity_videos ht, rfl⟩

theorem AddSortedVideos_sorted {r r' : VideoRepository} {batch : List Video} {n : Nat}
    (hr : SortedDesc r.Videos) (hb : SortedDesc batch)
    (h : AddSortedVideos r batch = some (r', n)) : SortedDesc r'.Videos := by
  rcases AddSortedVideos_cases h with ⟨hv, _⟩ | ⟨hv, _⟩
  · rw [hv]; exact hr
  · rw [hv, sortedDesc_iff_pairwise]
    rw [sortedDesc_iff_pairwise] at hr hb
    exact (mergeSortedVideos_pairwise _ _ hr
      (hb.sublist (collectUnseen_sublist batch r.seenIDs))).sublist (List.take_sublist _ _)

theorem runCalls_adds_sorted (batches : List (List Video)) :
    ∀ r : VideoRepository, 0 ≤ r.Capacity → SortedDesc r.Videos →
      (∀ b ∈ batches, SortedDesc b) →
      ∃ r', runCalls r (batches.map RepoCall.add) = some r' ∧ SortedDesc r'.Videos := by
  induction batches with
  | nil => intro r _ hs _; exact ⟨r, rfl, hs⟩
  | cons b bs ih =>
    intro r hc hs hb
    obtain ⟨r1, h1, hc1⟩ := applyCall_isSome r (.add b) hc
    have h1' := h1
    simp only [applyCall, Option.map_eq_some', Prod.exists, exists_and_right,
      exists_eq_right] at h1'
    obtain ⟨n, hn⟩ := h1'
    have hs1 := AddSortedVideos_sorted hs (hb b (List.mem_cons_self _ _)) hn
    obtain ⟨r2, h2, hs2⟩ := ih r1 (hc1 ▸ hc) hs1
      (fun b' hb' => hb b' (List.mem_cons_of_mem _ hb'))
    exact ⟨r2, by simp [runCalls, h1, h2], hs2⟩

/-! ## The claims -/

/-- C1 (order invariant). If the stored records and the batch are both ordered
newest first, then so are the stored records after `AddSortedVideos`, its trim
included; and on a repository with a non-negative capacity the call returns.
Hence every state reached from `NewVideoRepository c`, `0 ≤ c`, by such calls
exists and is ordered newest first. -/
theorem C1_order_invariant :
    (∀ (r r' : VideoRepository) (batch : List Video) (n : Nat),
        SortedDesc r.Videos → SortedDesc batch →
        AddSortedVideos r batch = some (r', n) → SortedDesc r'.Videos) ∧
    (∀ (r : VideoRepository) (batch : List Video), 0 ≤ r.Capacity →
        (AddSortedVideos r batch).isSome = true) ∧
    (∀ (c : Int) (batches : List (List Video)), 0 ≤ c → (∀ b ∈ batches, SortedDesc b) →
        ∃ r, runFromNew c (batches.map RepoCall.add) = some r ∧ SortedDesc r.Videos) := by
  refine ⟨fun r r' batch n hr hb h => AddSortedVideos_sorted hr hb h, ?_, ?_⟩
  · intro r batch hc
    rw [AddSortedVideos_eq r batch hc]
    split <;> rfl
  · intro c batches hc hb
    obtain ⟨r, hr, hs⟩ := runCalls_adds_sorted batches ⟨[], ∅, c⟩ hc
      (by simp [SortedDesc]) hb
    exact ⟨r, by simp [runFromNew, NewVideoRepository, not_lt.mpr hc, hr], hs⟩

theorem C1_order_invariant_witness :
    AddSortedVideos mergeExampleRepo mergeExampleBatch = some (mergeExampleResult, 2) ∧
      SortedDesc mergeExampleResult.Videos :=
  ⟨by decide,
   C1_order_invariant.1 mergeExampleRepo mergeExampleResult mergeExampleBatch 2
     (by decide) (by decide) (by decide)⟩

/-- C2 (uniqueness invariant). For `0 ≤ c` every sequence of `AddSortedVideos`
and `TrimToCapacity` calls on `NewVideoRepository c`, with arbitrary batches,
runs to a state in which no two stored records share an `ID`. -/
theorem C2_uniqueness_invariant (c : Int) (hc : 0 ≤ c) (calls : List RepoCall) :
    ∃ r, runFromNew c calls = some r ∧ r.Videos.Pairwise (fun a b => a.ID ≠ b.ID) := by
  obtain ⟨r, hr⟩ := runFromNew_isSome c calls hc
  refine ⟨r, hr, ?_⟩
  have h := (wellFormed_runFromNew hr).1.2.2.1
  rw [List.Nodup, List.pairwise_map] at h
  exact h

theorem C2_uniqueness_invariant_witness :
    ∃ r, runFromNew 2 [.add [mkVideo "a" 3, mkVideo "a" 3, mkVideo "b" 2],
        .add [mkVideo "b" 2, mkVideo "c" 1], .trim] = some r ∧
      r.Videos.Pairwise (fun a b => a.ID ≠ b.ID) :=
  C2_uniqueness_invariant 2 (by decide) _

/-- C3 (capacity invariant). For `0 ≤ c` every sequence of `AddSortedVideos`
and `TrimToCapacity` calls on `NewVideoRepository c` runs to a state with
`len(Videos) ≤ Capacity = c`, whatever the batches. -/
theorem C3_capacity_invariant (c : Int) (hc : 0 ≤ c) (calls : List RepoCall) :
    ∃ r, runFromNew c calls = some r ∧ (r.Videos.length : Int) ≤ r.Capacity ∧
      r.Capacity = c := by
  obtain ⟨r, hr⟩ := runFromNew_isSome c calls hc
  have h := wellFormed_runFromNew hr
  exact ⟨r, hr, h.1.2.1, h.2⟩

theorem C3_capacity_invariant_witness :
    ∃ r, runFromNew 1 [.add [mkVideo "a" 3, mkVideo "b" 2, mkVideo "c" 1], .trim] = some r ∧
      (r.Videos.length : Int) ≤ r.Capacity ∧ r.Capacity = 1 :=
  C3_capacity_invariant 1 (by decide) _

/-- C4 (returned count). On a well-formed repository and a batch with pairwise
distinct ids, `AddSortedVideos` returns the number of batch records whose id
was not the id of a stored record before the call; the trim at the end of the
call does not change that number. -/
theorem C4_count_before_trim (r : VideoRepository) (batch : List Video)
    (hwf : WellFormed r) (hb : (batch.map Video.ID).Nodup) :
    ∃ r', AddSortedVideos r batch =
      some (r', (batch.filter (fun v => decide (v.ID ∉ r.Videos.map Video.ID))).length) := by
  obtain ⟨hc, _, _, hseen⟩ := hwf
  have hf : (collectUnseen batch r.seenIDs).1
      = batch.filter (fun v => decide (v.ID ∉ r.Videos.map Video.ID)) := by
    rw [collectUnseen_eq_filter batch _ hb]
    apply List.filter_congr
    intro x _
    simp [hseen]
  rw [AddSortedVideos_eq r batch hc, hf]
  split
  · rename_i h0
    exact ⟨r, by rw [h0]; rfl⟩
  · exact ⟨_, rfl⟩

theorem C4_count_before_trim_witness :
    WellFormed fullRepo ∧
      AddSortedVideos fullRepo [mkVideo "v1" 1, mkVideo "v2" 2] = some (fullRepo, 1) ∧
      ∃ r', AddSortedVideos fullRepo [mkVideo "v1" 1, mkVideo "v2" 2] = some (r',
        ([mkVideo "v1" 1, mkVideo "v2" 2].filter
          (fun v => decide (v.ID ∉ fullRepo.Videos.map Video.ID))).length) :=
  ⟨by decide, by decide,
   C4_count_before_trim fullRepo [mkVideo "v1" 1, mkVideo "v2" 2] (by decide) (by decide)⟩

/-! ### Tie-break -/

theorem precedes_of_pairwise {R : Video → Video → Prop} {a b : Video} :
    ∀ {l : List Video}, l.Pairwise R → a ∈ l → b ∈ l → a ≠ b → ¬ R b a → Precedes a b l := by
  intro l
  induction l with
  | nil => intro _ ha; cases ha
  | cons x xs ih =>
    intro hp ha hb hne hR
    rw [List.pairwise_cons] at hp
    unfold Precedes
    by_cases hxa : x = a
    · subst hxa
      rw [List.indexOf_cons_self, List.indexOf_cons_ne _ (Ne.symm hne).symm]
      exact Nat.succ_pos _
    · have ha' : a ∈ xs := by
        rcases List.mem_cons.mp ha with h | h
        · exact absurd h.symm hxa
        · exact h
      by_cases hxb : x = b
      · subst hxb
        exact absurd (hp.1 a ha') hR
      · have hb' : b ∈ xs := by
          rcases List.mem_cons.mp hb with h | h
          · exact absurd h.symm hxb
          · exact h
        rw [List.indexOf_cons_ne _ hxa, List.indexOf_cons_ne _ hxb]
        exact Nat.succ_lt_succ (ih hp.2 ha' hb' hne hR)

/-- In the merged list no stored record stands before a new record of the same
`StartTime`, when the new list is ordered newest first. -/
theorem mergeSortedVideos_tie (P Q : Video → Prop) (ex : List Video) :
    ∀ nw, (∀ x ∈ ex, ¬ Q x) → (∀ y ∈ nw, ¬ P y) →
      nw.Pairwise (fun a b => b.StartTime ≤ a.StartTime) →
      (mergeSortedVideos ex nw).Pairwise
        (fun x y => ¬ (P x ∧ Q y ∧ x.StartTime = y.StartTime)) := by
  induction ex with
  | nil =>
    intro nw _ hP _
    rw [mergeSortedVideos_nil_left]
    exact List.pairwise_of_forall_mem_list (fun x hx y _ h => hP x hx h.1)
  | cons e es ih =>
    intro nw
    induction nw with
    | nil =>
      intro hQ _ _
      rw [mergeSortedVideos_nil_right]
      exact List.pairwise_of_forall_mem_list (fun x _ y hy h => hQ y hy h.2.1)
    | cons n ns ihn =>
      intro hQ hP hnw
      rw [mergeSortedVideos_cons_cons]
      rw [List.pairwise_cons] at hnw
      split
      · rename_i hlt
        rw [List.pairwise_cons]
        refine ⟨?_, ih (n :: ns) (fun x hx => hQ x (List.mem_cons_of_mem _ hx)) hP
          (List.pairwise_cons.mpr hnw)⟩
        rintro y hy ⟨_, hQy, hty⟩
        rcases mem_mergeSortedVideos.mp hy with hy | hy
        · exact hQ y (List.mem_cons_of_mem _ hy) hQy
        · rcases List.mem_cons.mp hy with rfl | hy
          · omega
          · have := hnw.1 y hy
            omega
      · rw [List.pairwise_cons]
        refine ⟨?_, ihn hQ (fun y hy => hP y (List.mem_cons_of_mem _ hy)) hnw.2⟩
        rintro y _ ⟨hPn, _, _⟩
        exact hP n (List.mem_cons_self _ _) hPn

/-- C5 (tie-break, as the code has it). Let the index hold the id of every
stored record and let the batch be ordered newest first. If a stored record `e`
and a newly merged batch record `nv` have equal `StartTime` and both are in
`Videos` after `AddSortedVideos`, then the newly merged record precedes the
previously stored one. -/
theorem C5_tie_new_first (r r' : VideoRepository) (batch : List Video) (n : Nat)
    (e nv : Video) (hidx : ∀ v ∈ r.Videos, v.ID ∈ r.seenIDs) (hb : SortedDesc batch)
    (h : AddSortedVideos r batch = some (r', n))
    (he : e ∈ r.Videos) (_hnv : nv ∈ batch) (hnew : nv.ID ∉ r.seenIDs)
    (ht : e.StartTime = nv.StartTime) (he' : e ∈ r'.Videos) (hnv' : nv ∈ r'.Videos) :
    Precedes nv e r'.Videos := by
  have hne : nv ≠ e := fun heq => hnew (heq ▸ hidx e he)
  have hnotin : nv ∉ r.Videos := fun hmem => hnew (hidx nv hmem)
  rcases AddSortedVideos_cases h with ⟨hv, _⟩ | ⟨hv, _⟩
  · rw [hv] at hnv'
    exact absurd hnv' hnotin
  · rw [sortedDesc_iff_pairwise] at hb
    have hpw := (mergeSortedVideos_tie (fun x => x ∈ r.Videos)
        (fun y => y ∈ (collectUnseen batch r.seenIDs).1) r.Videos
        (collectUnseen batch r.seenIDs).1
        (fun x hx hx' => collectUnseen_not_mem batch _ x hx' (hidx x hx))
        (fun y hy hy' => collectUnseen_not_mem batch _ y hy (hidx y hy'))
        (hb.sublist (collectUnseen_sublist batch r.seenIDs))).sublist
        (List.take_sublist r.Capacity.toNat _)
    rw [← hv] at hpw
    have hnvm : nv ∈ (collectUnseen batch r.seenIDs).1 := by
      have h1 : nv ∈ mergeSortedVideos r.Videos (collectUnseen batch r.seenIDs).1 := by
        rw [hv] at hnv'
        exact List.mem_of_mem_take hnv'
      rcases mem_mergeSortedVideos.mp h1 with h2 | h2
      · exact absurd h2 hnotin
      · exact h2
    exact precedes_of_pairwise hpw hnv' he' hne (fun hR => hR ⟨he, hnvm, ht⟩)

theorem C5_tie_new_first_witness :
    AddSortedVideos tieRepo [tieNew] = some (tieResult, 1) ∧
      tieOld.StartTime = tieNew.StartTime ∧ Precedes tieNew tieOld tieResult.Videos :=
  ⟨by decide, by decide,
   C5_tie_new_first tieRepo tieResult [tieNew] 1 tieOld tieNew (by decide) (by decide)
     (by decide) (by decide) (by decide) (by decide) (by decide) (by decide) (by decide)⟩

/-- C5 as stated fails: the stored record `tieOld` and the new record `tieNew`
have equal `StartTime`, and after `AddSortedVideos` the stored record does not
precede the new one, it follows it. -/
theorem C5_tie_counterexample :
    WellFormed tieRepo ∧ SortedDesc [tieNew] ∧ tieOld ∈ tieRepo.Videos ∧
      tieNew.ID ∉ tieRepo.seenIDs ∧ tieOld.StartTime = tieNew.StartTime ∧
      AddSortedVideos tieRepo [tieNew] = some (tieResult, 1) ∧
      tieResult.Videos = [tieNew, tieOld] ∧
      ¬ Precedes tieOld tieNew tieResult.Videos := by
  decide

/-! ### Repeating a batch -/

theorem collectUnseen_exists_of_ne_nil {batch : List Video} {seen : Finset String}
    (h : (collectUnseen batch seen).1 ≠ []) : ∃ v ∈ batch, v.ID ∉ seen := by
  obtain ⟨v, hv⟩ := List.exists_mem_of_ne_nil _ h
  exact ⟨v, (collectUnseen_sublist batch seen).subset hv, collectUnseen_not_mem batch seen v hv⟩

theorem collectUnseen_eq_nil_of_forall_mem {batch : List Video} {seen : Finset String}
    (h : ∀ v ∈ batch, v.ID ∈ seen) : (collectUnseen batch seen).1 = [] := by
  by_contra hne
  obtain ⟨v, hv, hnot⟩ := collectUnseen_exists_of_ne_nil hne
  exact hnot (h v hv)

/-- C6 (repeating a batch, as the code has it). With a non-negative capacity,
a second `AddSortedVideos` of the same batch leaves `len(Videos)` unchanged.
It returns 0 and changes nothing when every id of the batch is in the index
after the first call, in particular when the first call evicted nothing
(`len(Videos)` before it plus its return value is at most `Capacity`). -/
theorem C6_second_add (r r1 r2 : VideoRepository) (batch : List Video) (n1 n2 : Nat)
    (hc : 0 ≤ r.Capacity)
    (h1 : AddSortedVideos r batch = some (r1, n1))
    (h2 : AddSortedVideos r1 batch = some (r2, n2)) :
    r2.Videos.length = r1.Videos.length ∧
      ((∀ v ∈ batch, v.ID ∈ r1.seenIDs) → n2 = 0 ∧ r2 = r1) ∧
      ((r.Videos.length + n1 : Int) ≤ r.Capacity → n2 = 0 ∧ r2 = r1) := by
  rw [AddSortedVideos_eq r batch hc] at h1
  split at h1
  · rename_i htm
    cases h1
    rw [AddSortedVideos_eq r batch hc, if_pos htm] at h2
    cases h2
    exact ⟨rfl, fun _ => ⟨rfl, rfl⟩, fun _ => ⟨rfl, rfl⟩⟩
  · rename_i htm
    cases h1
    have hc1 : 0 ≤ (addMerged r (collectUnseen batch r.seenIDs).1).Capacity := hc
    rw [AddSortedVideos_eq _ batch hc1] at h2
    split at h2
    · cases h2
      exact ⟨rfl, fun _ => ⟨rfl, rfl⟩, fun _ => ⟨rfl, rfl⟩⟩
    · rename_i htm2
      cases h2
      obtain ⟨v, hvb, hv⟩ := collectUnseen_exists_of_ne_nil htm2
      have hvin : v.ID ∈ r.seenIDs ∪
          ((collectUnseen batch r.seenIDs).1.map Video.ID).toFinset := by
        rw [← collectUnseen_seen_eq, collectUnseen_seen]
        exact Finset.mem_union_right _ (List.mem_toFinset.mpr (List.mem_map_of_mem _ hvb))
      have hdrop : v.ID ∈ (((mergeSortedVideos r.Videos
          (collectUnseen batch r.seenIDs).1).drop r.Capacity.toNat).map Video.ID).toFinset := by
        by_contra hnot
        exact hv (Finset.mem_sdiff.mpr ⟨hvin, hnot⟩)
      have hlt : r.Capacity.toNat <
          (mergeSortedVideos r.Videos (collectUnseen batch r.seenIDs).1).length := by
        by_contra hge
        rw [List.drop_of_length_le (not_lt.mp hge)] at hdrop
        simp at hdrop
      refine ⟨?_, fun hall => absurd (hall v hvb) hv, ?_⟩
      · simp only [addMerged, List.length_take, length_mergeSortedVideos]
        rw [length_mergeSortedVideos] at hlt
        omega
      · intro hle
        rw [length_mergeSortedVideos] at hlt
        omega

theorem C6_second_add_witness :
    AddSortedVideos mergeExampleRepo mergeExampleBatch = some (mergeExampleResult, 2) ∧
      AddSortedVideos mergeExampleResult mergeExampleBatch = some (mergeExampleResult, 0) ∧
      mergeExampleResult.Videos.length = mergeExampleResult.Videos.length ∧
      ((mergeExampleRepo.Videos.length + 2 : Int) ≤ mergeExampleRepo.Capacity →
        0 = 0 ∧ mergeExampleResult = mergeExampleResult) :=
  ⟨by decide, by decide,
   (C6_second_add mergeExampleRepo mergeExampleResult mergeExampleResult mergeExampleBatch 2 0
     (by decide) (by decide) (by decide)).1,
   (C6_second_add mergeExampleRepo mergeExampleResult mergeExampleResult mergeExampleBatch 2 0
     (by decide) (by decide) (by decide)).2.2⟩

/-- C6 as stated fails: on the empty repository of capacity 2 the batch
`t3, t2, t1`, ordered newest first, is added twice; the first call evicts `t1`
and the second call returns 1, not 0. -/
theorem C6_idempotence_counterexample :
    SortedDesc trimBatch ∧ NewVideoRepository 2 = some emptyRepo2 ∧
      AddSortedVideos emptyRepo2 trimBatch = some (fullRepo, 3) ∧
      AddSortedVideos fullRepo trimBatch = some (fullRepo, 1) := by
  decide

/-! ### The membership index -/

theorem AddSortedVideos_single_new (r : VideoRepository) (v : Video) (hc : 0 ≤ r.Capacity)
    (hv : v.ID ∉ r.seenIDs) : AddSortedVideos r [v] = some (addMerged r [v], 1) := by
  rw [AddSortedVideos_eq r [v] hc]
  simp [collectUnseen, hv]

theorem evicted_id_not_stored {r r1 : VideoRepository} {batch : List Video} {n : Nat}
    {v : Video} (hwf : WellFormed r) (h : AddSortedVideos r batch = some (r1, n))
    (hv : v ∈ mergeSortedVideos r.Videos (collectUnseen batch r.seenIDs).1)
    (hv1 : v ∉ r1.Videos) : v.ID ∉ r1.Videos.map Video.ID := by
  obtain ⟨hc, _, hnd, hseen⟩ := hwf
  have hmnd := nodup_ids_merge batch hnd
    (fun v hv => by rw [hseen]; exact List.mem_toFinset.mpr (List.mem_map_of_mem _ hv))
  rw [AddSortedVideos_eq r batch hc] at h
  split at h
  · rename_i htm
    cases h
    rw [htm, mergeSortedVideos_nil_right] at hv
    exact absurd hv hv1
  · cases h
    have hsplit := List.take_append_drop r.Capacity.toNat
      (mergeSortedVideos r.Videos (collectUnseen batch r.seenIDs).1)
    rw [← hsplit, List.map_append, List.nodup_append] at hmnd
    rw [← hsplit, List.mem_append] at hv
    rcases hv with h' | h'
    · exact absurd h' hv1
    · exact fun hin => hmnd.2.2 hin (List.mem_map_of_mem _ h')

/-- C7 (membership index). For `0 ≤ c` every sequence of `AddSortedVideos` and
`TrimToCapacity` calls on `NewVideoRepository c` runs to a state in which the
key set of `seenIDs` is the set of ids of the stored records and
`len(seenIDs) = len(Videos)`. A record whose id is not stored is not in the
index and a following `AddSortedVideos` of that record returns 1; this holds in
particular, after a further `AddSortedVideos`, for every record of the merged
sequence that its trim evicted. -/
theorem C7_index_consistency (c : Int) (hc : 0 ≤ c) (calls : List RepoCall) :
    ∃ r, runFromNew c calls = some r ∧
      r.seenIDs = (r.Videos.map Video.ID).toFinset ∧
      r.seenIDs.card = r.Videos.length ∧
      (∀ v : Video, v.ID ∉ r.Videos.map Video.ID →
        v.ID ∉ r.seenIDs ∧ ∃ r', AddSortedVideos r [v] = some (r', 1)) ∧
      (∀ (batch : List Video) (r1 : VideoRepository) (n : Nat) (v : Video),
        AddSortedVideos r batch = some (r1, n) →
        v ∈ mergeSortedVideos r.Videos (collectUnseen batch r.seenIDs).1 →
        v ∉ r1.Videos →
        v.ID ∉ r1.seenIDs ∧ ∃ r2, AddSortedVideos r1 [v] = some (r2, 1)) := by
  obtain ⟨r, hr⟩ := runFromNew_isSome c calls hc
  have hwf := (wellFormed_runFromNew hr).1
  have key : ∀ r : VideoRepository, WellFormed r → ∀ v : Video,
      v.ID ∉ r.Videos.map Video.ID →
      v.ID ∉ r.seenIDs ∧ ∃ r', AddSortedVideos r [v] = some (r', 1) := by
    intro r hwf v hv
    have hv' : v.ID ∉ r.seenIDs := by
      rw [hwf.2.2.2, List.mem_toFinset]
      exact hv
    exact ⟨hv', _, AddSortedVideos_single_new r v hwf.1 hv'⟩
  refine ⟨r, hr, hwf.2.2.2, ?_, key r hwf, ?_⟩
  · rw [hwf.2.2.2, List.toFinset_card_of_nodup hwf.2.2.1, List.length_map]
  · intro batch r1 n v h hv hv1
    exact key r1 (wellFormed_add batch hwf h).1 v (evicted_id_not_stored hwf h hv hv1)

theorem C7_index_consistency_witness :
    (∃ r, runFromNew 2 [.add [mkVideo "v3" 3], .add [mkVideo "v2" 2], .add [mkVideo "v1" 1]]
        = some r ∧
      r.seenIDs = (r.Videos.map Video.ID).toFinset ∧
      r.seenIDs.card = r.Videos.length ∧
      (∀ v : Video, v.ID ∉ r.Videos.map Video.ID →
        v.ID ∉ r.seenIDs ∧ ∃ r', AddSortedVideos r [v] = some (r', 1)) ∧
      (∀ (batch : List Video) (r1 : VideoRepository) (n : Nat) (v : Video),
        AddSortedVideos r batch = some (r1, n) →
        v ∈ mergeSortedVideos r.Videos (collectUnseen batch r.seenIDs).1 →
        v ∉ r1.Videos →
        v.ID ∉ r1.seenIDs ∧ ∃ r2, AddSortedVideos r1 [v] = some (r2, 1))) ∧
    runFromNew 2 [.add [mkVideo "v3" 3], .add [mkVideo "v2" 2], .add [mkVideo "v1" 1]]
      = some fullRepo ∧
    AddSortedVideos fullRepo [mkVideo "v1" 1] = some (fullRepo, 1) :=
  ⟨C7_index_consistency 2 (by decide) _, by decide, by decide⟩

/-! ### Newest-first retention -/

theorem collectUnseen_exists_id (b : List Video) :
    ∀ (seen : Finset String) (v : Video), v ∈ b → v.ID ∉ seen →
      ∃ w ∈ (collectUnseen b seen).1, w.ID = v.ID := by
  induction b with
  | nil => intro _ v hv; cases hv
  | cons x xs ih =>
    intro seen v hv hnew
    unfold collectUnseen
    split
    · rename_i hx
      rcases List.mem_cons.mp hv with rfl | hv'
      · exact absurd hx hnew
      · exact ih seen v hv' hnew
    · by_cases hvx : v.ID = x.ID
      · exact ⟨x, List.mem_cons_self _ _, hvx.symm⟩
      · have hv' : v ∈ xs := by
          rcases List.mem_cons.mp hv with rfl | hv'
          · exact absurd rfl hvx
          · exact hv'
        obtain ⟨w, hw, hwid⟩ := ih (insert x.ID seen) v hv'
          (by simp [Finset.mem_insert, hvx, hnew])
        exact ⟨w, List.mem_cons_of_mem _ hw, hwid⟩

theorem newestOf_add {U B : List Video} {r r' : VideoRepository} {n : Nat}
    (hwf : WellFormed r) (hU : NewestOf U r.Videos r.Capacity.toNat) (hB : SortedDesc B)
    (hid : ∀ v ∈ U ++ B, ∀ w ∈ U ++ B, v.ID = w.ID → v = w)
    (htime : ∀ v ∈ U ++ B, ∀ w ∈ U ++ B, v.StartTime = w.StartTime → v = w)
    (h : AddSortedVideos r B = some (r', n)) :
    NewestOf (U ++ B) r'.Videos r.Capacity.toNat := by
  obtain ⟨hc, _, hnd, hseen⟩ := hwf
  obtain ⟨hS1, hS2, hS3, hS4⟩ := hU
  have htmB : ∀ v ∈ (collectUnseen B r.seenIDs).1, v ∈ B :=
    fun v hv => (collectUnseen_sublist B r.seenIDs).subset hv
  have hBin : ∀ w ∈ B, w ∉ r.Videos → w ∈ (collectUnseen B r.seenIDs).1 := by
    intro w hw hwS
    have hwid : w.ID ∉ r.seenIDs := by
      rw [hseen, List.mem_toFinset]
      intro hmem
      obtain ⟨s, hs, hsid⟩ := List.mem_map.mp hmem
      have hsw : s = w := hid s (List.mem_append_left _ (hS2 s hs)) w
        (List.mem_append_right _ hw) hsid
      exact hwS (hsw ▸ hs)
    obtain ⟨w', hw', hid'⟩ := collectUnseen_exists_id B _ w hw hwid
    have hww : w' = w := hid w' (List.mem_append_right _ (htmB w' hw')) w
      (List.mem_append_right _ hw) hid'
    exact hww ▸ hw'
  rw [AddSortedVideos_eq r B hc] at h
  split at h
  · rename_i htm
    cases h
    refine ⟨hS1, fun v hv => List.mem_append_left _ (hS2 v hv), hS3, ?_⟩
    intro w hw hwS
    rcases List.mem_append.mp hw with hwU | hwB
    · exact hS4 w hwU hwS
    · have hin := hBin w hwB hwS
      rw [htm] at hin
      cases hin
  · cases h
    have hMmem : ∀ v ∈ mergeSortedVideos r.Videos (collectUnseen B r.seenIDs).1,
        v ∈ U ++ B := by
      intro v hv
      rcases mem_mergeSortedVideos.mp hv with h' | h'
      · exact List.mem_append_left _ (hS2 v h')
      · exact List.mem_append_right _ (htmB v h')
    have hMle := mergeSortedVideos_pairwise r.Videos (collectUnseen B r.seenIDs).1
      (hS1.imp (fun h => le_of_lt h))
      (((sortedDesc_iff_pairwise B).mp hB).sublist (collectUnseen_sublist B r.seenIDs))
    have hMnd : (mergeSortedVideos r.Videos (collectUnseen B r.seenIDs).1).Nodup :=
      (nodup_ids_merge B hnd (fun v hv => by
        rw [hseen]; exact List.mem_toFinset.mpr (List.mem_map_of_mem _ hv))).of_map _
    have hMlt : (mergeSortedVideos r.Videos (collectUnseen B r.seenIDs).1).Pairwise
        (fun a b => b.StartTime < a.StartTime) := by
      refine (hMle.and hMnd).imp_of_mem ?_
      intro a b ha hb hab
      exact lt_of_le_of_ne hab.1
        (fun heq => hab.2 (htime a (hMmem a ha) b (hMmem b hb) heq.symm))
    have hsplit := List.take_append_drop r.Capacity.toNat
      (mergeSortedVideos r.Videos (collectUnseen B r.seenIDs).1)
    have hMlt' := hMlt
    rw [← hsplit, List.pairwise_append] at hMlt'
    simp only [addMerged]
    refine ⟨hMlt'.1, fun v hv => hMmem v (List.mem_of_mem_take hv),
      List.length_take_le _ _, ?_⟩
    intro w hw hwS
    by_cases hwM : w ∈ mergeSortedVideos r.Videos (collectUnseen B r.seenIDs).1
    · have hwd : w ∈ (mergeSortedVideos r.Videos (collectUnseen B r.seenIDs).1).drop
          r.Capacity.toNat := by
        rw [← hsplit, List.mem_append] at hwM
        exact hwM.resolve_left hwS
      have hlt : r.Capacity.toNat <
          (mergeSortedVideos r.Videos (collectUnseen B r.seenIDs).1).length := by
        by_contra hge
        rw [List.drop_of_length_le (not_lt.mp hge)] at hwd
        cases hwd
      exact ⟨by rw [List.length_take]; omega, fun v hv => hMlt'.2.2 v hv w hwd⟩
    · have hwS0 : w ∉ r.Videos := fun h' => hwM (mem_mergeSortedVideos.mpr (Or.inl h'))
      have hwU : w ∈ U := by
        rcases List.mem_append.mp hw with h' | h'
        · exact h'
        · exact absurd (mem_mergeSortedVideos.mpr (Or.inr (hBin w h' hwS0))) hwM
      obtain ⟨hfull, hnewer⟩ := hS4 w hwU hwS0
      have hlenM := length_mergeSortedVideos r.Videos (collectUnseen B r.seenIDs).1
      refine ⟨by rw [List.length_take]; omega, ?_⟩
      intro v hv
      by_contra hnot
      have hvw : v.StartTime ≤ w.StartTime := not_lt.mp hnot
      have hSsub : ∀ s ∈ r.Videos,
          s ∈ (mergeSortedVideos r.Videos (collectUnseen B r.seenIDs).1).take
            r.Capacity.toNat := by
        intro s hs
        have hsM : s ∈ mergeSortedVideos r.Videos (collectUnseen B r.seenIDs).1 :=
          mem_mergeSortedVideos.mpr (Or.inl hs)
        rw [← hsplit, List.mem_append] at hsM
        rcases hsM with h' | h'
        · exact h'
        · have h1 := hMlt'.2.2 v hv s h'
          have h2 := hnewer s hs
          omega
      have hvS : v ∉ r.Videos := fun h' => by
        have h2 := hnewer v h'
        omega
      have hSnd : r.Videos.Nodup :=
        hS1.imp (fun hlt heq => by subst heq; exact lt_irrefl _ hlt)
      have hsub : (v :: r.Videos) ⊆
          (mergeSortedVideos r.Videos (collectUnseen B r.seenIDs).1).take r.Capacity.toNat := by
        intro x hx
        rcases List.mem_cons.mp hx with rfl | hx
        · exact hv
        · exact hSsub x hx
      have hle := (List.subperm_of_subset (List.nodup_cons.mpr ⟨hvS, hSnd⟩) hsub).length_le
      have htk := List.length_take_le r.Capacity.toNat
        (mergeSortedVideos r.Videos (collectUnseen B r.seenIDs).1)
      rw [List.length_cons] at hle
      omega

theorem runCalls_adds_newest (batches : List (List Video)) :
    ∀ (U : List Video) (r : VideoRepository), WellFormed r →
      NewestOf U r.Videos r.Capacity.toNat → (∀ b ∈ batches, SortedDesc b) →
      (∀ v ∈ U ++ batches.flatten, ∀ w ∈ U ++ batches.flatten, v.ID = w.ID → v = w) →
      (∀ v ∈ U ++ batches.flatten, ∀ w ∈ U ++ batches.flatten,
        v.StartTime = w.StartTime → v = w) →
      ∃ r', runCalls r (batches.map RepoCall.add) = some r' ∧
        NewestOf (U ++ batches.flatten) r'.Videos r.Capacity.toNat := by
  induction batches with
  | nil =>
    intro U r _ hU _ _ _
    exact ⟨r, rfl, by simpa using hU⟩
  | cons b bs ih =>
    intro U r hwf hU hb hid htime
    obtain ⟨r1, h1, hc1⟩ := applyCall_isSome r (.add b) hwf.1
    have h1' := h1
    simp only [applyCall, Option.map_eq_some', Prod.exists, exists_and_right,
      exists_eq_right] at h1'
    obtain ⟨n, hn⟩ := h1'
    have hsub : ∀ v, v ∈ U ++ b → v ∈ U ++ (b :: bs).flatten := by
      intro v hv
      rw [List.flatten_cons, ← List.append_assoc]
      exact List.mem_append_left _ hv
    have hN1 := newestOf_add hwf hU (hb b (List.mem_cons_self _ _))
      (fun v hv w hw => hid v (hsub v hv) w (hsub w hw))
      (fun v hv w hw => htime v (hsub v hv) w (hsub w hw)) hn
    rw [← hc1] at hN1
    have heq : (U ++ b) ++ bs.flatten = U ++ (b :: bs).flatten := by
      rw [List.flatten_cons, List.append_assoc]
    obtain ⟨r2, h2, hN2⟩ := ih (U ++ b) r1 (wellFormed_add b hwf hn).1 hN1
      (fun b' hb' => hb b' (List.mem_cons_of_mem _ hb'))
      (by rw [heq]; exact hid) (by rw [heq]; exact htime)
    rw [heq, hc1] at hN2
    exact ⟨r2, by simp [runCalls, h1, h2], hN2⟩

theorem newestOf_length {U S : List Video} {k : Nat} (h : NewestOf U S k) :
    S.length = min k U.dedup.length := by
  obtain ⟨h1, h2, h3, h4⟩ := h
  have hSnd : S.Nodup := h1.imp (fun hlt heq => by subst heq; exact lt_irrefl _ hlt)
  have hle : S.length ≤ U.dedup.length :=
    (List.subperm_of_subset hSnd (fun v hv => List.mem_dedup.mpr (h2 v hv))).length_le
  by_cases hall : ∀ w ∈ U, w ∈ S
  · have hge : U.dedup.length ≤ S.length :=
      (List.subperm_of_subset (List.nodup_dedup U)
        (fun v hv => hall v (List.mem_dedup.mp hv))).length_le
    omega
  · push_neg at hall
    obtain ⟨w, hw, hwS⟩ := hall
    have := (h4 w hw hwS).1
    omega

theorem prefix_of_newest (S : List Video) :
    ∀ L : List Video, S.Pairwise (fun a b => b.StartTime < a.StartTime) →
      L.Pairwise (fun a b => b.StartTime < a.StartTime) → (∀ v ∈ S, v ∈ L) →
      (∀ w ∈ L, w ∉ S → ∀ v ∈ S, w.StartTime < v.StartTime) → S <+: L := by
  induction S with
  | nil => intro L _ _ _ _; exact List.nil_prefix
  | cons s S' ih =>
    intro L hS hL hsub htop
    cases L with
    | nil => exact absurd (hsub s (List.mem_cons_self _ _)) (List.not_mem_nil s)
    | cons l L' =>
      rw [List.pairwise_cons] at hS hL
      have hsl : s = l := by
        rcases List.mem_cons.mp (hsub s (List.mem_cons_self _ _)) with h | h
        · exact h
        · exfalso
          have h1 := hL.1 s h
          by_cases hlS : l ∈ s :: S'
          · rcases List.mem_cons.mp hlS with h' | h'
            · rw [h'] at h1
              exact lt_irrefl _ h1
            · have h2 := hS.1 l h'
              omega
          · have h2 := htop l (List.mem_cons_self _ _) hlS s (List.mem_cons_self _ _)
            omega
      subst hsl
      rw [List.prefix_cons_inj]
      refine ih L' hS.2 hL.2 ?_ ?_
      · intro v hv
        rcases List.mem_cons.mp (hsub v (List.mem_cons_of_mem _ hv)) with h | h
        · have h1 := hS.1 v hv
          rw [h] at h1
          exact absurd h1 (lt_irrefl _)
        · exact h
      · intro w hw hwS v hv
        have hws : w ∉ s :: S' := by
          intro hmem
          rcases List.mem_cons.mp hmem with h | h
          · have h1 := hL.1 w hw
            rw [h] at h1
            exact lt_irrefl _ h1
          · exact hwS h
        exact htop w (List.mem_cons_of_mem _ hw) hws v (List.mem_cons_of_mem _ hv)

theorem newestOf_eq_newestFirst {U S : List Video} {k : Nat} (h : NewestOf U S k)
    (htime : ∀ v ∈ U, ∀ w ∈ U, v.StartTime = w.StartTime → v = w) :
    S = newestFirst k U := by
  have hlen := newestOf_length h
  obtain ⟨h1, h2, _, h4⟩ := h
  haveI : IsTrans Video (fun a b => b.StartTime ≤ a.StartTime) :=
    ⟨fun _ _ _ hab hbc => le_trans hbc hab⟩
  haveI : IsTotal Video (fun a b => b.StartTime ≤ a.StartTime) :=
    ⟨fun a b => le_total b.StartTime a.StartTime⟩
  have hperm := List.perm_insertionSort (fun a b : Video => b.StartTime ≤ a.StartTime) U.dedup
  have hsorted : (U.dedup.insertionSort (fun a b => b.StartTime ≤ a.StartTime)).Pairwise
      (fun a b => b.StartTime ≤ a.StartTime) :=
    List.sorted_insertionSort (fun a b : Video => b.StartTime ≤ a.StartTime) U.dedup
  have hmemL : ∀ v, v ∈ U.dedup.insertionSort (fun a b => b.StartTime ≤ a.StartTime) ↔ v ∈ U :=
    fun v => (hperm.mem_iff).trans List.mem_dedup
  have hLnd : (U.dedup.insertionSort (fun a b => b.StartTime ≤ a.StartTime)).Nodup :=
    hperm.nodup_iff.mpr (List.nodup_dedup U)
  have hLlt : (U.dedup.insertionSort (fun a b => b.StartTime ≤ a.StartTime)).Pairwise
      (fun a b => b.StartTime < a.StartTime) := by
    refine (hsorted.and hLnd).imp_of_mem ?_
    intro a b ha hb hab
    exact lt_of_le_of_ne hab.1
      (fun heq => hab.2 (htime a ((hmemL a).mp ha) b ((hmemL b).mp hb) heq.symm))
  have hpre := prefix_of_newest S _ h1 hLlt (fun v hv => (hmemL v).mpr (h2 v hv))
    (fun w hw hwS => (h4 w ((hmemL w).mp hw) hwS).2)
  have htake := List.prefix_iff_eq_take.mp hpre
  have hLlen : (U.dedup.insertionSort (fun a b => b.StartTime ≤ a.StartTime)).length
      = U.dedup.length := hperm.length_eq
  unfold newestFirst
  by_cases hk : k ≤ U.dedup.length
  · rw [htake, hlen, min_eq_left hk]
  · rw [htake, hlen, min_eq_right (le_of_not_le hk)]
    rw [List.take_of_length_le (le_of_eq hLlen), List.take_of_length_le (by omega)]

/-- C8 (newest-first retention). Start from `NewVideoRepository c`, `0 ≤ c`,
and add batches, each ordered newest first, whose records are identified by
their id and have distinct `StartTime`s for distinct ids. Then the run succeeds
and the store is strictly descending by `StartTime`, made of supplied records,
of length `min(c, n)` for the `n` distinct supplied records, and every supplied
record not stored is older than every stored one; it is the list of the `c`
newest distinct supplied records, newest first. -/
theorem C8_newest_first_retention (c : Int) (hc : 0 ≤ c) (batches : List (List Video))
    (hsorted : ∀ b ∈ batches, SortedDesc b)
    (hid : ∀ v ∈ batches.flatten, ∀ w ∈ batches.flatten, v.ID = w.ID → v = w)
    (htime : ∀ v ∈ batches.flatten, ∀ w ∈ batches.flatten,
      v.StartTime = w.StartTime → v = w) :
    ∃ r, runFromNew c (batches.map RepoCall.add) = some r ∧
      r.Videos.Pairwise (fun a b => b.StartTime < a.StartTime) ∧
      (∀ v ∈ r.Videos, v ∈ batches.flatten) ∧
      r.Videos.length = min c.toNat batches.flatten.dedup.length ∧
      (∀ v ∈ r.Videos, ∀ w ∈ batches.flatten, w ∉ r.Videos →
        w.StartTime < v.StartTime) ∧
      r.Videos = newestFirst c.toNat batches.flatten := by
  have hwf0 : WellFormed ⟨[], ∅, c⟩ := ⟨hc, by simpa using hc, by simp, by simp⟩
  have hN0 : NewestOf [] (VideoRepository.mk [] ∅ c).Videos
      (VideoRepository.mk [] ∅ c).Capacity.toNat :=
    ⟨List.Pairwise.nil, fun v hv => hv, Nat.zero_le _, fun w hw => absurd hw (List.not_mem_nil w)⟩
  obtain ⟨r, hr, hN⟩ := runCalls_adds_newest batches [] ⟨[], ∅, c⟩ hwf0 hN0 hsorted
    (by simpa using hid) (by simpa using htime)
  rw [List.nil_append] at hN
  refine ⟨r, by simp [runFromNew, NewVideoRepository, not_lt.mpr hc, hr], hN.1, hN.2.1,
    newestOf_length hN, fun v hv w hw hwS => (hN.2.2.2 w hw hwS).2 v hv,
    newestOf_eq_newestFirst hN htime⟩

theorem C8_newest_first_retention_witness :
    (∃ r, runFromNew 2 ([[mkVideo "v3" 3], [mkVideo "v2" 2], [mkVideo "v1" 1]].map RepoCall.add)
        = some r ∧
      r.Videos.Pairwise (fun a b => b.StartTime < a.StartTime) ∧
      (∀ v ∈ r.Videos, v ∈ [[mkVideo "v3" 3], [mkVideo "v2" 2], [mkVideo "v1" 1]].flatten) ∧
      r.Videos.length
        = min (2 : Int).toNat [[mkVideo "v3" 3], [mkVideo "v2" 2], [mkVideo "v1" 1]].flatten.dedup.length ∧
      (∀ v ∈ r.Videos, ∀ w ∈ [[mkVideo "v3" 3], [mkVideo "v2" 2], [mkVideo "v1" 1]].flatten,
        w ∉ r.Videos → w.StartTime < v.StartTime) ∧
      r.Videos = newestFirst (2 : Int).toNat
        [[mkVideo "v3" 3], [mkVideo "v2" 2], [mkVideo "v1" 1]].flatten) ∧
    (runFromNew 2 ([[mkVideo "v3" 3], [mkVideo "v2" 2], [mkVideo "v1" 1]].map RepoCall.add)).map
        VideoRepository.Videos = some [mkVideo "v3" 3, mkVideo "v2" 2] :=
  ⟨C8_newest_first_retention 2 (by decide) _ (by decide) (by decide) (by decide), by decide⟩

/-! ## Lemmas on the event log -/

theorem firstIndex_eq_some_iff {α : Type} (p : α → Bool) :
    ∀ (l : List α) (i : Nat), firstIndex p l = some i ↔
      (∃ a, l[i]? = some a ∧ p a = true) ∧
        ∀ j, j < i → ∀ m, l[j]? = some m → p m = false := by
  intro l
  induction l with
  | nil => intro i; simp [firstIndex]
  | cons a l ih =>
    intro i
    unfold firstIndex
    by_cases hp : p a = true
    · rw [if_pos hp]
      constructor
      · intro h
        cases h
        exact ⟨⟨a, List.getElem?_cons_zero, hp⟩, fun j hj => absurd hj (Nat.not_lt_zero j)⟩
      · rintro ⟨_, hmin⟩
        cases i with
        | zero => rfl
        | succ i =>
          have := hmin 0 (Nat.succ_pos i) a List.getElem?_cons_zero
          rw [hp] at this
          cases this
    · rw [if_neg hp]
      cases i with
      | zero =>
        constructor
        · intro h
          simp at h
        · rintro ⟨⟨b, hb, hpb⟩, _⟩
          simp only [List.getElem?_cons_zero, Option.some.injEq] at hb
          rw [hb] at hp
          exact absurd hpb hp
      | succ i =>
        rw [Option.map_eq_some']
        constructor
        · rintro ⟨k, hk, hki⟩
          have hki' : k = i := Nat.succ_injective hki
          subst hki'
          obtain ⟨hex, hmin⟩ := (ih k).mp hk
          refine ⟨by simpa using hex, ?_⟩
          intro j hj m hm
          cases j with
          | zero =>
            simp only [List.getElem?_cons_zero, Option.some.injEq] at hm
            rw [← hm]
            exact Bool.eq_false_iff.mpr hp
          | succ j => exact hmin j (Nat.lt_of_succ_lt_succ hj) m (by simpa using hm)
        · rintro ⟨hex, hmin⟩
          refine ⟨i, (ih i).mpr ⟨by simpa using hex, ?_⟩, rfl⟩
          intro j hj m hm
          exact hmin (j + 1) (Nat.succ_lt_succ hj) m (by simpa using hm)

theorem firstIndex_eq_none_iff {α : Type} (p : α → Bool) :
    ∀ l : List α, firstIndex p l = none ↔ ∀ m ∈ l, p m = false := by
  intro l
  induction l with
  | nil => simp [firstIndex]
  | cons a l ih =>
    unfold firstIndex
    by_cases hp : p a = true
    · simp [hp]
    · simp [hp, ih]

theorem overwriteFirst_eq {E : Type} (errorsIs : E → E → Bool) (new : Notification E) :
    ∀ l : List (Notification E), overwriteFirst errorsIs new l =
      (firstIndex (matchesCause errorsIs new.Description) l).map
        (fun i => l.modify (fun old => { new with DuplicateCount := old.DuplicateCount + 1 }) i) := by
  intro l
  induction l with
  | nil => rfl
  | cons n rest ih =>
    unfold overwriteFirst firstIndex
    by_cases hm : matchesCause errorsIs new.Description n = true
    · have hm' := hm
      unfold matchesCause at hm'
      rw [if_pos hm', if_pos hm]
      rfl
    · have hm' := hm
      unfold matchesCause at hm'
      rw [if_neg hm', if_neg hm, ih]
      cases firstIndex (matchesCause errorsIs new.Description) rest <;> rfl

theorem AddNotification_eq_ref {E : Type} (errorsIs : E → E → Bool) (now : Int)
    (r : NotificationRepository E) (level : NotificationLevel) (title : String) (cause : E)
    (allow : Bool) :
    AddNotification errorsIs now r level title cause allow
      = addNotificationRef errorsIs now r level title cause allow := by
  unfold AddNotification addNotificationRef
  cases allow with
  | false => rfl
  | true =>
    simp only [if_true, overwriteFirst_eq]
    cases firstIndex (matchesCause errorsIs cause) r.Notifications <;> rfl

/-- C9 (`AddNotification` and its reference definition). `AddNotification`
equals `addNotificationRef`. Spelled out, with "same cause" read as the code's
test `errors.Is(entry.Description, description)`: if `allowDuplication` is true
and `old`, at index `i`, is the first entry of the same cause with
`AllowDuplication = true`, then the list keeps its length, entry `i` becomes
the new level, title and timestamp with `DuplicateCount = old.DuplicateCount + 1`
and every other entry is unchanged; if `allowDuplication` is false or no entry
matches, one entry with `DuplicateCount = 0` is appended; an entry with
`AllowDuplication = false` is never overwritten. -/
theorem C9_addNotification_ref {E : Type} (errorsIs : E → E → Bool) (now : Int)
    (r : NotificationRepository E) (level : NotificationLevel) (title : String) (cause : E)
    (allow : Bool) :
    AddNotification errorsIs now r level title cause allow
      = addNotificationRef errorsIs now r level title cause allow ∧
    (∀ (i : Nat) (old : Notification E), allow = true →
      r.Notifications[i]? = some old → matchesCause errorsIs cause old = true →
      (∀ j, j < i → ∀ m, r.Notifications[j]? = some m → matchesCause errorsIs cause m = false) →
      (AddNotification errorsIs now r level title cause allow).Notifications.length
          = r.Notifications.length ∧
        (AddNotification errorsIs now r level title cause allow).Notifications[i]?
          = some { Level := level, Title := title, Description := cause, Date := now,
                   AllowDuplication := true, DuplicateCount := old.DuplicateCount + 1 } ∧
        ∀ j, j ≠ i →
          (AddNotification errorsIs now r level title cause allow).Notifications[j]?
            = r.Notifications[j]?) ∧
    ((allow = false ∨ ∀ m ∈ r.Notifications, matchesCause errorsIs cause m = false) →
      (AddNotification errorsIs now r level title cause allow).Notifications
        = r.Notifications ++
          [{ Level := level, Title := title, Description := cause, Date := now,
             AllowDuplication := allow, DuplicateCount := 0 }]) ∧
    (∀ (j : Nat) (m : Notification E), r.Notifications[j]? = some m →
      m.AllowDuplication = false →
      (AddNotification errorsIs now r level title cause allow).Notifications[j]? = some m) := by
  refine ⟨AddNotification_eq_ref errorsIs now r level title cause allow, ?_, ?_, ?_⟩
  · intro i old hallow hold hmatch hmin
    have hfi : firstIndex (matchesCause errorsIs cause) r.Notifications = some i :=
      (firstIndex_eq_some_iff _ _ i).mpr ⟨⟨old, hold, hmatch⟩, hmin⟩
    rw [AddNotification_eq_ref]
    unfold addNotificationRef
    rw [if_pos hallow, hfi]
    refine ⟨List.length_modify _ _ _, ?_, ?_⟩
    · simp only [List.getElem?_modify_eq, hold, Option.map_eq_map, Option.map_some']
    · intro j hj
      exact List.getElem?_modify_ne _ _ (Ne.symm hj)
  · intro h
    rw [AddNotification_eq_ref]
    unfold addNotificationRef
    rcases h with h | h
    · rw [h]
      rfl
    · rw [(firstIndex_eq_none_iff _ _).mpr h]
      cases allow <;> rfl
  · intro j m hm hdup
    rw [AddNotification_eq_ref]
    unfold addNotificationRef
    have hjlt : j < r.Notifications.length := by
      by_contra hge
      rw [List.getElem?_eq_none (not_lt.mp hge)] at hm
      cases hm
    split
    · rename_i i hfi
      have hallow : allow = true := by
        cases allow
        · simp at hfi
        · rfl
      rw [if_pos hallow] at hfi
      obtain ⟨⟨old, hold, hmatch⟩, _⟩ := (firstIndex_eq_some_iff _ _ i).mp hfi
      have hij : i ≠ j := by
        intro hij
        subst hij
        rw [hm] at hold
        cases hold
        unfold matchesCause at hmatch
        rw [hdup] at hmatch
        simp at hmatch
      simp only
      rw [List.getElem?_modify_ne _ _ hij, hm]
    · simp only
      rw [List.getElem?_append_left hjlt, hm]

theorem C9_addNotification_ref_witness :
    testLog3.Notifications =
        [{ Level := NotificationInfo, Title := "Test0", Description := 7, Date := 0,
           AllowDuplication := false, DuplicateCount := 0 },
         { Level := NotificationError, Title := "Test2", Description := 7, Date := 2,
           AllowDuplication := true, DuplicateCount := 1 }] ∧
      (AddNotification (fun a b => a == b) 3 testLog3 NotificationError "Test3" 7 true).Notifications
        = [{ Level := NotificationInfo, Title := "Test0", Description := 7, Date := 0,
             AllowDuplication := false, DuplicateCount := 0 },
           { Level := NotificationError, Title := "Test3", Description := 7, Date := 3,
             AllowDuplication := true, DuplicateCount := 2 }] ∧
      AddNotification (fun a b => a == b) 3 testLog3 NotificationError "Test3" 7 true
        = addNotificationRef (fun a b => a == b) 3 testLog3 NotificationError "Test3" 7 true :=
  ⟨by decide, by decide,
   (C9_addNotification_ref (fun a b => a == b) 3 testLog3 NotificationError "Test3" 7 true).1⟩

/-! ### Dedup invariant of the event log -/

theorem overwriteFirst_some {E : Type} (errorsIs : E → E → Bool) (new : Notification E) :
    ∀ (l l' : List (Notification E)), overwriteFirst errorsIs new l = some l' →
      ∃ pre n post, l = pre ++ n :: post ∧
        l' = pre ++ { new with DuplicateCount := n.DuplicateCount + 1 } :: post ∧
        matchesCause errorsIs new.Description n = true ∧
        ∀ m ∈ pre, matchesCause errorsIs new.Description m = false := by
  intro l
  induction l with
  | nil => intro l' h; cases h
  | cons a rest ih =>
    intro l' h
    unfold overwriteFirst at h
    split at h
    · rename_i hm
      cases h
      exact ⟨[], a, rest, rfl, rfl, hm, fun m hm' => absurd hm' (List.not_mem_nil m)⟩
    · rename_i hm
      rw [Option.map_eq_some'] at h
      obtain ⟨l1, hl1, rfl⟩ := h
      obtain ⟨pre, n, post, hl, hl', hmatch, hpre⟩ := ih l1 hl1
      refine ⟨a :: pre, n, post, by rw [hl]; rfl, by rw [hl']; rfl, hmatch, ?_⟩
      intro m hmem
      rcases List.mem_cons.mp hmem with rfl | hmem
      · exact Bool.eq_false_iff.mpr hm
      · exact hpre m hmem

theorem overwriteFirst_none {E : Type} (errorsIs : E → E → Bool) (new : Notification E)
    (l : List (Notification E)) (h : overwriteFirst errorsIs new l = none) :
    ∀ m ∈ l, matchesCause errorsIs new.Description m = false := by
  rw [overwriteFirst_eq, Option.map_eq_none'] at h
  exact (firstIndex_eq_none_iff _ _).mp h

/-- The three ways `AddNotification` changes the list. -/
theorem AddNotification_cases {E : Type} (errorsIs : E → E → Bool) (now : Int)
    (r : NotificationRepository E) (level : NotificationLevel) (title : String) (d : E)
    (allow : Bool) :
    (allow = false ∧
      (AddNotification errorsIs now r level title d allow).Notifications = r.Notifications ++
        [{ Level := level, Title := title, Description := d, Date := now,
           AllowDuplication := false, DuplicateCount := 0 }]) ∨
    (allow = true ∧ (∀ m ∈ r.Notifications, matchesCause errorsIs d m = false) ∧
      (AddNotification errorsIs now r level title d allow).Notifications = r.Notifications ++
        [{ Level := level, Title := title, Description := d, Date := now,
           AllowDuplication := true, DuplicateCount := 0 }]) ∨
    (allow = true ∧ ∃ pre n post, r.Notifications = pre ++ n :: post ∧
      (AddNotification errorsIs now r level title d allow).Notifications = pre ++
        { Level := level, Title := title, Description := d, Date := now,
          AllowDuplication := true, DuplicateCount := n.DuplicateCount + 1 } :: post ∧
      matchesCause errorsIs d n = true ∧ ∀ m ∈ pre, matchesCause errorsIs d m = false) := by
  cases allow with
  | false => exact Or.inl ⟨rfl, rfl⟩
  | true =>
    refine Or.inr ?_
    unfold AddNotification
    simp only [if_true]
    cases h : overwriteFirst errorsIs
      { Level := level, Title := title, Description := d, Date := now,
        AllowDuplication := true, DuplicateCount := 0 } r.Notifications with
    | none => exact Or.inl ⟨trivial, overwriteFirst_none _ _ _ h, rfl⟩
    | some l' =>
      obtain ⟨pre, n, post, hl, hl', hmatch, hpre⟩ := overwriteFirst_some _ _ _ _ h
      exact Or.inr ⟨trivial, pre, n, post, hl, hl', hmatch, hpre⟩

theorem noLaterMatch_add {E : Type} (errorsIs : E → E → Bool)
    (htrans : ∀ a b c, errorsIs a b = true → errorsIs b c = true → errorsIs a c = true)
    (now : Int) (r : NotificationRepository E) (level : NotificationLevel) (title : String)
    (d : E) (allow : Bool) (h : NoLaterMatch errorsIs r.Notifications) :
    NoLaterMatch errorsIs (AddNotification errorsIs now r level title d allow).Notifications := by
  unfold NoLaterMatch at h ⊢
  rcases AddNotification_cases errorsIs now r level title d allow with
    ⟨_, heq⟩ | ⟨_, hno, heq⟩ | ⟨_, pre, n, post, hl, heq, hmatch, hpre⟩
  · rw [heq, List.pairwise_append]
    refine ⟨h, List.pairwise_singleton _ _, ?_⟩
    intro a _ b hb _ hbdup
    rw [List.mem_singleton] at hb
    rw [hb] at hbdup
    cases hbdup
  · rw [heq, List.pairwise_append]
    refine ⟨h, List.pairwise_singleton _ _, ?_⟩
    intro a ha b hb hadup _
    rw [List.mem_singleton] at hb
    rw [hb]
    have := hno a ha
    unfold matchesCause at this
    rw [hadup, Bool.and_true] at this
    exact this
  · rw [heq]
    rw [hl, List.pairwise_append, List.pairwise_cons] at h
    obtain ⟨hpp, ⟨hnpost, hpost⟩, hcross⟩ := h
    unfold matchesCause at hmatch
    rw [Bool.and_eq_true] at hmatch
    rw [List.pairwise_append, List.pairwise_cons]
    refine ⟨hpp, ⟨?_, hpost⟩, ?_⟩
    · intro b hb _ hbdup
      by_contra hne
      have h1 := hnpost b hb hmatch.2 hbdup
      have h2 := htrans _ _ _ hmatch.1 (Bool.not_eq_false _ ▸ hne)
      rw [h1] at h2
      cases h2
    · intro a ha b hb hadup hbdup
      rcases List.mem_cons.mp hb with rfl | hb'
      · have := hpre a ha
        unfold matchesCause at this
        rw [hadup, Bool.and_true] at this
        exact this
      · exact hcross a ha b (List.mem_cons_of_mem _ hb') hadup hbdup

theorem noLaterMatch_runLog {E : Type} (errorsIs : E → E → Bool)
    (htrans : ∀ a b c, errorsIs a b = true → errorsIs b c = true → errorsIs a c = true)
    (calls : List (LogCall E)) : NoLaterMatch errorsIs (runLog errorsIs calls).Notifications := by
  induction calls using List.reverseRecOn with
  | nil => exact List.Pairwise.nil
  | append_singleton cs c ih =>
    have hrun : runLog errorsIs (cs ++ [c]) = applyLogCall errorsIs (runLog errorsIs cs) c := by
      simp [runLog, List.foldl_append]
    rw [hrun]
    cases c with
    | add now level title d allow => exact noLaterMatch_add errorsIs htrans _ _ _ _ _ _ ih
    | clear => exact List.Pairwise.nil

theorem length_filter_le_one_of_noLaterMatch {E : Type} [DecidableEq E]
    (errorsIs : E → E → Bool) (hrefl : ∀ a, errorsIs a a = true) (X : E)
    (log : List (Notification E)) (h : NoLaterMatch errorsIs log) :
    (log.filter (fun n => decide (n.Description = X) && n.AllowDuplication)).length ≤ 1 := by
  have hsub : (log.filter (fun n => decide (n.Description = X) && n.AllowDuplication)).Pairwise
      (fun a b => a.AllowDuplication = true → b.AllowDuplication = true →
        errorsIs a.Description b.Description = false) :=
    List.Pairwise.sublist (List.filter_sublist log) h
  generalize hf : log.filter (fun n => decide (n.Description = X) && n.AllowDuplication) = f
    at hsub
  have hmem : ∀ n ∈ f, n.Description = X ∧ n.AllowDuplication = true := by
    intro n hn
    rw [← hf, List.mem_filter] at hn
    simpa using hn.2
  match f, hsub, hmem with
  | [], _, _ => exact Nat.zero_le 1
  | [_], _, _ => exact Nat.le_refl 1
  | a :: b :: rest, hsub, hmem =>
    exfalso
    have ha := hmem a (List.mem_cons_self _ _)
    have hb := hmem b (List.mem_cons_of_mem _ (List.mem_cons_self _ _))
    have hab := (List.pairwise_cons.mp hsub).1 b (List.mem_cons_self _ _) ha.2 hb.2
    rw [ha.1, hb.1, hrefl X] at hab
    cases hab

theorem causeCount_append_other {E : Type} [DecidableEq E] (X : E)
    (log : List (Notification E)) (new : Notification E) (k : Nat)
    (hne : new.Description ≠ X) (h : CauseCount X log k) : CauseCount X (log ++ [new]) k := by
  intro hall
  have hf : (log ++ [new]).filter (fun n => decide (n.Description = X))
      = log.filter (fun n => decide (n.Description = X)) := by
    rw [List.filter_append, List.filter_cons_of_neg (by simpa using hne)]
    simp
  rw [hf]
  exact h (fun n hn => hall n (List.mem_append_left _ hn))

theorem addsSinceClear_append {E : Type} [DecidableEq E] (X : E) (cs : List (LogCall E))
    (c : LogCall E) :
    addsSinceClear X (cs ++ [c]) =
      match c with
      | .add _ _ _ d _ => if d = X then addsSinceClear X cs + 1 else addsSinceClear X cs
      | .clear => 0 := by
  simp only [addsSinceClear, List.foldl_append, List.foldl_cons, List.foldl_nil]

theorem errorsIs_refl (a : GoError) : errorsIs a a = true := by
  cases a <;> simp [errorsIs]

theorem errorsIs_trans (a b c : GoError) (hab : errorsIs a b = true)
    (hbc : errorsIs b c = true) : errorsIs a c = true := by
  induction a with
  | new addr text =>
    have : GoError.new addr text = b := by simpa [errorsIs] using hab
    rw [this]
    exact hbc
  | errorf addr msg =>
    have : GoError.errorf addr msg = b := by simpa [errorsIs] using hab
    rw [this]
    exact hbc
  | errorfW addr msg w ih =>
    unfold errorsIs at hab
    rw [Bool.or_eq_true, decide_eq_true_eq] at hab
    rcases hab with hab | hab
    · rw [hab]
      exact hbc
    · unfold errorsIs
      rw [Bool.or_eq_true]
      exact Or.inr (ih hab)

theorem causesOf_append {E : Type} (cs : List (LogCall E)) (c : LogCall E) :
    causesOf (cs ++ [c]) =
      causesOf cs ++ (match c with
        | .add _ _ _ d _ => [d]
        | .clear => []) := by
  unfold causesOf
  rw [List.filterMap_append]
  cases c <;> rfl

theorem descriptions_add {E : Type} (errorsIs : E → E → Bool) (now : Int)
    (r : NotificationRepository E) (level : NotificationLevel) (title : String) (d : E)
    (allow : Bool) (P : E → Prop) (hr : ∀ m ∈ r.Notifications, P m.Description) (hd : P d) :
    ∀ m ∈ (AddNotification errorsIs now r level title d allow).Notifications,
      P m.Description := by
  rcases AddNotification_cases errorsIs now r level title d allow with
    ⟨_, heq⟩ | ⟨_, _, heq⟩ | ⟨_, pre, n, post, hl, heq, _, _⟩
  · rw [heq]
    intro m hm
    rcases List.mem_append.mp hm with hm | hm
    · exact hr m hm
    · rw [List.mem_singleton.mp hm]
      exact hd
  · rw [heq]
    intro m hm
    rcases List.mem_append.mp hm with hm | hm
    · exact hr m hm
    · rw [List.mem_singleton.mp hm]
      exact hd
  · rw [heq]
    intro m hm
    rw [List.mem_append, List.mem_cons] at hm
    rcases hm with hm | rfl | hm
    · exact hr m (by rw [hl]; exact List.mem_append_left _ hm)
    · exact hd
    · exact hr m (by rw [hl]; exact List.mem_append_right _ (List.mem_cons_of_mem _ hm))

theorem descriptions_runLog {E : Type} (errorsIs : E → E → Bool) (calls : List (LogCall E)) :
    ∀ m ∈ (runLog errorsIs calls).Notifications, m.Description ∈ causesOf calls := by
  induction calls using List.reverseRecOn with
  | nil => intro m hm; cases hm
  | append_singleton cs c ih =>
    have hrun : runLog errorsIs (cs ++ [c]) = applyLogCall errorsIs (runLog errorsIs cs) c := by
      simp [runLog, List.foldl_append]
    rw [hrun, causesOf_append]
    cases c with
    | add now level title d allow =>
      exact descriptions_add errorsIs now _ level title d allow
        (fun e => e ∈ causesOf cs ++ [d])
        (fun m hm => List.mem_append_left _ (ih m hm))
        (List.mem_append_right _ (List.mem_singleton_self d))
    | clear => intro m hm; cases hm

theorem causeCount_add_rel {E : Type} [DecidableEq E] (errorsIs : E → E → Bool) (X : E)
    (hX : errorsIs X X = true) (now : Int) (r : NotificationRepository E)
    (level : NotificationLevel) (title : String) (d : E) (allow : Bool) (k : Nat)
    (hlog : ∀ m ∈ r.Notifications, m.Description ≠ X → errorsIs m.Description X = false)
    (hd : d ≠ X → errorsIs X d = false)
    (h : CauseCount X r.Notifications k) :
    CauseCount X (AddNotification errorsIs now r level title d allow).Notifications
      (if d = X then k + 1 else k) := by
  rcases AddNotification_cases errorsIs now r level title d allow with
    ⟨_, heq⟩ | ⟨_, hno, heq⟩ | ⟨_, pre, n, post, hl, heq, hmatch, hpre⟩
  · rw [heq]
    by_cases hdX : d = X
    · intro hall
      have := hall _ (List.mem_append_right _ (List.mem_singleton_self _)) hdX
      cases this
    · rw [if_neg hdX]
      exact causeCount_append_other X _ _ k hdX h
  · rw [heq]
    by_cases hdX : d = X
    · rw [if_pos hdX]
      intro hall
      have hnone : r.Notifications.filter (fun n => decide (n.Description = X)) = [] := by
        rw [List.filter_eq_nil_iff]
        intro m hm hmX
        have hmX' : m.Description = X := by simpa using hmX
        have hdup := hall m (List.mem_append_left _ hm) hmX'
        have := hno m hm
        unfold matchesCause at this
        rw [hmX', hdX, hX, hdup] at this
        cases this
      have hk : k = 0 := by
        rcases h (fun m hm => hall m (List.mem_append_left _ hm)) with ⟨_, hk⟩ | ⟨m, hm, _⟩
        · exact hk
        · rw [hnone] at hm
          cases hm
      rw [List.filter_append, hnone, List.filter_cons_of_pos (by simpa using hdX)]
      exact Or.inr ⟨_, rfl, by simp [hk]⟩
    · rw [if_neg hdX]
      exact causeCount_append_other X _ _ k hdX h
  · rw [heq]
    unfold matchesCause at hmatch
    rw [Bool.and_eq_true] at hmatch
    obtain ⟨hnIs, hndup⟩ := hmatch
    have hnmem : n ∈ r.Notifications := by
      rw [hl]
      exact List.mem_append_right _ (List.mem_cons_self _ _)
    intro hall
    have hall1 : ∀ m ∈ r.Notifications, m.Description = X → m.AllowDuplication = true := by
      intro m hm hmX
      rw [hl, List.mem_append, List.mem_cons] at hm
      rcases hm with hm | rfl | hm
      · exact hall m (List.mem_append_left _ hm) hmX
      · exact hndup
      · exact hall m (List.mem_append_right _ (List.mem_cons_of_mem _ hm)) hmX
    by_cases hdX : d = X
    · rw [if_pos hdX]
      have hnX : n.Description = X := by
        by_contra hne
        have := hlog n hnmem hne
        rw [hdX] at hnIs
        rw [hnIs] at this
        cases this
      rcases h hall1 with ⟨hnil, _⟩ | ⟨m0, hm0, hcount⟩
      · exfalso
        have hmem : n ∈ r.Notifications.filter (fun n => decide (n.Description = X)) := by
          rw [List.mem_filter]
          exact ⟨hnmem, by simpa using hnX⟩
        rw [hnil] at hmem
        cases hmem
      · rw [hl, List.filter_append, List.filter_cons_of_pos (by simpa using hnX)] at hm0
        have hpre0 : pre.filter (fun n => decide (n.Description = X)) = [] := by
          cases hp : pre.filter (fun n => decide (n.Description = X)) with
          | nil => rfl
          | cons a t =>
            rw [hp] at hm0
            simp at hm0
        rw [hpre0, List.nil_append] at hm0
        have hn0 : n = m0 := (List.cons.inj hm0).1
        have hpost0 : post.filter (fun n => decide (n.Description = X)) = [] :=
          (List.cons.inj hm0).2
        rw [List.filter_append, hpre0, List.filter_cons_of_pos (by simpa using hdX), hpost0]
        refine Or.inr ⟨_, rfl, ?_⟩
        rw [← hn0] at hcount
        simp only
        omega
    · rw [if_neg hdX]
      have hnX : n.Description ≠ X := by
        intro hx
        have := hd hdX
        rw [hx] at hnIs
        rw [hnIs] at this
        cases this
      have hlog1 := h hall1
      rw [hl, List.filter_append, List.filter_cons_of_neg (by simpa using hnX)] at hlog1
      rw [List.filter_append, List.filter_cons_of_neg (by simpa using hdX)]
      exact hlog1

theorem causeCount_runLog_rel {E : Type} [DecidableEq E] (errorsIs : E → E → Bool) (X : E)
    (hX : errorsIs X X = true) (calls : List (LogCall E))
    (hrel : ∀ b ∈ causesOf calls, b ≠ X → errorsIs b X = false ∧ errorsIs X b = false) :
    CauseCount X (runLog errorsIs calls).Notifications (addsSinceClear X calls) := by
  induction calls using List.reverseRecOn with
  | nil => exact fun _ => Or.inl ⟨rfl, rfl⟩
  | append_singleton cs c ih =>
    have hrun : runLog errorsIs (cs ++ [c]) = applyLogCall errorsIs (runLog errorsIs cs) c := by
      simp [runLog, List.foldl_append]
    rw [causesOf_append] at hrel
    have hcs : ∀ b ∈ causesOf cs, b ≠ X → errorsIs b X = false ∧ errorsIs X b = false :=
      fun b hb => hrel b (List.mem_append_left _ hb)
    rw [hrun, addsSinceClear_append]
    cases c with
    | add now level title d allow =>
      exact causeCount_add_rel errorsIs X hX now _ level title d allow _
        (fun m hm hne => (hcs _ (descriptions_runLog errorsIs cs m hm) hne).1)
        (fun hne => (hrel d (List.mem_append_right _ (List.mem_singleton_self d)) hne).2)
        (ih hcs)
    | clear => exact fun _ => Or.inl ⟨rfl, rfl⟩

/-- C10 (dedup invariant of the event log, as the code has it). Take the log
after `NewNotificationRepository` and any sequence of `AddNotification` and
`ClearNotifications` calls. If `errors.Is` is reflexive and transitive, the log
has at most one entry with a given cause and `AllowDuplication = true`. If
moreover `errors.Is` holds in neither direction between the cause and any
other cause passed to `AddNotification` (none wraps the cause, the cause wraps
none) and all entries of the cause are duplicate-tolerant, the log has at most
one entry of that cause, and its `DuplicateCount` is the number of adds of that
cause since the last clear, minus one. -/
theorem C10_log_dedup {E : Type} [DecidableEq E] (errorsIs : E → E → Bool)
    (calls : List (LogCall E)) (cause : E)
    (hrefl : ∀ a, errorsIs a a = true)
    (htrans : ∀ a b c, errorsIs a b = true → errorsIs b c = true → errorsIs a c = true) :
    ((runLog errorsIs calls).Notifications.filter
      (fun n => decide (n.Description = cause) && n.AllowDuplication)).length ≤ 1 ∧
    ((∀ b ∈ causesOf calls, b ≠ cause →
        errorsIs b cause = false ∧ errorsIs cause b = false) →
      (∀ n ∈ (runLog errorsIs calls).Notifications,
        n.Description = cause → n.AllowDuplication = true) →
      ((runLog errorsIs calls).Notifications.filter
        (fun n => decide (n.Description = cause))).length ≤ 1 ∧
      ∀ n ∈ (runLog errorsIs calls).Notifications, n.Description = cause →
        n.DuplicateCount = (addsSinceClear cause calls : Int) - 1) := by
  constructor
  · exact length_filter_le_one_of_noLaterMatch errorsIs hrefl cause _
      (noLaterMatch_runLog errorsIs htrans calls)
  · intro hrel hall
    rcases causeCount_runLog_rel errorsIs cause (hrefl cause) calls hrel hall with
      ⟨hnil, _⟩ | ⟨n0, hn0, hcount⟩
    · rw [hnil]
      refine ⟨Nat.zero_le 1, ?_⟩
      intro n hn hnX
      have hmem : n ∈ (runLog errorsIs calls).Notifications.filter
          (fun n => decide (n.Description = cause)) :=
        List.mem_filter.mpr ⟨hn, by simpa using hnX⟩
      rw [hnil] at hmem
      cases hmem
    · rw [hn0]
      refine ⟨Nat.le_refl 1, ?_⟩
      intro n hn hnX
      have hmem : n ∈ (runLog errorsIs calls).Notifications.filter
          (fun n => decide (n.Description = cause)) :=
        List.mem_filter.mpr ⟨hn, by simpa using hnX⟩
      rw [hn0, List.mem_singleton] at hmem
      rw [hmem]
      omega

theorem C10_log_dedup_witness :
    (runLog errorsIs goDedupCalls).Notifications =
        [{ Level := NotificationInfo, Title := "T2", Description := ErrRespInternal, Date := 2,
           AllowDuplication := true, DuplicateCount := 1 },
         { Level := NotificationInfo, Title := "T3", Description := ErrRespQueryParse,
           Date := 3, AllowDuplication := true, DuplicateCount := 1 }] ∧
      addsSinceClear ErrRespQueryParse goDedupCalls = 2 ∧
      ((runLog errorsIs goDedupCalls).Notifications.filter
        (fun n => decide (n.Description = ErrRespQueryParse))).length ≤ 1 ∧
      (∀ n ∈ (runLog errorsIs goDedupCalls).Notifications, n.Description = ErrRespQueryParse →
        n.DuplicateCount = (addsSinceClear ErrRespQueryParse goDedupCalls : Int) - 1) ∧
      (∀ n ∈ (runLog (fun a b => a == b) dedupCalls).Notifications, n.Description = 7 →
        n.DuplicateCount = (addsSinceClear 7 dedupCalls : Int) - 1) :=
  ⟨by decide, by decide,
   ((C10_log_dedup errorsIs goDedupCalls ErrRespQueryParse errorsIs_refl errorsIs_trans).2
     (by decide) (by decide)).1,
   ((C10_log_dedup errorsIs goDedupCalls ErrRespQueryParse errorsIs_refl errorsIs_trans).2
     (by decide) (by decide)).2,
   ((C10_log_dedup (fun a b => a == b) dedupCalls 7 (fun a => by simp)
     (fun a b c h1 h2 => by simp at h1 h2 ⊢; exact h1.trans h2)).2
     (by decide) (by decide)).2⟩

/-- C10 as stated fails: an error wrapping `ErrRespQueryParse` is added, then
`ErrRespQueryParse` itself, both duplicate-tolerant. `errors.Is(wrapper,
ErrRespQueryParse)` holds, so the second add overwrites the entry of the first:
the log has one entry, of cause `ErrRespQueryParse`, with `DuplicateCount` 1,
while that cause was added once. -/
theorem C10_wrapped_cause_counterexample :
    (runLog errorsIs wrappedCalls).Notifications =
        [{ Level := NotificationInfo, Title := "B", Description := ErrRespQueryParse, Date := 1,
           AllowDuplication := true, DuplicateCount := 1 }] ∧
      addsSinceClear ErrRespQueryParse wrappedCalls = 1 ∧
      (∀ n ∈ (runLog errorsIs wrappedCalls).Notifications,
        n.Description = ErrRespQueryParse → n.AllowDuplication = true) := by
  decide

/-! ## The search client -/

theorem SearchVideo_of_decoded (x : SearchExchange) (query : String) (filters : List String)
    (respoData : SearchVideoResponse)
    (hf : ∀ f ∈ filters, (f.splitOn "=").length = 2) (hj : x.joinPathErr = none)
    (hr : x.newRequestErr = none) (hd : x.doErr = none) (h200 : x.StatusCode = 200)
    (hdec : x.decoded = .ok respoData) :
    SearchVideo x query filters = metaStatusResult x.addr respoData := by
  have hany : filters.any (fun filter => decide ((filter.splitOn "=").length ≠ 2)) = false := by
    rw [List.any_eq_false]
    intro f hfm
    simp [hf f hfm]
  unfold SearchVideo
  rw [hany, hj, hr, hd, hdec]
  simp [h200]

theorem SearchVideo_nil_iff (x : SearchExchange) (query : String) (filters : List String) :
    (SearchVideo x query filters).1.isSome = true ↔
      (SearchVideo x query filters).2.isNone = true := by
  unfold SearchVideo metaStatusResult
  repeat' split
  all_goals simp

/-- C17 (status mapping of `SearchVideo`). When the filters are well formed,
no step before the answer fails, the answer has HTTP status 200 and its body
decodes to `respoData`: `meta.status` 200 returns `respoData` and no error;
400, 500 and 503 return no response and an error that `errors.Is`
`ErrRespQueryParse`, `ErrRespInternal`, `ErrRespMaintainance`; every other
status returns no response and an error that `errors.Is` none of the four
package errors. On every path the response is non-nil iff the error is nil. -/
theorem C17_status_mapping (x : SearchExchange) (query : String) (filters : List String) :
    (∀ respoData : SearchVideoResponse,
      (∀ f ∈ filters, (f.splitOn "=").length = 2) → x.joinPathErr = none →
      x.newRequestErr = none → x.doErr = none → x.StatusCode = 200 →
      x.decoded = .ok respoData →
      (respoData.Meta.Status = 200 → SearchVideo x query filters = (some respoData, none)) ∧
      (respoData.Meta.Status = 400 → ∃ err, SearchVideo x query filters = (none, some err) ∧
        errorsIs err ErrRespQueryParse = true) ∧
      (respoData.Meta.Status = 500 → ∃ err, SearchVideo x query filters = (none, some err) ∧
        errorsIs err ErrRespInternal = true) ∧
      (respoData.Meta.Status = 503 → ∃ err, SearchVideo x query filters = (none, some err) ∧
        errorsIs err ErrRespMaintainance = true) ∧
      (respoData.Meta.Status ≠ 200 → respoData.Meta.Status ≠ 400 →
        respoData.Meta.Status ≠ 500 → respoData.Meta.Status ≠ 503 →
        ∃ err, SearchVideo x query filters = (none, some err) ∧
          errorsIs err ErrFiltersFormat = false ∧ errorsIs err ErrRespQueryParse = false ∧
          errorsIs err ErrRespInternal = false ∧ errorsIs err ErrRespMaintainance = false)) ∧
    ((SearchVideo x query filters).1.isSome = true ↔
      (SearchVideo x query filters).2.isNone = true) := by
  refine ⟨?_, SearchVideo_nil_iff x query filters⟩
  intro respoData hf hj hr hd h200 hdec
  rw [SearchVideo_of_decoded x query filters respoData hf hj hr hd h200 hdec]
  unfold metaStatusResult
  refine ⟨?_, ?_, ?_, ?_, ?_⟩
  · intro h
    rw [if_pos h]
  · intro h
    rw [if_neg (by rw [h]; decide), if_pos h]
    exact ⟨_, rfl, by simp [errorsIs, ErrRespQueryParse]⟩
  · intro h
    rw [if_neg (by rw [h]; decide), if_neg (by rw [h]; decide), if_pos h]
    exact ⟨_, rfl, by simp [errorsIs, ErrRespInternal]⟩
  · intro h
    rw [if_neg (by rw [h]; decide), if_neg (by rw [h]; decide), if_neg (by rw [h]; decide),
      if_pos h]
    exact ⟨_, rfl, by simp [errorsIs, ErrRespMaintainance]⟩
  · intro h1 h2 h3 h4
    rw [if_neg h1, if_neg h2, if_neg h3, if_neg h4]
    exact ⟨_, rfl, by simp [errorsIs, ErrFiltersFormat], by simp [errorsIs, ErrRespQueryParse],
      by simp [errorsIs, ErrRespInternal], by simp [errorsIs, ErrRespMaintainance]⟩

theorem C17_status_mapping_witness :
    (∃ err, SearchVideo (okExchange (metaOnly 400 "query parse error")) "vocaloid" []
        = (none, some err) ∧ errorsIs err ErrRespQueryParse = true) ∧
    (∃ err, SearchVideo (okExchange (metaOnly 500 "please retry later")) "vocaloid" []
        = (none, some err) ∧ errorsIs err ErrRespInternal = true) ∧
    (∃ err, SearchVideo (okExchange (metaOnly 503 "please retry later.")) "vocaloid" []
        = (none, some err) ∧ errorsIs err ErrRespMaintainance = true) ∧
    SearchVideo (okExchange (metaOnly 200 "")) "vocaloid" [] = (some (metaOnly 200 ""), none) :=
  ⟨((C17_status_mapping (okExchange (metaOnly 400 "query parse error")) "vocaloid" []).1
      (metaOnly 400 "query parse error") (by simp) rfl rfl rfl rfl rfl).2.1 rfl,
   ((C17_status_mapping (okExchange (metaOnly 500 "please retry later")) "vocaloid" []).1
      (metaOnly 500 "please retry later") (by simp) rfl rfl rfl rfl rfl).2.2.1 rfl,
   ((C17_status_mapping (okExchange (metaOnly 503 "please retry later.")) "vocaloid" []).1
      (metaOnly 503 "please retry later.") (by simp) rfl rfl rfl rfl rfl).2.2.2.1 rfl,
   ((C17_status_mapping (okExchange (metaOnly 200 "")) "vocaloid" []).1
      (metaOnly 200 "") (by simp) rfl rfl rfl rfl rfl).1 rfl⟩

/-! ## Configuration -/

theorem trimQueries_eq_some_iff (trimSpace : String → String) :
    ∀ (qs l : List SearchQuery), trimQueries trimSpace qs = some l ↔
      (∀ q ∈ qs, trimSpace q.Query ≠ "") ∧
        l = qs.map (fun q => { Query := trimSpace q.Query }) := by
  intro qs
  induction qs with
  | nil =>
    intro l
    simp only [trimQueries, Option.some.injEq, List.map_nil, List.not_mem_nil, false_implies,
      implies_true, true_and]
    exact eq_comm
  | cons q qs ih =>
    intro l
    unfold trimQueries
    by_cases hq : trimSpace q.Query = ""
    · rw [if_pos hq]
      constructor
      · intro h
        cases h
      · rintro ⟨h, _⟩
        exact absurd hq (h q (List.mem_cons_self _ _))
    · rw [if_neg hq, Option.map_eq_some']
      constructor
      · rintro ⟨l', hl', rfl⟩
        obtain ⟨h1, h2⟩ := (ih l').mp hl'
        refine ⟨?_, by rw [h2]; rfl⟩
        intro q' hq'
        rcases List.mem_cons.mp hq' with rfl | hq'
        · exact hq
        · exact h1 q' hq'
      · rintro ⟨h1, h2⟩
        exact ⟨_, (ih _).mpr ⟨fun q' hq' => h1 q' (List.mem_cons_of_mem _ hq'), rfl⟩,
          by rw [h2]; rfl⟩

theorem trimQueries_eq_none_iff (trimSpace : String → String) (qs : List SearchQuery) :
    trimQueries trimSpace qs = none ↔ ¬ ∀ q ∈ qs, trimSpace q.Query ≠ "" := by
  constructor
  · intro h hall
    have := (trimQueries_eq_some_iff trimSpace qs _).mpr ⟨hall, rfl⟩
    rw [h] at this
    cases this
  · intro h
    cases hq : trimQueries trimSpace qs with
    | none => rfl
    | some l => exact absurd ((trimQueries_eq_some_iff trimSpace qs l).mp hq).1 h

/-- C18 (`LoadConfig` validation). For a file that is read and parsed to `cfg`,
let the level be `ToLower(TrimSpace(cfg.Log))`, replaced by `info` when that
is empty. `LoadConfig` returns no error iff the level is `debug`, `info` or
`error` and every query is non-empty after `TrimSpace`; a returned
configuration has that level as `Log`, the trimmed queries in the configured
order and the version `1.0.0`; a configuration is returned iff no error is. -/
theorem C18_loadConfig_validation (trimSpace toLower : String → String) (addr : Nat)
    (data : String) (unmarshal : String → Except GoError Config) (cfg : Config)
    (hparse : unmarshal data = .ok cfg) :
    ((LoadConfig trimSpace toLower addr (.ok data) unmarshal).2 = none ↔
      ((if toLower (trimSpace cfg.Log) = "" then "info" else toLower (trimSpace cfg.Log)) =
          "debug" ∨
        (if toLower (trimSpace cfg.Log) = "" then "info" else toLower (trimSpace cfg.Log)) =
          "info" ∨
        (if toLower (trimSpace cfg.Log) = "" then "info" else toLower (trimSpace cfg.Log)) =
          "error") ∧
      ∀ q ∈ cfg.SearchQueries, trimSpace q.Query ≠ "") ∧
    (∀ out, (LoadConfig trimSpace toLower addr (.ok data) unmarshal).1 = some out →
      out.Log =
        (if toLower (trimSpace cfg.Log) = "" then "info" else toLower (trimSpace cfg.Log)) ∧
      out.SearchQueries = cfg.SearchQueries.map (fun q => { Query := trimSpace q.Query }) ∧
      out.System.Version = "1.0.0") ∧
    ((LoadConfig trimSpace toLower addr (.ok data) unmarshal).1.isSome = true ↔
      (LoadConfig trimSpace toLower addr (.ok data) unmarshal).2 = none) := by
  have key : normaliseLog trimSpace toLower cfg.Log =
      (if toLower (trimSpace cfg.Log) = "" then "info" else toLower (trimSpace cfg.Log)) := rfl
  rw [← key]
  unfold LoadConfig
  simp only [hparse]
  by_cases hlog : normaliseLog trimSpace toLower cfg.Log = "debug" ∨
      normaliseLog trimSpace toLower cfg.Log = "info" ∨
      normaliseLog trimSpace toLower cfg.Log = "error"
  · rw [if_pos hlog]
    cases hq : trimQueries trimSpace cfg.SearchQueries with
    | none =>
      have hne := (trimQueries_eq_none_iff trimSpace cfg.SearchQueries).mp hq
      refine ⟨?_, ?_, ?_⟩
      · simp only [reduceCtorEq, false_iff, not_and]
        exact fun _ => hne
      · intro out h
        cases h
      · simp
    | some queries =>
      obtain ⟨hall, hmap⟩ := (trimQueries_eq_some_iff trimSpace cfg.SearchQueries queries).mp hq
      refine ⟨?_, ?_, ?_⟩
      · simp only [true_iff]
        exact ⟨hlog, hall⟩
      · intro out h
        cases h
        exact ⟨rfl, hmap, rfl⟩
      · simp
  · rw [if_neg hlog]
    refine ⟨?_, ?_, ?_⟩
    · simp only [reduceCtorEq, false_iff, not_and]
      exact fun h => absurd h hlog
    · intro out h
      cases h
    · simp

theorem C18_loadConfig_validation_witness :
    (∀ out, (LoadConfig goTrimSpace asciiToLower 0 (.ok "") (fun _ => .ok paddedConfig)).1 =
        some out →
      out.Log = (if asciiToLower (goTrimSpace paddedConfig.Log) = "" then "info"
        else asciiToLower (goTrimSpace paddedConfig.Log)) ∧
      out.SearchQueries =
        paddedConfig.SearchQueries.map (fun q => { Query := goTrimSpace q.Query }) ∧
      out.System.Version = "1.0.0") ∧
    LoadConfig goTrimSpace asciiToLower 0 (.ok "") (fun _ => .ok paddedConfig)
      = (some { SearchQueries := [{ Query := "VOCALOID" }], Log := "error",
                System := { Version := "1.0.0" } }, none) ∧
    LoadConfig goTrimSpace asciiToLower 0 (.ok "") (fun _ => .ok testConfig)
      = (some { SearchQueries := [{ Query := "VOCALOID" }, { Query := "ソフトウェアトーク劇場" }],
                Log := "debug", System := { Version := "1.0.0" } }, none) ∧
    (LoadConfig goTrimSpace asciiToLower 0 (.ok "")
      (fun _ => .ok { SearchQueries := [{ Query := "foo" }], Log := "",
                      System := { Version := "" } })).1.map Config.Log = some "info" ∧
    (LoadConfig goTrimSpace asciiToLower 0 (.ok "")
      (fun _ => .ok { SearchQueries := [{ Query := "foo" }], Log := " \t ",
                      System := { Version := "" } })).1.map Config.Log = some "info" ∧
    (LoadConfig goTrimSpace asciiToLower 0 (.ok "")
      (fun _ => .ok { SearchQueries := [{ Query := "foo" }], Log := "trace",
                      System := { Version := "" } })).1 = none ∧
    (LoadConfig goTrimSpace asciiToLower 0 (.ok "")
      (fun _ => .ok { SearchQueries := [{ Query := "" }], Log := "info",
                      System := { Version := "" } })).1 = none ∧
    (LoadConfig goTrimSpace asciiToLower 0 (.ok "")
      (fun _ => .ok { SearchQueries := [{ Query := " \n" }], Log := "info",
                      System := { Version := "" } })).1 = none :=
  ⟨(C18_loadConfig_validation goTrimSpace asciiToLower 0 "" (fun _ => .ok paddedConfig)
      paddedConfig rfl).2.1, by decide, by decide, by decide, by decide, by decide, by decide,
    by decide⟩

/-! ## The scheduler: which steps of a pass are reached -/

theorem noStopBetween_iff (stops : Nat → Bool) (s i : Nat) :
    noStopBetween stops s i = true ↔ ∀ j, s ≤ j → j < i → stops j = false := by
  unfold noStopBetween
  rw [List.all_eq_true]
  constructor
  · intro h j hs hi
    have := h j (List.mem_range'_1.mpr ⟨hs, by omega⟩)
    simpa using this
  · intro h j hj
    obtain ⟨h1, h2⟩ := List.mem_range'_1.mp hj
    simp [h j h1 (by omega)]

theorem issuedFrom_nil {α : Type} (stops : Nat → Bool) (s : Nat) :
    issuedFrom stops s ([] : List α) = [] := rfl

theorem issuedFrom_cons {α : Type} (stops : Nat → Bool) (s : Nat) (a : α) (l : List α) :
    issuedFrom stops s (a :: l) =
      (s, a) :: (if stops s = true then [] else issuedFrom stops (s + 1) l) := by
  unfold issuedFrom
  have h0 : noStopBetween stops s s = true :=
    (noStopBetween_iff stops s s).mpr (fun j h1 h2 => by omega)
  rw [List.enumFrom_cons, List.filter_cons_of_pos (by exact h0)]
  congr 1
  by_cases hs : stops s = true
  · rw [if_pos hs, List.filter_eq_nil_iff]
    intro p hp hno
    have hle := List.le_fst_of_mem_enumFrom hp
    have := (noStopBetween_iff stops s p.1).mp hno s (Nat.le_refl s) (by omega)
    rw [hs] at this
    cases this
  · rw [if_neg hs]
    apply List.filter_congr
    intro p hp
    have hle := List.le_fst_of_mem_enumFrom hp
    have hs' : stops s = false := by simpa using hs
    rw [Bool.eq_iff_iff, noStopBetween_iff, noStopBetween_iff]
    constructor
    · intro h j h1 h2
      exact h j (by omega) h2
    · intro h j h1 h2
      by_cases hj : j = s
      · rw [hj]; exact hs'
      · exact h j (by omega) h2

theorem mem_issuedFrom_zero {α : Type} (stops : Nat → Bool) (l : List α) (i : Nat) (a : α) :
    (i, a) ∈ issuedFrom stops 0 l ↔ l[i]? = some a ∧ ∀ j, j < i → stops j = false := by
  unfold issuedFrom
  rw [List.mem_filter, List.mk_mem_enumFrom_iff_le_and_getElem?_sub, noStopBetween_iff]
  simp

theorem AddSortedVideos_of_capacity (vRepo : VideoRepository) (videos : List Video)
    (hc : 0 ≤ vRepo.Capacity) :
    ∃ r k, AddSortedVideos vRepo videos = some (r, k) ∧ r.Capacity = vRepo.Capacity := by
  rw [AddSortedVideos_eq vRepo videos hc]
  split
  · exact ⟨_, _, rfl, rfl⟩
  · exact ⟨_, _, rfl, rfl⟩

/-- The search pass in closed form: it never panics on a store of
non-negative capacity; it does, for each query it reaches and in order, what
`queryActions` lists; the repositories it leaves are those after the merges
and events among these actions; it reports a done context iff it reached a
wait in which the context was done. -/
theorem doVideoLoop_spec (search : Nat → SearchCall) (cancelInWait : Nat → Bool) (n : Nat)
    (rangeStart rangeEnd : Int) :
    ∀ (qs : List SearchQuery) (s : Nat) (vRepo : VideoRepository)
      (nRepo : NotificationRepository GoError), 0 ≤ vRepo.Capacity →
      ∃ res, doVideoLoop search cancelInWait n rangeStart rangeEnd s qs vRepo nRepo = some res ∧
        res.actions = (issuedFrom (searchStops search cancelInWait n) s qs).flatMap
          (queryActions search n rangeStart rangeEnd) ∧
        replayStore res.actions vRepo = some res.vRepo ∧
        replayLog res.actions nRepo = res.nRepo ∧
        res.vRepo.Capacity = vRepo.Capacity ∧
        (res.cancelled = true ↔
          ∃ p ∈ issuedFrom (searchStops search cancelInWait n) s qs,
            searchStops search cancelInWait n p.1 = true ∧
              ∃ resp, (search p.1).result = .ok resp) := by
  intro qs
  induction qs with
  | nil =>
    intro s vRepo nRepo _
    exact ⟨_, rfl, by simp [issuedFrom_nil], rfl, rfl, rfl, by simp [issuedFrom_nil]⟩
  | cons q qs ih =>
    intro s vRepo nRepo hc
    rw [issuedFrom_cons]
    unfold doVideoLoop
    cases hres : (search s).result with
    | error err =>
      simp only
      by_cases hrec : recoverable err = true
      · have hstop : searchStops search cancelInWait n s = false := by
          simp [searchStops, hres, hrec]
        obtain ⟨res, hrun, hacts, hstore, hlog, hcap, hcan⟩ := ih (s + 1) vRepo
          (AddNotification errorsIs (search s).notifiedAt nRepo NotificationError
            searchErrorTitle err true) hc
        rw [if_pos hrec, hrun]
        refine ⟨_, rfl, ?_, ?_, ?_, hcap, ?_⟩
        · simp [PassResult.after, hacts, hstop, queryActions, hres, hrec]
        · simpa [PassResult.after, replayStore] using hstore
        · simpa [PassResult.after, replayLog] using hlog
        · simp only [PassResult.after, hcan, hstop, Bool.false_eq_true, if_false,
            List.mem_cons, exists_eq_or_imp, false_and, false_or]
      · have hstop : searchStops search cancelInWait n s = true := by
          simp [searchStops, hres, hrec]
        rw [if_neg hrec]
        refine ⟨_, rfl, ?_, ?_, ?_, rfl, ?_⟩
        · simp [hstop, queryActions, hres, hrec]
        · simp [replayStore]
        · simp [replayLog]
        · simp [hstop, hres]
    | ok resp =>
      simp only
      obtain ⟨v', k, hadd, hcap'⟩ := AddSortedVideos_of_capacity vRepo resp.Videos hc
      rw [hadd]
      simp only
      by_cases hlast : (s : Int) < (n : Int) - 1
      · rw [if_pos hlast]
        by_cases hcancel : cancelInWait s = true
        · have hstop : searchStops search cancelInWait n s = true := by
            simp [searchStops, hres, hlast, hcancel]
          rw [if_pos hcancel]
          refine ⟨_, rfl, ?_, ?_, ?_, hcap', ?_⟩
          · simp [hstop, queryActions, hres, hlast]
          · simp [replayStore, hadd]
          · simp [replayLog]
          · simp [hstop, hres]
        · have hstop : searchStops search cancelInWait n s = false := by
            simp [searchStops, hres, hcancel]
          obtain ⟨res, hrun, hacts, hstore, hlog, hcap, hcan⟩ := ih (s + 1) v' nRepo
            (hcap' ▸ hc)
          rw [if_neg hcancel, hrun]
          refine ⟨_, rfl, ?_, ?_, ?_, hcap.trans hcap', ?_⟩
          · simp [PassResult.after, hacts, hstop, queryActions, hres, hlast]
          · simpa [PassResult.after, replayStore, hadd] using hstore
          · simpa [PassResult.after, replayLog] using hlog
          · simp only [PassResult.after, hcan, hstop, Bool.false_eq_true, if_false,
              List.mem_cons, exists_eq_or_imp, false_and, false_or]
      · have hstop : searchStops search cancelInWait n s = false := by
          simp [searchStops, hres, hlast]
        obtain ⟨res, hrun, hacts, hstore, hlog, hcap, hcan⟩ := ih (s + 1) v' nRepo
          (hcap' ▸ hc)
        rw [if_neg hlast, hrun]
        refine ⟨_, rfl, ?_, ?_, ?_, hcap.trans hcap', ?_⟩
        · simp [PassResult.after, hacts, hstop, queryActions, hres, hlast]
        · simpa [PassResult.after, replayStore, hadd] using hstore
        · simpa [PassResult.after, replayLog] using hlog
        · simp only [PassResult.after, hcan, hstop, Bool.false_eq_true, if_false,
            List.mem_cons, exists_eq_or_imp, false_and, false_or]

theorem noStopBetween_succ (stops : Nat → Bool) (s i : Nat) (h : s < i) :
    noStopBetween stops s i = (!stops s && noStopBetween stops (s + 1) i) := by
  rw [Bool.eq_iff_iff, Bool.and_eq_true, noStopBetween_iff, noStopBetween_iff]
  constructor
  · intro hall
    exact ⟨by simp [hall s (Nat.le_refl s) h], fun j h1 h2 => hall j (by omega) h2⟩
  · rintro ⟨hs, hall⟩ j h1 h2
    by_cases hj : j = s
    · rw [hj]; simpa using hs
    · exact hall j (by omega) h2

theorem failRun_succ (fetch : Nat → FetchCall) (videos : List Video) (k : Nat) (v : Video)
    (hv : videos[k]? = some v) :
    failRun fetch videos (k + 1) =
      if needsFetch v = true then
        (if fetchFails fetch k = true then failRun fetch videos k + 1 else 0)
      else failRun fetch videos k := by
  have hget : (videos.enumFrom 0)[k]? = some (k, v) := by
    rw [List.getElem?_enumFrom, hv]
    simp
  unfold failRun
  rw [List.take_succ, hget, Option.toList, List.filter_append]
  by_cases hn : needsFetch v = true
  · rw [if_pos hn, List.filter_cons_of_pos (by exact hn), List.filter_nil, List.reverse_append,
      List.reverse_singleton, List.singleton_append]
    by_cases hf : fetchFails fetch k = true
    · rw [if_pos hf, List.takeWhile_cons_of_pos (by exact hf), List.length_cons]
    · rw [if_neg hf, List.takeWhile_cons_of_neg (by exact hf), List.length_nil]
  · rw [if_neg hn, List.filter_cons_of_neg (by exact hn), List.filter_nil, List.append_nil]

theorem map_enumFrom_rest (stops : Nat → Bool) (s : Nat) (vs : List Video)
    (f : Nat × Video → Video) :
    (vs.enumFrom (s + 1)).map (fun p => if noStopBetween stops s p.1 = true then f p else p.2)
      = if stops s = true then vs
        else (vs.enumFrom (s + 1)).map
          (fun p => if noStopBetween stops (s + 1) p.1 = true then f p else p.2) := by
  by_cases hs : stops s = true
  · rw [if_pos hs]
    conv_rhs => rw [← List.enumFrom_map_snd (s + 1) vs]
    apply List.map_congr_left
    intro p hp
    have hle := List.le_fst_of_mem_enumFrom hp
    rw [noStopBetween_succ stops s p.1 (by omega), hs]
    simp
  · rw [if_neg hs]
    apply List.map_congr_left
    intro p hp
    have hle := List.le_fst_of_mem_enumFrom hp
    have hs' : stops s = false := by simpa using hs
    rw [noStopBetween_succ stops s p.1 (by omega), hs']
    simp

/-- The enrichment pass in closed form, from index `s` on with the counter
at `failRun fetch all s`: it does, for each record it reaches and in order,
what `recordActions` lists; a reached record is left as `visited` gives it and
the others unchanged; the event log it leaves is the one after the events among
these actions; it returns on a done context iff it reached a wait in which the
context was done. -/
theorem doThumbnailLoop_spec (fetch : Nat → FetchCall) (cancelInWait : Nat → Bool)
    (done : Bool) (n : Nat) (all : List Video) :
    ∀ (vs : List Video) (s : Nat) (nRepo : NotificationRepository GoError),
      all.drop s = vs →
      (doThumbnailLoop fetch cancelInWait done n s vs (failRun fetch all s) nRepo).actions =
          (issuedFrom (thumbStops fetch cancelInWait done n all) s vs).flatMap
            (recordActions fetch n all) ∧
        (doThumbnailLoop fetch cancelInWait done n s vs (failRun fetch all s) nRepo).videos =
          (vs.enumFrom s).map (fun p =>
            if noStopBetween (thumbStops fetch cancelInWait done n all) s p.1 = true
            then visited fetch p else p.2) ∧
        replayLog
            (doThumbnailLoop fetch cancelInWait done n s vs (failRun fetch all s) nRepo).actions
            nRepo =
          (doThumbnailLoop fetch cancelInWait done n s vs (failRun fetch all s) nRepo).nRepo ∧
        ((doThumbnailLoop fetch cancelInWait done n s vs (failRun fetch all s) nRepo).cancelled
            = true ↔
          ∃ p ∈ issuedFrom (thumbStops fetch cancelInWait done n all) s vs,
            thumbStops fetch cancelInWait done n all p.1 = true ∧
              ∃ m, (fetch p.1).result = .ok m) := by
  intro vs
  induction vs with
  | nil =>
    intro s nRepo _
    simp [doThumbnailLoop, issuedFrom_nil, replayLog]
  | cons v vs ih =>
    intro s nRepo hdrop
    have hv : all[s]? = some v := by
      have := List.getElem?_drop all s 0
      rw [hdrop] at this
      simpa using this.symm
    have hdrop' : all.drop (s + 1) = vs := by
      rw [← List.tail_drop, hdrop]
      rfl
    have hfr := failRun_succ fetch all s v hv
    have h0 : noStopBetween (thumbStops fetch cancelInWait done n all) s s = true :=
      (noStopBetween_iff _ s s).mpr (fun j h1 h2 => by omega)
    rw [issuedFrom_cons, List.enumFrom_cons, List.map_cons, map_enumFrom_rest, if_pos h0]
    unfold doThumbnailLoop
    by_cases hn : needsFetch v = true
    · rw [if_pos hn] at hfr
      rw [if_pos hn]
      cases hres : (fetch s).result with
      | error err =>
        have hff : fetchFails fetch s = true := by simp [fetchFails, hres]
        rw [if_pos hff] at hfr
        simp only
        by_cases hth : failRun fetch all s + 1 ≥ ERROR_KEEPON_THRESHOLD
        · have hstop : thumbStops fetch cancelInWait done n all s = true := by
            simp only [thumbStops, hv, hn, hres, hfr, Bool.true_and, decide_eq_true_eq]
            exact hth
          rw [if_pos hth]
          simp only [hstop, if_true, List.flatMap_cons, List.flatMap_nil, List.append_nil]
          refine ⟨?_, ?_, ?_, ?_⟩
          · simp only [recordActions, hn, hres, hfr, if_true]
            rw [if_pos hth]
          · simp [visited, hn, hres]
          · simp [replayLog]
          · simp [hres]
        · have hstop : thumbStops fetch cancelInWait done n all s = false := by
            simp only [thumbStops, hv, hn, hres, hfr, Bool.true_and, decide_eq_false_iff_not]
            exact hth
          obtain ⟨ha, hvid, hlog, hcan⟩ := ih (s + 1) nRepo hdrop'
          rw [hfr] at ha hvid hlog hcan
          rw [if_neg hth]
          simp only [hstop, Bool.false_eq_true, if_false, List.flatMap_cons]
          refine ⟨?_, ?_, ?_, ?_⟩
          · simp only [ThumbResult.after, ha, recordActions, hn, hres, hfr, if_true]
            rw [if_neg hth]
          · simp [ThumbResult.after, hvid, visited, hn, hres]
          · simpa [ThumbResult.after, replayLog] using hlog
          · simp only [ThumbResult.after, hcan, List.mem_cons, exists_eq_or_imp, hstop,
              Bool.false_eq_true, false_and, false_or]
      | ok thumbMeta =>
        have hff : fetchFails fetch s = false := by simp [fetchFails, hres]
        rw [if_neg (by simp [hff])] at hfr
        simp only
        obtain ⟨ha, hvid, hlog, hcan⟩ := ih (s + 1) nRepo hdrop'
        rw [hfr] at ha hvid hlog hcan
        by_cases hlast : (s : Int) < (n : Int) - 1
        · rw [if_pos hlast]
          by_cases hc : (done || cancelInWait s) = true
          · have hstop : thumbStops fetch cancelInWait done n all s = true := by
              simp only [thumbStops, hv, hn, hres, Bool.true_and, Bool.and_eq_true,
                decide_eq_true_eq]
              exact ⟨hlast, hc⟩
            rw [if_pos hc]
            simp only [hstop, if_true, List.flatMap_cons, List.flatMap_nil, List.append_nil]
            refine ⟨?_, ?_, ?_, ?_⟩
            · simp only [recordActions, hn, hres, if_true]
              rw [if_pos hlast]
            · simp [visited, hn, hres]
            · simp [replayLog]
            · simp [hres, hstop]
          · have hstop : thumbStops fetch cancelInWait done n all s = false := by
              simp only [thumbStops, hv, hn, hres, Bool.true_and]
              simp only [Bool.not_eq_true] at hc
              rw [hc, Bool.and_false]
            rw [if_neg hc]
            simp only [hstop, Bool.false_eq_true, if_false, List.flatMap_cons]
            refine ⟨?_, ?_, ?_, ?_⟩
            · simp only [ThumbResult.after, ha, recordActions, hn, hres, if_true]
              rw [if_pos hlast]
            · simp [ThumbResult.after, hvid, visited, hn, hres]
            · simpa [ThumbResult.after, replayLog] using hlog
            · simp only [ThumbResult.after, hcan, List.mem_cons, exists_eq_or_imp, hstop,
                Bool.false_eq_true, false_and, false_or]
        · have hstop : thumbStops fetch cancelInWait done n all s = false := by
            simp only [thumbStops, hv, hn, hres, Bool.true_and]
            rw [decide_eq_false hlast, Bool.false_and]
          rw [if_neg hlast]
          simp only [hstop, Bool.false_eq_true, if_false, List.flatMap_cons]
          refine ⟨?_, ?_, ?_, ?_⟩
          · simp only [ThumbResult.after, ha, recordActions, hn, hres, if_true]
            rw [if_neg hlast]
          · simp [ThumbResult.after, hvid, visited, hn, hres]
          · simpa [ThumbResult.after, replayLog] using hlog
          · simp only [ThumbResult.after, hcan, List.mem_cons, exists_eq_or_imp, hstop,
              Bool.false_eq_true, false_and, false_or]
    · rw [if_neg hn] at hfr
      have hstop : thumbStops fetch cancelInWait done n all s = false := by
        simp only [thumbStops, hv]
        simp only [Bool.not_eq_true] at hn
        rw [hn, Bool.false_and]
      obtain ⟨ha, hvid, hlog, hcan⟩ := ih (s + 1) nRepo hdrop'
      rw [hfr] at ha hvid hlog hcan
      rw [if_neg hn]
      simp only [hstop, Bool.false_eq_true, if_false, List.flatMap_cons]
      refine ⟨?_, ?_, ?_, ?_⟩
      · simp only [ThumbResult.after, ha, recordActions, hn, Bool.false_eq_true, if_false]
      · simp [ThumbResult.after, hvid, visited, hn]
      · simpa [ThumbResult.after, replayLog] using hlog
      · simp only [ThumbResult.after, hcan, List.mem_cons, exists_eq_or_imp, hstop,
          Bool.false_eq_true, false_and, false_or]

theorem doVideo_spec (search : Nat → SearchCall) (cancelInWait : Nat → Bool)
    (rangeStart rangeEnd : Int) (queries : List SearchQuery) (vRepo : VideoRepository)
    (nRepo : NotificationRepository GoError) (hc : 0 ≤ vRepo.Capacity) :
    ∃ res, doVideo search cancelInWait rangeStart rangeEnd queries vRepo nRepo = some res ∧
      res.actions = (issuedFrom (searchStops search cancelInWait queries.length) 0 queries).flatMap
        (queryActions search queries.length rangeStart rangeEnd) ∧
      replayStore res.actions vRepo = some res.vRepo ∧
      replayLog res.actions nRepo = res.nRepo ∧
      res.vRepo.Capacity = vRepo.Capacity ∧
      (res.cancelled = true ↔
        ∃ p ∈ issuedFrom (searchStops search cancelInWait queries.length) 0 queries,
          searchStops search cancelInWait queries.length p.1 = true ∧
            ∃ resp, (search p.1).result = .ok resp) :=
  doVideoLoop_spec search cancelInWait queries.length rangeStart rangeEnd queries 0 vRepo nRepo hc

theorem search_mem_queryActions (search : Nat → SearchCall) (n : Nat) (rangeStart rangeEnd : Int)
    (p : Nat × SearchQuery) (i : Nat) (q : String) (rs re : Int) :
    Action.search i q rs re ∈ queryActions search n rangeStart rangeEnd p ↔
      p.1 = i ∧ p.2.Query = q ∧ rangeStart = rs ∧ rangeEnd = re := by
  unfold queryActions
  rw [List.mem_cons]
  have htail : Action.search i q rs re ∉
      (match (search p.1).result with
        | .error err =>
          [Action.notify (search p.1).notifiedAt NotificationError
            (if recoverable err then searchErrorTitle else searchAbortTitle) err true]
        | .ok resp =>
          Action.merge resp.Videos ::
            (if (p.1 : Int) < (n : Int) - 1 then
              [Action.wait (queryWaitTime (search p.1).reqTime)]
             else [])) := by
    cases (search p.1).result with
    | error err => simp
    | ok resp =>
      by_cases h : (p.1 : Int) < (n : Int) - 1
      · simp [h]
      · simp [h]
  constructor
  · rintro (h | h)
    · injection h with h1 h2 h3 h4
      exact ⟨h1.symm, h2.symm, h3.symm, h4.symm⟩
    · exact absurd h htail
  · rintro ⟨h1, h2, h3, h4⟩
    left
    rw [h1, h2, h3, h4]

theorem searchStops_of_no_cancel (search : Nat → SearchCall) (cancelInWait : Nat → Bool)
    (n j : Nat) (hno : cancelInWait j = false) :
    searchStops search cancelInWait n j = false ↔
      ∀ err, (search j).result = .error err → recoverable err = true := by
  unfold searchStops
  cases hres : (search j).result with
  | error err => simp
  | ok resp => simp [hno]

/-- C12 (search pass, as the code has it). On a store of non-negative capacity
`doVideo` returns. The call for query `i` is issued iff no earlier query ended
the pass, that is failed with an error that is neither `ErrFiltersFormat` nor
`ErrRespQueryParse`, or succeeded before a pacing wait in which the context
was done; when the context is never done in a wait, iff no earlier query failed
with an error other than those two. For each issued query the pass does what
`queryActions` lists: the call, then one duplicate-tolerant error event after a
failure, or the merge (and the wait) after a success. The repositories it
leaves are those after these merges and events, in order. -/
theorem C12_search_pass (search : Nat → SearchCall) (cancelInWait : Nat → Bool)
    (rangeStart rangeEnd : Int) (queries : List SearchQuery) (vRepo : VideoRepository)
    (nRepo : NotificationRepository GoError) (hc : 0 ≤ vRepo.Capacity) :
    ∃ res, doVideo search cancelInWait rangeStart rangeEnd queries vRepo nRepo = some res ∧
      (∀ (i : Nat) (q : SearchQuery), queries[i]? = some q →
        (Action.search i q.Query rangeStart rangeEnd ∈ res.actions ↔
          ∀ j, j < i → searchStops search cancelInWait queries.length j = false)) ∧
      ((∀ j, cancelInWait j = false) →
        ∀ (i : Nat) (q : SearchQuery), queries[i]? = some q →
          (Action.search i q.Query rangeStart rangeEnd ∈ res.actions ↔
            ∀ j, j < i → ∀ err, (search j).result = .error err → recoverable err = true)) ∧
      res.actions = (issuedFrom (searchStops search cancelInWait queries.length) 0 queries).flatMap
        (queryActions search queries.length rangeStart rangeEnd) ∧
      replayStore res.actions vRepo = some res.vRepo ∧
      replayLog res.actions nRepo = res.nRepo := by
  obtain ⟨res, hrun, hacts, hstore, hlog, _, _⟩ :=
    doVideo_spec search cancelInWait rangeStart rangeEnd queries vRepo nRepo hc
  have hmem : ∀ (i : Nat) (q : SearchQuery), queries[i]? = some q →
      (Action.search i q.Query rangeStart rangeEnd ∈ res.actions ↔
        ∀ j, j < i → searchStops search cancelInWait queries.length j = false) := by
    intro i q hq
    rw [hacts, List.mem_flatMap]
    constructor
    · rintro ⟨p, hp, hin⟩
      obtain ⟨h1, _, _, _⟩ := (search_mem_queryActions _ _ _ _ p i q.Query _ _).mp hin
      have := (mem_issuedFrom_zero _ queries p.1 p.2).mp hp
      rw [h1] at this
      exact this.2
    · intro hall
      exact ⟨(i, q), (mem_issuedFrom_zero _ queries i q).mpr ⟨hq, hall⟩,
        (search_mem_queryActions _ _ _ _ (i, q) i q.Query _ _).mpr ⟨rfl, rfl, rfl, rfl⟩⟩
  refine ⟨res, hrun, hmem, ?_, hacts, hstore, hlog⟩
  intro hno i q hq
  rw [hmem i q hq]
  constructor
  · intro h j hj
    exact (searchStops_of_no_cancel search cancelInWait _ j (hno j)).mp (h j hj)
  · intro h j hj
    exact (searchStops_of_no_cancel search cancelInWait _ j (hno j)).mpr (h j hj)

theorem C12_search_pass_witness :
    (∃ res, doVideo mixedSearch neverDone 5 4 fourQueries emptyRepo200 ⟨[]⟩ = some res ∧
      (∀ (i : Nat) (q : SearchQuery), fourQueries[i]? = some q →
        (Action.search i q.Query 5 4 ∈ res.actions ↔
          ∀ j, j < i → searchStops mixedSearch neverDone fourQueries.length j = false)) ∧
      ((∀ j, neverDone j = false) →
        ∀ (i : Nat) (q : SearchQuery), fourQueries[i]? = some q →
          (Action.search i q.Query 5 4 ∈ res.actions ↔
            ∀ j, j < i → ∀ err, (mixedSearch j).result = .error err →
              recoverable err = true)) ∧
      res.actions = (issuedFrom (searchStops mixedSearch neverDone fourQueries.length) 0
        fourQueries).flatMap (queryActions mixedSearch fourQueries.length 5 4) ∧
      replayStore res.actions emptyRepo200 = some res.vRepo ∧
      replayLog res.actions ⟨[]⟩ = res.nRepo) ∧
    (doVideo mixedSearch neverDone 5 4 fourQueries emptyRepo200 ⟨[]⟩).map
        PassResult.actions =
      some [.search 0 "a" 5 4,
            .notify 7 NotificationError searchErrorTitle queryRejected true,
            .search 1 "b" 5 4, .merge [mkVideo "v1" 1], .wait (90 * second),
            .search 2 "c" 5 4,
            .notify 7 NotificationError searchAbortTitle serverInternal true] :=
  ⟨C12_search_pass mixedSearch neverDone 5 4 fourQueries emptyRepo200 ⟨[]⟩ (by decide),
   by decide⟩

/-- C12 as stated fails: both queries succeed, the context is done in the
pacing wait after the first, and the second query is not issued although no
earlier query failed. -/
theorem C12_containment_counterexample :
    (doVideo (fun _ => okSearch [] second) doneInFirstWait 5 4 twoQueries
        emptyRepo200 ⟨[]⟩).map (fun res => (res.actions, res.cancelled)) =
      some ([.search 0 "a" 5 4, .merge [], .wait minute], true) ∧
    (∀ j, j < 1 → ∀ err, ((fun _ => okSearch [] second) j : SearchCall).result ≠ .error err) :=
  ⟨by decide, fun _ _ _ h => by simp [okSearch] at h⟩

theorem issuedFrom_of_no_stop {α : Type} (stops : Nat → Bool) :
    ∀ (l : List α) (s : Nat), (∀ j, s ≤ j → j < s + l.length → stops j = false) →
      issuedFrom stops s l = l.enumFrom s := by
  intro l
  induction l with
  | nil => intro s _; rfl
  | cons a l ih =>
    intro s h
    have hs : stops s = false := h s (Nat.le_refl s) (by simp)
    rw [issuedFrom_cons, hs, List.enumFrom_cons]
    simp only [Bool.false_eq_true, if_false]
    rw [ih (s + 1) (fun j h1 h2 => h j (by omega) (by simp only [List.length_cons]; omega))]

theorem issuedFrom_of_first_stop {α : Type} (stops : Nat → Bool) :
    ∀ (l : List α) (s k : Nat), s ≤ k → stops k = true →
      (∀ j, s ≤ j → j < k → stops j = false) →
      issuedFrom stops s l = (l.enumFrom s).take (k + 1 - s) := by
  intro l
  induction l with
  | nil => intro s k _ _ _; simp [issuedFrom_nil]
  | cons a l ih =>
    intro s k hsk hk hbefore
    rw [issuedFrom_cons, List.enumFrom_cons]
    by_cases hs : s = k
    · subst hs
      rw [if_pos hk]
      have : s + 1 - s = 1 := by omega
      rw [this]
      rfl
    · have hs' : stops s = false := hbefore s (Nat.le_refl s) (by omega)
      rw [hs']
      simp only [Bool.false_eq_true, if_false]
      have : k + 1 - s = (k + 1 - (s + 1)) + 1 := by omega
      rw [this, List.take_succ_cons,
        ih (s + 1) k (by omega) hk (fun j h1 h2 => hbefore j (by omega) h2)]

theorem failRun_zero (fetch : Nat → FetchCall) (videos : List Video) :
    failRun fetch videos 0 = 0 := by
  simp [failRun]

theorem failRun_lt_of_no_stop (fetch : Nat → FetchCall) (cancelInWait : Nat → Bool)
    (done : Bool) (n : Nat) (videos : List Video) :
    ∀ k, k ≤ videos.length →
      (∀ j, j < k → thumbStops fetch cancelInWait done n videos j = false) →
      failRun fetch videos k < ERROR_KEEPON_THRESHOLD := by
  intro k
  induction k with
  | zero =>
    intro _ _
    rw [failRun_zero]
    decide
  | succ k ih =>
    intro hk hno
    have hlt : k < videos.length := by omega
    have hv : videos[k]? = some videos[k] := List.getElem?_eq_getElem hlt
    have ihk := ih (by omega) (fun j hj => hno j (by omega))
    have hstop := hno k (Nat.lt_succ_self k)
    rw [failRun_succ fetch videos k _ hv]
    by_cases hn : needsFetch videos[k] = true
    · rw [if_pos hn]
      by_cases hf : fetchFails fetch k = true
      · rw [if_pos hf]
        have hfr := failRun_succ fetch videos k _ hv
        rw [if_pos hn, if_pos hf] at hfr
        unfold thumbStops at hstop
        rw [hv] at hstop
        simp only [hn, Bool.true_and] at hstop
        unfold fetchFails at hf
        cases hres : (fetch k).result with
        | error err =>
          rw [hres] at hstop
          simp only [decide_eq_false_iff_not, hfr] at hstop
          omega
        | ok m =>
          rw [hres] at hf
          cases hf
      · rw [if_neg hf]
        decide
    · rw [if_neg hn]
      exact ihk

theorem recordActions_no_notify (fetch : Nat → FetchCall) (cancelInWait : Nat → Bool)
    (done : Bool) (n : Nat) (videos : List Video) (p : Nat × Video)
    (hp : videos[p.1]? = some p.2)
    (hstop : thumbStops fetch cancelInWait done n videos p.1 = false) :
    (recordActions fetch n videos p).filter Action.isNotify = [] := by
  unfold recordActions
  unfold thumbStops at hstop
  rw [hp] at hstop
  by_cases hn : needsFetch p.2 = true
  · rw [if_pos hn]
    simp only [hn, Bool.true_and] at hstop
    cases hres : (fetch p.1).result with
    | error err =>
      rw [hres] at hstop
      simp only [decide_eq_false_iff_not] at hstop
      simp [hstop, Action.isNotify]
    | ok m =>
      by_cases hl : (p.1 : Int) < (n : Int) - 1
      · simp [hl, Action.isNotify]
      · simp [hl, Action.isNotify]
  · rw [if_neg hn]
    rfl

theorem doThumbnail_spec (fetch : Nat → FetchCall) (cancelInWait : Nat → Bool) (done : Bool)
    (vRepo : VideoRepository) (nRepo : NotificationRepository GoError) :
    (doThumbnail fetch cancelInWait done vRepo nRepo).actions =
        (issuedFrom (thumbStops fetch cancelInWait done vRepo.Videos.length vRepo.Videos) 0
          vRepo.Videos).flatMap (recordActions fetch vRepo.Videos.length vRepo.Videos) ∧
      (doThumbnail fetch cancelInWait done vRepo nRepo).vRepo.Videos =
        (vRepo.Videos.enumFrom 0).map (fun p =>
          if noStopBetween (thumbStops fetch cancelInWait done vRepo.Videos.length vRepo.Videos)
            0 p.1 = true
          then visited fetch p else p.2) ∧
      replayLog (doThumbnail fetch cancelInWait done vRepo nRepo).actions nRepo =
        (doThumbnail fetch cancelInWait done vRepo nRepo).nRepo ∧
      ((doThumbnail fetch cancelInWait done vRepo nRepo).cancelled = true ↔
        done = true ∨
        ∃ p ∈ issuedFrom (thumbStops fetch cancelInWait done vRepo.Videos.length vRepo.Videos) 0
            vRepo.Videos,
          thumbStops fetch cancelInWait done vRepo.Videos.length vRepo.Videos p.1 = true ∧
            ∃ m, (fetch p.1).result = .ok m) := by
  have h := doThumbnailLoop_spec fetch cancelInWait done vRepo.Videos.length vRepo.Videos
    vRepo.Videos 0 nRepo (List.drop_zero _)
  rw [failRun_zero] at h
  obtain ⟨ha, hv, hl, hc⟩ := h
  refine ⟨ha, hv, hl, ?_⟩
  show (done || _) = true ↔ _
  rw [Bool.or_eq_true, hc]

theorem fetch_mem_recordActions (fetch : Nat → FetchCall) (n : Nat) (videos : List Video)
    (p : Nat × Video) (i : Nat) (url : String) :
    Action.fetch i url ∈ recordActions fetch n videos p ↔
      needsFetch p.2 = true ∧ p.1 = i ∧ p.2.ThumbnailURL = url := by
  unfold recordActions
  by_cases hn : needsFetch p.2 = true
  · rw [if_pos hn, List.mem_cons]
    have htail : Action.fetch i url ∉
        (match (fetch p.1).result with
          | .error err =>
            if ERROR_KEEPON_THRESHOLD ≤ failRun fetch videos (p.1 + 1) then
              [Action.notify (fetch p.1).notifiedAt NotificationError thumbnailAbortTitle err
                true]
            else []
          | .ok _ =>
            if (p.1 : Int) < (n : Int) - 1 then
              [Action.wait (fetchWaitTime (fetch p.1).reqTime)]
            else []) := by
      cases (fetch p.1).result with
      | error err =>
        by_cases h : ERROR_KEEPON_THRESHOLD ≤ failRun fetch videos (p.1 + 1)
        · simp [h]
        · simp [h]
      | ok m =>
        by_cases h : (p.1 : Int) < (n : Int) - 1
        · simp [h]
        · simp [h]
    constructor
    · rintro (h | h)
      · injection h with h1 h2
        exact ⟨hn, h1.symm, h2.symm⟩
      · exact absurd h htail
    · rintro ⟨_, h1, h2⟩
      left
      rw [h1, h2]
  · rw [if_neg hn]
    simp [hn]

/-- A fetch for record `i` is among the actions of the enrichment pass iff the
record needs one and nothing ended the pass before it. -/
theorem fetch_mem_doThumbnail (fetch : Nat → FetchCall) (cancelInWait : Nat → Bool)
    (done : Bool) (vRepo : VideoRepository) (nRepo : NotificationRepository GoError)
    (i : Nat) (url : String) :
    Action.fetch i url ∈ (doThumbnail fetch cancelInWait done vRepo nRepo).actions ↔
      ∃ v, vRepo.Videos[i]? = some v ∧ v.ThumbnailURL = url ∧ needsFetch v = true ∧
        ∀ j, j < i →
          thumbStops fetch cancelInWait done vRepo.Videos.length vRepo.Videos j = false := by
  rw [(doThumbnail_spec fetch cancelInWait done vRepo nRepo).1, List.mem_flatMap]
  constructor
  · rintro ⟨p, hp, hin⟩
    obtain ⟨hn, h1, h2⟩ := (fetch_mem_recordActions _ _ _ p i url).mp hin
    obtain ⟨hget, hno⟩ := (mem_issuedFrom_zero _ _ p.1 p.2).mp hp
    rw [h1] at hget hno
    exact ⟨p.2, hget, h2, hn, hno⟩
  · rintro ⟨v, hget, hurl, hn, hno⟩
    exact ⟨(i, v), (mem_issuedFrom_zero _ _ i v).mpr ⟨hget, hno⟩,
      (fetch_mem_recordActions _ _ _ (i, v) i url).mpr ⟨hn, rfl, hurl⟩⟩

theorem thumbStops_false_of_run (fetch : Nat → FetchCall) (cancelInWait : Nat → Bool)
    (n : Nat) (videos : List Video) (j : Nat) (hno : cancelInWait j = false)
    (hrun : failRun fetch videos (j + 1) < ERROR_KEEPON_THRESHOLD) :
    thumbStops fetch cancelInWait false n videos j = false := by
  unfold thumbStops
  cases hv : videos[j]? with
  | none => rfl
  | some v =>
    cases hres : (fetch j).result with
    | error err =>
      have : ¬ ERROR_KEEPON_THRESHOLD ≤ failRun fetch videos (j + 1) := by omega
      simp [this]
    | ok m => simp [hno]

theorem thumbStops_true_of_run (fetch : Nat → FetchCall) (cancelInWait : Nat → Bool)
    (done : Bool) (n : Nat) (videos : List Video) (k : Nat) (v : Video)
    (hv : videos[k]? = some v)
    (hrun : ERROR_KEEPON_THRESHOLD ≤ failRun fetch videos (k + 1))
    (hbefore : failRun fetch videos k < ERROR_KEEPON_THRESHOLD) :
    needsFetch v = true ∧ (∃ err, (fetch k).result = .error err) ∧
      failRun fetch videos (k + 1) = ERROR_KEEPON_THRESHOLD ∧
      thumbStops fetch cancelInWait done n videos k = true := by
  have hs := failRun_succ fetch videos k v hv
  have h5 : ERROR_KEEPON_THRESHOLD = 5 := rfl
  by_cases hn : needsFetch v = true
  · rw [if_pos hn] at hs
    by_cases hf : fetchFails fetch k = true
    · rw [if_pos hf] at hs
      have hres : ∃ err, (fetch k).result = .error err := by
        unfold fetchFails at hf
        cases hr : (fetch k).result with
        | error err => exact ⟨err, rfl⟩
        | ok m => rw [hr] at hf; cases hf
      refine ⟨hn, hres, by omega, ?_⟩
      obtain ⟨err, herr⟩ := hres
      unfold thumbStops
      rw [hv]
      simp only [hn, herr, Bool.true_and, decide_eq_true_eq]
      exact hrun
    · rw [if_neg hf] at hs
      omega
  · rw [if_neg hn] at hs
    omega

theorem replayLog_filter :
    ∀ (acts : List Action) (nRepo : NotificationRepository GoError),
      replayLog acts nRepo = replayLog (acts.filter Action.isNotify) nRepo := by
  intro acts
  induction acts with
  | nil => intro nRepo; rfl
  | cons a acts ih =>
    intro nRepo
    cases a <;> simp [replayLog, Action.isNotify, List.filter_cons, ih]

theorem filter_flatMap_eq_nil {α β : Type} (q : β → Bool) (f : α → List β) (l : List α)
    (h : ∀ p ∈ l, (f p).filter q = []) : (l.flatMap f).filter q = [] := by
  rw [List.filter_eq_nil_iff]
  intro b hb
  obtain ⟨p, hp, hin⟩ := List.mem_flatMap.mp hb
  exact (List.filter_eq_nil_iff.mp (h p hp)) b hin

theorem queryWaitTime_eq_max (d : Int) : queryWaitTime d = max d minute := by
  unfold queryWaitTime
  split <;> omega

theorem fetchWaitTime_eq_max (d : Int) : fetchWaitTime d = max d second := by
  unfold fetchWaitTime
  split <;> omega

theorem wait_mem_queryActions (search : Nat → SearchCall) (n : Nat) (rangeStart rangeEnd : Int)
    (p : Nat × SearchQuery) (d : Int) :
    Action.wait d ∈ queryActions search n rangeStart rangeEnd p ↔
      (∃ resp, (search p.1).result = .ok resp) ∧ p.1 + 1 < n ∧
        d = max (search p.1).reqTime minute := by
  unfold queryActions
  rw [← queryWaitTime_eq_max]
  cases hres : (search p.1).result with
  | error err => simp
  | ok resp =>
    by_cases hlast : (p.1 : Int) < (n : Int) - 1
    · have : p.1 + 1 < n := by omega
      simp [hlast, this]
    · have : ¬ p.1 + 1 < n := by omega
      simp [hlast, this]

theorem wait_mem_recordActions (fetch : Nat → FetchCall) (n : Nat) (videos : List Video)
    (p : Nat × Video) (d : Int) :
    Action.wait d ∈ recordActions fetch n videos p ↔
      needsFetch p.2 = true ∧ (∃ m, (fetch p.1).result = .ok m) ∧ p.1 + 1 < n ∧
        d = max (fetch p.1).reqTime second := by
  unfold recordActions
  rw [← fetchWaitTime_eq_max]
  by_cases hn : needsFetch p.2 = true
  · cases hres : (fetch p.1).result with
    | error err =>
      by_cases h5 : ERROR_KEEPON_THRESHOLD ≤ failRun fetch videos (p.1 + 1)
      · simp [hn, h5]
      · simp [hn, h5]
    | ok m =>
      by_cases hlast : (p.1 : Int) < (n : Int) - 1
      · have : p.1 + 1 < n := by omega
        simp [hn, hlast, this]
      · have : ¬ p.1 + 1 < n := by omega
        simp [hn, hlast, this]
  · simp [hn]

theorem queryActions_filter_isInfo (search : Nat → SearchCall) (n : Nat)
    (rangeStart rangeEnd : Int) (p : Nat × SearchQuery) :
    (queryActions search n rangeStart rangeEnd p).filter Action.isInfo = [] := by
  unfold queryActions
  cases hres : (search p.1).result with
  | error err => simp [Action.isInfo, NotificationInfo, NotificationError]
  | ok resp =>
    by_cases hlast : (p.1 : Int) < (n : Int) - 1
    · simp [Action.isInfo, hlast]
    · simp [Action.isInfo, hlast]

theorem recordActions_filter_isInfo (fetch : Nat → FetchCall) (n : Nat) (videos : List Video)
    (p : Nat × Video) :
    (recordActions fetch n videos p).filter Action.isInfo = [] := by
  unfold recordActions
  by_cases hn : needsFetch p.2 = true
  · cases hres : (fetch p.1).result with
    | error err =>
      by_cases h5 : ERROR_KEEPON_THRESHOLD ≤ failRun fetch videos (p.1 + 1)
      · simp [hn, h5, Action.isInfo, NotificationInfo, NotificationError]
      · simp [hn, h5, Action.isInfo]
    | ok m =>
      by_cases hlast : (p.1 : Int) < (n : Int) - 1
      · simp [hn, hlast, Action.isInfo]
      · simp [hn, hlast, Action.isInfo]
  · simp [hn]

theorem recordActions_filter_isSearch (fetch : Nat → FetchCall) (n : Nat) (videos : List Video)
    (p : Nat × Video) :
    (recordActions fetch n videos p).filter Action.isSearch = [] := by
  unfold recordActions
  by_cases hn : needsFetch p.2 = true
  · cases hres : (fetch p.1).result with
    | error err =>
      by_cases h5 : ERROR_KEEPON_THRESHOLD ≤ failRun fetch videos (p.1 + 1)
      · simp [hn, h5, Action.isSearch]
      · simp [hn, h5, Action.isSearch]
    | ok m =>
      by_cases hlast : (p.1 : Int) < (n : Int) - 1
      · simp [hn, hlast, Action.isSearch]
      · simp [hn, hlast, Action.isSearch]
  · simp [hn]

theorem doThumbnail_filter_isInfo (fetch : Nat → FetchCall) (cancelInWait : Nat → Bool)
    (done : Bool) (vRepo : VideoRepository) (nRepo : NotificationRepository GoError) :
    (doThumbnail fetch cancelInWait done vRepo nRepo).actions.filter Action.isInfo = [] := by
  rw [(doThumbnail_spec fetch cancelInWait done vRepo nRepo).1]
  exact filter_flatMap_eq_nil _ _ _ (fun p _ => recordActions_filter_isInfo _ _ _ p)

theorem doThumbnail_filter_isSearch (fetch : Nat → FetchCall) (cancelInWait : Nat → Bool)
    (done : Bool) (vRepo : VideoRepository) (nRepo : NotificationRepository GoError) :
    (doThumbnail fetch cancelInWait done vRepo nRepo).actions.filter Action.isSearch = [] := by
  rw [(doThumbnail_spec fetch cancelInWait done vRepo nRepo).1]
  exact filter_flatMap_eq_nil _ _ _ (fun p _ => recordActions_filter_isSearch _ _ _ p)

/-! ## The claims on the scheduler -/

/-- C19 (which records are fetched, as the code has it). For a record that
the enrichment pass reaches, nothing having ended the pass before it, the
metadata fetch is issued iff its type is empty or its length is 0; it is
skipped iff its type is non-empty and its length is not 0. A record whose
rendered item carries the enclosure is skipped. -/
theorem C19_fetch_rule (lib : Lib) (fetch : Nat → FetchCall) (cancelInWait : Nat → Bool)
    (done : Bool) (vRepo : VideoRepository) (nRepo : NotificationRepository GoError)
    (i : Nat) (v : Video) (hv : vRepo.Videos[i]? = some v)
    (hreach : ∀ j, j < i →
      thumbStops fetch cancelInWait done vRepo.Videos.length vRepo.Videos j = false) :
    (Action.fetch i v.ThumbnailURL ∈ (doThumbnail fetch cancelInWait done vRepo nRepo).actions ↔
      (v.ThumbnailType = "" ∨ v.ThumbnailLength = 0)) ∧
    ((∀ url, Action.fetch i url ∉ (doThumbnail fetch cancelInWait done vRepo nRepo).actions) ↔
      (v.ThumbnailType ≠ "" ∧ v.ThumbnailLength ≠ 0)) ∧
    ((videoItem lib v).Enclosure ≠ none →
      ∀ url, Action.fetch i url ∉ (doThumbnail fetch cancelInWait done vRepo nRepo).actions) := by
  have hneeds : needsFetch v = true ↔ (v.ThumbnailType = "" ∨ v.ThumbnailLength = 0) := by
    simp [needsFetch]
  have h1 : Action.fetch i v.ThumbnailURL ∈
      (doThumbnail fetch cancelInWait done vRepo nRepo).actions ↔
      (v.ThumbnailType = "" ∨ v.ThumbnailLength = 0) := by
    rw [fetch_mem_doThumbnail, ← hneeds]
    constructor
    · rintro ⟨w, hw, _, hn, _⟩
      rw [hv] at hw
      cases hw
      exact hn
    · intro hn
      exact ⟨v, hv, rfl, hn, hreach⟩
  have h2 : (∀ url, Action.fetch i url ∉
      (doThumbnail fetch cancelInWait done vRepo nRepo).actions) ↔
      (v.ThumbnailType ≠ "" ∧ v.ThumbnailLength ≠ 0) := by
    constructor
    · intro hall
      have := mt h1.mpr (hall v.ThumbnailURL)
      exact not_or.mp this
    · rintro hskip url hmem
      obtain ⟨w, hw, _, hn, _⟩ := (fetch_mem_doThumbnail _ _ _ _ _ i url).mp hmem
      rw [hv] at hw
      cases hw
      exact absurd (hneeds.mp hn) (not_or.mpr hskip)
  refine ⟨h1, h2, ?_⟩
  intro henc
  apply h2.mpr
  unfold videoItem at henc
  simp only [ne_eq, ite_eq_right_iff, reduceCtorEq, imp_false, not_not] at henc
  exact ⟨henc.2.1, by have := henc.2.2; omega⟩

theorem C19_fetch_rule_witness :
    (doThumbnail (fun _ => okFetch second) neverDone false twoRecordRepo ⟨[]⟩).actions =
        [.fetch 1 "https://img/v1"] ∧
      (Action.fetch 1 (bareVideo "v1" 1).ThumbnailURL ∈
          (doThumbnail (fun _ => okFetch second) neverDone false twoRecordRepo ⟨[]⟩).actions ↔
        ((bareVideo "v1" 1).ThumbnailType = "" ∨ (bareVideo "v1" 1).ThumbnailLength = 0)) :=
  ⟨by decide,
   (C19_fetch_rule demoLib (fun _ => okFetch second) neverDone false twoRecordRepo ⟨[]⟩ 1
     (bareVideo "v1" 1) (by decide) (by decide)).1⟩

/-- C19 as stated fails: the record has a type and the length -1, so its
length is `<= 0` and its item carries no enclosure, yet no fetch is issued for
it. -/
theorem C19_skip_rule_counterexample :
    (noLengthVideo.ThumbnailType = "" ∨ noLengthVideo.ThumbnailLength ≤ 0) ∧
      (doThumbnail (fun _ => okFetch second) neverDone false
        { Videos := [noLengthVideo], seenIDs := {"v9"}, Capacity := 200 } ⟨[]⟩).actions = [] ∧
      (videoItem demoLib noLengthVideo).Enclosure = none := by
  decide

/-- C13 (enrichment pass, as the code has it). When the context is not done
during the pass: at the first record at which `ERROR_KEEPON_THRESHOLD` (5)
fetches have failed in a row the fetch is issued, no later fetch is, and the
pass records exactly one error event, the log being the log before with that
one event added; a successful fetch fills the type and length of its record
and brings the failure run to 0; and when the failure run never reaches 5 no
event is recorded, the log is unchanged, every record needing a fetch is
fetched and every record is visited. -/
theorem C13_enrichment_threshold (fetch : Nat → FetchCall) (cancelInWait : Nat → Bool)
    (vRepo : VideoRepository) (nRepo : NotificationRepository GoError)
    (hcancel : ∀ i, cancelInWait i = false) :
    (∀ k v, vRepo.Videos[k]? = some v →
      ERROR_KEEPON_THRESHOLD ≤ failRun fetch vRepo.Videos (k + 1) →
      (∀ j, j < k → failRun fetch vRepo.Videos (j + 1) < ERROR_KEEPON_THRESHOLD) →
      ∃ err, (fetch k).result = .error err ∧ needsFetch v = true ∧
        failRun fetch vRepo.Videos (k + 1) = 5 ∧
        Action.fetch k v.ThumbnailURL ∈ (doThumbnail fetch cancelInWait false vRepo nRepo).actions ∧
        (∀ i url, k < i →
          Action.fetch i url ∉ (doThumbnail fetch cancelInWait false vRepo nRepo).actions) ∧
        (doThumbnail fetch cancelInWait false vRepo nRepo).actions.filter Action.isNotify =
          [.notify (fetch k).notifiedAt NotificationError thumbnailAbortTitle err true] ∧
        (doThumbnail fetch cancelInWait false vRepo nRepo).nRepo =
          AddNotification errorsIs (fetch k).notifiedAt nRepo NotificationError
            thumbnailAbortTitle err true) ∧
    (∀ i v m, vRepo.Videos[i]? = some v → needsFetch v = true → (fetch i).result = .ok m →
      (∀ j, j < i → failRun fetch vRepo.Videos (j + 1) < ERROR_KEEPON_THRESHOLD) →
      (doThumbnail fetch cancelInWait false vRepo nRepo).vRepo.Videos[i]? =
          some { v with ThumbnailType := m.MediaType, ThumbnailLength := m.Length } ∧
        failRun fetch vRepo.Videos (i + 1) = 0) ∧
    ((∀ k, failRun fetch vRepo.Videos k < ERROR_KEEPON_THRESHOLD) →
      (doThumbnail fetch cancelInWait false vRepo nRepo).actions.filter Action.isNotify = [] ∧
      (doThumbnail fetch cancelInWait false vRepo nRepo).nRepo = nRepo ∧
      (∀ i v, vRepo.Videos[i]? = some v → needsFetch v = true →
        Action.fetch i v.ThumbnailURL ∈
          (doThumbnail fetch cancelInWait false vRepo nRepo).actions) ∧
      (doThumbnail fetch cancelInWait false vRepo nRepo).vRepo.Videos =
        (vRepo.Videos.enumFrom 0).map (visited fetch)) := by
  obtain ⟨hacts, hvideos, hlog, _⟩ := doThumbnail_spec fetch cancelInWait false vRepo nRepo
  have hreach : ∀ i, (∀ j, j < i → failRun fetch vRepo.Videos (j + 1) < ERROR_KEEPON_THRESHOLD) →
      ∀ j, j < i →
        thumbStops fetch cancelInWait false vRepo.Videos.length vRepo.Videos j = false :=
    fun i h j hj => thumbStops_false_of_run _ _ _ _ j (hcancel j) (h j hj)
  refine ⟨?_, ?_, ?_⟩
  · intro k v hv hrun hfirst
    have hbefore : failRun fetch vRepo.Videos k < ERROR_KEEPON_THRESHOLD := by
      cases k with
      | zero => rw [failRun_zero]; decide
      | succ k => exact hfirst k (Nat.lt_succ_self k)
    obtain ⟨hn, ⟨err, herr⟩, h5, hstop⟩ := thumbStops_true_of_run fetch cancelInWait false
      vRepo.Videos.length vRepo.Videos k v hv hrun hbefore
    have hnostop := hreach k hfirst
    have hfil : (doThumbnail fetch cancelInWait false vRepo nRepo).actions.filter
        Action.isNotify =
        [.notify (fetch k).notifiedAt NotificationError thumbnailAbortTitle err true] := by
      have hget : (vRepo.Videos.enumFrom 0)[k]? = some (k, v) := by
        rw [List.getElem?_enumFrom, hv]
        simp
      rw [hacts, issuedFrom_of_first_stop _ vRepo.Videos 0 k (Nat.zero_le _) hstop
        (fun j _ hj => hnostop j hj), Nat.sub_zero, List.take_succ, hget, Option.toList,
        List.flatMap_append, List.filter_append, filter_flatMap_eq_nil]
      · unfold recordActions
        simp [hn, herr, hrun, Action.isNotify]
      · intro p hp
        obtain ⟨i, hi, hpi⟩ := List.mem_take_iff_getElem.mp hp
        have hi2 : i < k ∧ i < vRepo.Videos.length := by
          simp only [List.enumFrom_length] at hi
          omega
        have hp2 : vRepo.Videos[p.1]? = some p.2 ∧ p.1 = i := by
          rw [← hpi]
          simp [List.getElem?_eq_getElem hi2.2]
        exact recordActions_no_notify fetch cancelInWait false _ _ p hp2.1
          (hnostop p.1 (by omega))
    refine ⟨err, herr, hn, h5, ?_, ?_, hfil, ?_⟩
    · exact (fetch_mem_doThumbnail _ _ _ _ _ k _).mpr ⟨v, hv, rfl, hn, hnostop⟩
    · intro i url hki hmem
      obtain ⟨_, _, _, _, hno⟩ := (fetch_mem_doThumbnail _ _ _ _ _ i url).mp hmem
      have := hno k hki
      rw [hstop] at this
      cases this
    · rw [← hlog, replayLog_filter, hfil]
      rfl
  · intro i v m hv hn hres hfirst
    have hnostop := hreach i hfirst
    constructor
    · rw [hvideos, List.getElem?_map, List.getElem?_enumFrom, hv]
      simp only [Option.map_some', Nat.zero_add]
      rw [if_pos ((noStopBetween_iff _ 0 i).mpr (fun j _ hj => hnostop j hj))]
      unfold visited
      simp [hn, hres]
    · rw [failRun_succ fetch vRepo.Videos i v hv, if_pos hn]
      simp [fetchFails, hres]
  · intro hall
    have hnostop : ∀ j,
        thumbStops fetch cancelInWait false vRepo.Videos.length vRepo.Videos j = false :=
      fun j => thumbStops_false_of_run _ _ _ _ j (hcancel j) (hall (j + 1))
    have hfil : (doThumbnail fetch cancelInWait false vRepo nRepo).actions.filter
        Action.isNotify = [] := by
      rw [hacts]
      apply filter_flatMap_eq_nil
      intro p hp
      exact recordActions_no_notify fetch cancelInWait false _ _ p
        ((mem_issuedFrom_zero _ _ p.1 p.2).mp hp).1 (hnostop p.1)
    refine ⟨hfil, ?_, ?_, ?_⟩
    · rw [← hlog, replayLog_filter, hfil]
      rfl
    · intro i v hv hn
      exact (fetch_mem_doThumbnail _ _ _ _ _ i _).mpr ⟨v, hv, rfl, hn, fun j _ => hnostop j⟩
    · rw [hvideos]
      apply List.map_congr_left
      intro p _
      rw [if_pos ((noStopBetween_iff _ 0 p.1).mpr (fun j _ _ => hnostop j))]

theorem C13_enrichment_threshold_witness :
    (∀ i, neverDone i = false) ∧
      (doThumbnail (fun _ => failedFetch) neverDone false sixBareRepo ⟨[]⟩).actions.filter
          Action.isNotify =
        [.notify 9 NotificationError thumbnailAbortTitle serverInternal true] ∧
      (∀ i url, 4 < i →
        Action.fetch i url ∉
          (doThumbnail (fun _ => failedFetch) neverDone false sixBareRepo ⟨[]⟩).actions) := by
  obtain ⟨err, herr, _, _, _, hlater, hfil, _⟩ :=
    (C13_enrichment_threshold (fun _ => failedFetch) neverDone sixBareRepo ⟨[]⟩
      (fun _ => rfl)).1 4 (bareVideo "v2" 2) (by decide) (by decide) (by decide)
  have e : serverInternal = err := Except.error.inj herr
  subst e
  exact ⟨fun _ => rfl, hfil, hlater⟩

/-- C13 as stated fails: no fetch fails at all, yet the pass ends after the
first record, the context being done in the wait after its fetch; the second
record is not fetched and keeps its empty type. -/
theorem C13_cancelled_pass_counterexample :
    (∀ i, fetchFails (fun _ => okFetch second) i = false) ∧
      (doThumbnail (fun _ => okFetch second) doneInFirstWait false twoBareRepo ⟨[]⟩).actions =
        [.fetch 0 "https://img/v2", .wait second] ∧
      (doThumbnail (fun _ => okFetch second) doneInFirstWait false twoBareRepo
        ⟨[]⟩).vRepo.Videos[1]? = some (bareVideo "v1" 1) :=
  ⟨fun _ => rfl, by decide, by decide⟩

/-- C14 (pacing). The wait of the search pass is `max(call duration, 1 minute)`
(90 s for a 90 s call, 60 s for a 10 s call) and that of the enrichment pass is
`max(call duration, 1 second)`. On a store of non-negative capacity the search
pass returns, and a wait of `d` occurs in it iff some query that the pass
reaches succeeds, is not the last configured query and `d` is the maximum of
its call duration and one minute; the actions for such a query are the call,
the merge and that wait, in this order, and those for a successful last query
are the call and the merge only. A wait of `d` occurs in the enrichment pass
iff some record that the pass reaches needs a fetch, the fetch succeeds, the
record is not the last one and `d` is the maximum of the call duration and one
second. -/
theorem C14_pacing (search : Nat → SearchCall) (cancelInWait : Nat → Bool)
    (rangeStart rangeEnd : Int) (queries : List SearchQuery) (vRepo : VideoRepository)
    (nRepo : NotificationRepository GoError) (fetch : Nat → FetchCall)
    (cancelInFetchWait : Nat → Bool) (done : Bool) (tRepo : VideoRepository)
    (tLog : NotificationRepository GoError) (hc : 0 ≤ vRepo.Capacity) :
    (∀ d, queryWaitTime d = max d minute) ∧
    queryWaitTime (90 * second) = 90 * second ∧ queryWaitTime (10 * second) = 60 * second ∧
    (∀ d, fetchWaitTime d = max d second) ∧
    (∃ res, doVideo search cancelInWait rangeStart rangeEnd queries vRepo nRepo = some res ∧
      res.actions = (issuedFrom (searchStops search cancelInWait queries.length) 0
        queries).flatMap (queryActions search queries.length rangeStart rangeEnd) ∧
      ∀ d, Action.wait d ∈ res.actions ↔
        ∃ i q resp, queries[i]? = some q ∧
          (∀ j, j < i → searchStops search cancelInWait queries.length j = false) ∧
          (search i).result = .ok resp ∧ i + 1 < queries.length ∧
          d = max (search i).reqTime minute) ∧
    (∀ i q resp, (search i).result = .ok resp →
      queryActions search queries.length rangeStart rangeEnd (i, q) =
        if i + 1 < queries.length then
          [.search i q.Query rangeStart rangeEnd, .merge resp.Videos,
            .wait (max (search i).reqTime minute)]
        else [.search i q.Query rangeStart rangeEnd, .merge resp.Videos]) ∧
    (∀ d, Action.wait d ∈ (doThumbnail fetch cancelInFetchWait done tRepo tLog).actions ↔
      ∃ i v m, tRepo.Videos[i]? = some v ∧ needsFetch v = true ∧
        (∀ j, j < i → thumbStops fetch cancelInFetchWait done tRepo.Videos.length
          tRepo.Videos j = false) ∧
        (fetch i).result = .ok m ∧ i + 1 < tRepo.Videos.length ∧
        d = max (fetch i).reqTime second) := by
  refine ⟨queryWaitTime_eq_max, by decide, by decide, fetchWaitTime_eq_max, ?_, ?_, ?_⟩
  · obtain ⟨res, hres, hacts, _⟩ :=
      doVideo_spec search cancelInWait rangeStart rangeEnd queries vRepo nRepo hc
    refine ⟨res, hres, hacts, ?_⟩
    intro d
    rw [hacts, List.mem_flatMap]
    constructor
    · rintro ⟨p, hp, hin⟩
      obtain ⟨⟨resp, hresp⟩, hlast, hd⟩ := (wait_mem_queryActions _ _ _ _ p d).mp hin
      obtain ⟨hget, hno⟩ := (mem_issuedFrom_zero _ _ p.1 p.2).mp hp
      exact ⟨p.1, p.2, resp, hget, hno, hresp, hlast, hd⟩
    · rintro ⟨i, q, resp, hget, hno, hresp, hlast, hd⟩
      exact ⟨(i, q), (mem_issuedFrom_zero _ _ i q).mpr ⟨hget, hno⟩,
        (wait_mem_queryActions _ _ _ _ (i, q) d).mpr ⟨⟨resp, hresp⟩, hlast, hd⟩⟩
  · intro i q resp hresp
    unfold queryActions
    simp only [hresp, ← queryWaitTime_eq_max]
    by_cases hlast : i + 1 < queries.length
    · have : (i : Int) < (queries.length : Int) - 1 := by omega
      rw [if_pos hlast, if_pos this]
    · have : ¬ (i : Int) < (queries.length : Int) - 1 := by omega
      rw [if_neg hlast, if_neg this]
  · intro d
    rw [(doThumbnail_spec fetch cancelInFetchWait done tRepo tLog).1, List.mem_flatMap]
    constructor
    · rintro ⟨p, hp, hin⟩
      obtain ⟨hn, ⟨m, hm⟩, hlast, hd⟩ := (wait_mem_recordActions _ _ _ p d).mp hin
      obtain ⟨hget, hno⟩ := (mem_issuedFrom_zero _ _ p.1 p.2).mp hp
      exact ⟨p.1, p.2, m, hget, hn, hno, hm, hlast, hd⟩
    · rintro ⟨i, v, m, hget, hn, hno, hm, hlast, hd⟩
      exact ⟨(i, v), (mem_issuedFrom_zero _ _ i v).mpr ⟨hget, hno⟩,
        (wait_mem_recordActions _ _ _ (i, v) d).mpr ⟨hn, ⟨m, hm⟩, hlast, hd⟩⟩

theorem C14_pacing_witness :
    (0 ≤ emptyRepo200.Capacity ∧
      ∃ res, doVideo pacedSearch neverDone 5 4 threeQueries emptyRepo200 ⟨[]⟩ = some res ∧
        ∀ d, Action.wait d ∈ res.actions ↔
          ∃ i q resp, threeQueries[i]? = some q ∧
            (∀ j, j < i → searchStops pacedSearch neverDone threeQueries.length j = false) ∧
            (pacedSearch i).result = .ok resp ∧ i + 1 < threeQueries.length ∧
            d = max (pacedSearch i).reqTime minute) ∧
    (doVideo pacedSearch neverDone 5 4 threeQueries emptyRepo200 ⟨[]⟩).map
        PassResult.actions =
      some [.search 0 "a" 5 4, .merge [], .wait (90 * second),
            .search 1 "b" 5 4, .merge [], .wait (60 * second),
            .search 2 "c" 5 4, .merge []] ∧
    (doThumbnail (fun _ => okFetch (3 * second)) neverDone false twoBareRepo ⟨[]⟩).actions =
      [.fetch 0 "https://img/v2", .wait (3 * second), .fetch 1 "https://img/v1"] := by
  obtain ⟨_, _, _, _, ⟨res, hres, _, hwait⟩, _, _⟩ :=
    C14_pacing pacedSearch neverDone 5 4 threeQueries emptyRepo200 ⟨[]⟩
      (fun _ => okFetch (3 * second)) neverDone false twoBareRepo ⟨[]⟩ (by decide)
  exact ⟨⟨by decide, res, hres, hwait⟩, by decide, by decide⟩

/-- C11 (skip decision, as the code has it). When the window start (now minus
one day) is not before `noNewDataLater + LOOP_INTERVAL`, the search pass is
skipped: the only thing done in its place is to record one informational,
duplicate-tolerant event, the cleared log then holds exactly that event, the
store is unchanged, and a cycle that completes holds no search call and that
one informational event. When the window start is before
`noNewDataLater + LOOP_INTERVAL`, the search pass runs: on a store of
non-negative capacity it returns, the first configured query is issued, and no
informational event is recorded. -/
theorem C11_skip_decision (lib : Lib) (marshal : List Item → Except GoError (List UInt8))
    (env : CycleEnv) (queries : List SearchQuery) (st : WorkerState) :
    (¬ lib.addDate env.now 0 0 (-1) < st.noNewDataLater + LOOP_INTERVAL →
      (∃ res, searchOrSkip lib env queries st = some res ∧
        res.actions = [.notify env.skipNotifiedAt NotificationInfo skipTitle
          (.new env.skipAddr skipText) true] ∧
        res.vRepo = st.vRepo ∧
        res.nRepo.Notifications =
          [{ Level := NotificationInfo, Title := skipTitle,
             Description := .new env.skipAddr skipText, Date := env.skipNotifiedAt,
             AllowDuplication := true, DuplicateCount := 0 }]) ∧
      ∀ st1 acts exit, cycle lib marshal env queries st = some (st1, acts, exit) →
        acts.filter Action.isSearch = [] ∧
        acts.filter Action.isInfo = [.notify env.skipNotifiedAt NotificationInfo skipTitle
          (.new env.skipAddr skipText) true]) ∧
    (lib.addDate env.now 0 0 (-1) < st.noNewDataLater + LOOP_INTERVAL →
      searchOrSkip lib env queries st =
        doVideo env.search env.cancelInQueryWait (lib.addDate env.now 0 0 (-1))
          (lib.addDate (lib.addDate env.now 0 0 (-1)) (-1) 0 0) queries st.vRepo
          (ClearNotifications st.nRepo) ∧
      (0 ≤ st.vRepo.Capacity →
        ∃ res, searchOrSkip lib env queries st = some res ∧
          res.actions.filter Action.isInfo = [] ∧
          ∀ q, queries[0]? = some q →
            Action.search 0 q.Query (lib.addDate env.now 0 0 (-1))
              (lib.addDate (lib.addDate env.now 0 0 (-1)) (-1) 0 0) ∈ res.actions)) := by
  constructor
  · intro hskip
    have hs : searchOrSkip lib env queries st =
        some { vRepo := st.vRepo,
               nRepo := AddNotification errorsIs env.skipNotifiedAt (ClearNotifications st.nRepo)
                 NotificationInfo skipTitle (.new env.skipAddr skipText) true,
               cancelled := false,
               actions := [.notify env.skipNotifiedAt NotificationInfo skipTitle
                 (.new env.skipAddr skipText) true] } := by
      unfold searchOrSkip
      simp only [if_neg hskip]
    constructor
    · refine ⟨_, hs, rfl, rfl, ?_⟩
      simp [AddNotification, ClearNotifications, overwriteFirst]
    · intro st1 acts exit hcyc
      unfold cycle at hcyc
      rw [hs] at hcyc
      simp only at hcyc
      split at hcyc
      · cases hcyc
      · cases hcyc
        simp only [List.filter_append, doThumbnail_filter_isSearch, doThumbnail_filter_isInfo]
        simp [Action.isSearch, Action.isInfo]
  · intro hrun
    have hs : searchOrSkip lib env queries st =
        doVideo env.search env.cancelInQueryWait (lib.addDate env.now 0 0 (-1))
          (lib.addDate (lib.addDate env.now 0 0 (-1)) (-1) 0 0) queries st.vRepo
          (ClearNotifications st.nRepo) := by
      unfold searchOrSkip
      simp only [if_pos hrun]
    refine ⟨hs, ?_⟩
    intro hc
    obtain ⟨res, hres, hacts, _⟩ := doVideo_spec env.search env.cancelInQueryWait
      (lib.addDate env.now 0 0 (-1)) (lib.addDate (lib.addDate env.now 0 0 (-1)) (-1) 0 0)
      queries st.vRepo (ClearNotifications st.nRepo) hc
    refine ⟨res, hs.trans hres, ?_, ?_⟩
    · rw [hacts]
      exact filter_flatMap_eq_nil _ _ _ (fun p _ => queryActions_filter_isInfo _ _ _ _ p)
    · intro q hq
      rw [hacts, List.mem_flatMap]
      exact ⟨(0, q), (mem_issuedFrom_zero _ queries 0 q).mpr ⟨hq, fun j hj => by omega⟩,
        (search_mem_queryActions _ _ _ _ (0, q) 0 q.Query _ _).mpr ⟨rfl, rfl, rfl, rfl⟩⟩

theorem C11_skip_decision_witness :
    ¬ demoLib.addDate (demoEnv (2 * 86400 * second) neverDone).now 0 0 (-1) <
        (demoState 0).noNewDataLater + LOOP_INTERVAL ∧
      ∃ res, searchOrSkip demoLib (demoEnv (2 * 86400 * second) neverDone) twoQueries
          (demoState 0) = some res ∧
        res.actions = [.notify (demoEnv (2 * 86400 * second) neverDone).skipNotifiedAt
          NotificationInfo skipTitle
          (.new (demoEnv (2 * 86400 * second) neverDone).skipAddr skipText) true] ∧
        res.vRepo = (demoState 0).vRepo :=
  ⟨by decide,
   match (C11_skip_decision demoLib demoMarshal (demoEnv (2 * 86400 * second) neverDone)
     twoQueries (demoState 0)).1 (by decide) with
   | ⟨⟨res, h1, h2, h3, _⟩, _⟩ => ⟨res, h1, h2, h3⟩⟩

/-- C11 as stated fails: the window start, one day before time 0, is before
`noNewDataLater + LOOP_INTERVAL` (15 minutes after time 0), yet the search pass
is not skipped: both queries are issued and no event is recorded. -/
theorem C11_skip_ahead_counterexample :
    demoLib.addDate (demoEnv 0 neverDone).now 0 0 (-1) <
        (demoState 0).noNewDataLater + LOOP_INTERVAL ∧
      (searchOrSkip demoLib (demoEnv 0 neverDone) twoQueries (demoState 0)).map
          (fun res => (res.actions, res.nRepo.Notifications)) =
        some ([.search 0 "a" (-(86400 * second)) (-(366 * (86400 * second))), .merge [],
               .wait minute,
               .search 1 "b" (-(86400 * second)) (-(366 * (86400 * second))), .merge []],
              []) := by
  decide

/-- C15 (cancellation in the wait between queries, as the code has it). Let
the search pass run on a store of non-negative capacity, let it reach query
`i`, let that call succeed, `i` not being the last query, and let the context
be done in the wait after it; let the marshaller not fail. Then the search
pass returns with the context done and no later search call is made in the
cycle; the rest of the cycle still runs with the context done: the enrichment
pass makes the fetch call for every record it reaches that needs one, the
freshness fetch is made and the feed is generated and published; the final
`select` then returns, so the loop ends with this cycle. -/
theorem C15_cancel_in_query_wait (lib : Lib)
    (marshal : List Item → Except GoError (List UInt8)) (env : CycleEnv)
    (envs : List CycleEnv) (queries : List SearchQuery) (st : WorkerState) (i : Nat)
    (q : SearchQuery) (resp : SearchVideoResponse)
    (hmarshal : ∀ items, ∃ bytes, marshal items = .ok bytes)
    (hc : 0 ≤ st.vRepo.Capacity)
    (hrun : lib.addDate env.now 0 0 (-1) < st.noNewDataLater + LOOP_INTERVAL)
    (hq : queries[i]? = some q)
    (hreach : ∀ j, j < i →
      searchStops env.search env.cancelInQueryWait queries.length j = false)
    (hres : (env.search i).result = .ok resp) (hlast : i + 1 < queries.length)
    (hcancel : env.cancelInQueryWait i = true) :
    ∃ p1 st1 acts data,
      searchOrSkip lib env queries st = some p1 ∧ p1.cancelled = true ∧
      cycle lib marshal env queries st = some (st1, acts, true) ∧
      worker lib marshal queries (env :: envs) st = some (st1, acts) ∧
      acts = p1.actions ++
        (doThumbnail env.fetch env.cancelInFetchWait true p1.vRepo p1.nRepo).actions ++
        [.fetchLastModified, .publish data] ∧
      st1.rRepo = SetFeed lib st.rRepo data env.publishedAt ∧
      (∀ k s rs re, i < k → Action.search k s rs re ∉ acts) ∧
      (∀ k v, p1.vRepo.Videos[k]? = some v → needsFetch v = true →
        (∀ j, j < k → thumbStops env.fetch env.cancelInFetchWait true p1.vRepo.Videos.length
          p1.vRepo.Videos j = false) →
        Action.fetch k v.ThumbnailURL ∈ acts) := by
  have hstop : searchStops env.search env.cancelInQueryWait queries.length i = true := by
    unfold searchStops
    rw [hres]
    have : (i : Int) < (queries.length : Int) - 1 := by omega
    simp [hcancel, this]
  obtain ⟨p1, hp1, hacts, _, _, _, hcanc⟩ := doVideo_spec env.search env.cancelInQueryWait
    (lib.addDate env.now 0 0 (-1)) (lib.addDate (lib.addDate env.now 0 0 (-1)) (-1) 0 0)
    queries st.vRepo (ClearNotifications st.nRepo) hc
  have hs : searchOrSkip lib env queries st = some p1 := by
    unfold searchOrSkip
    simp only [if_pos hrun]
    exact hp1
  have hdone : p1.cancelled = true :=
    hcanc.mpr ⟨(i, q), (mem_issuedFrom_zero _ queries i q).mpr ⟨hq, hreach⟩, hstop, resp, hres⟩
  obtain ⟨data, hdata⟩ := hmarshal (feedItems lib
    (doThumbnail env.fetch env.cancelInFetchWait true p1.vRepo p1.nRepo).nRepo.Notifications
    (doThumbnail env.fetch env.cancelInFetchWait true p1.vRepo p1.nRepo).vRepo.Videos)
  have hexit : (doThumbnail env.fetch env.cancelInFetchWait true p1.vRepo p1.nRepo).cancelled =
      true := (doThumbnail_spec _ _ true _ _).2.2.2.mpr (Or.inl rfl)
  have hcyc : cycle lib marshal env queries st =
      some ({ vRepo := (doThumbnail env.fetch env.cancelInFetchWait true p1.vRepo p1.nRepo).vRepo,
              nRepo := (doThumbnail env.fetch env.cancelInFetchWait true p1.vRepo p1.nRepo).nRepo,
              rRepo := SetFeed lib st.rRepo data env.publishedAt,
              noNewDataLater :=
                match env.lastModified with
                | .error _ => env.fallbackNow
                | .ok lastModified => lib.atFive lastModified },
            p1.actions ++
              (doThumbnail env.fetch env.cancelInFetchWait true p1.vRepo p1.nRepo).actions ++
              [.fetchLastModified, .publish data], true) := by
    unfold cycle
    rw [hs]
    simp only [hdone]
    unfold GenerateRSS
    rw [hdata]
    simp only [hexit, Bool.true_or]
  refine ⟨p1, _, _, data, hs, hdone, hcyc, ?_, rfl, rfl, ?_, ?_⟩
  · unfold worker
    rw [hcyc]
    simp
  · intro k s rs re hik hmem
    rw [List.mem_append, List.mem_append] at hmem
    rcases hmem with (hmem | hmem) | hmem
    · rw [hacts, List.mem_flatMap] at hmem
      obtain ⟨p, hp, hin⟩ := hmem
      obtain ⟨h1, _, _, _⟩ := (search_mem_queryActions _ _ _ _ p k s _ _).mp hin
      have hno := ((mem_issuedFrom_zero _ queries p.1 p.2).mp hp).2
      rw [h1] at hno
      have := hno i hik
      rw [hstop] at this
      cases this
    · have := List.filter_eq_nil_iff.mp
        (doThumbnail_filter_isSearch env.fetch env.cancelInFetchWait true p1.vRepo p1.nRepo)
        _ hmem
      exact this rfl
    · simp at hmem
  · intro k v hv hn hno
    apply List.mem_append_left
    apply List.mem_append_right
    exact (fetch_mem_doThumbnail _ _ _ _ _ k _).mpr ⟨v, hv, rfl, hn, hno⟩

theorem C15_cancel_in_query_wait_witness :
    (demoEnv 0 doneInFirstWait).cancelInQueryWait 0 = true ∧
      ∃ p1 st1 acts data,
        searchOrSkip demoLib (demoEnv 0 doneInFirstWait) twoQueries (demoState 0) = some p1 ∧
        p1.cancelled = true ∧
        cycle demoLib demoMarshal (demoEnv 0 doneInFirstWait) twoQueries (demoState 0) =
          some (st1, acts, true) ∧
        worker demoLib demoMarshal twoQueries [demoEnv 0 doneInFirstWait, demoEnv 1 neverDone]
          (demoState 0) = some (st1, acts) ∧
        acts = p1.actions ++
          (doThumbnail (demoEnv 0 doneInFirstWait).fetch
            (demoEnv 0 doneInFirstWait).cancelInFetchWait true p1.vRepo p1.nRepo).actions ++
          [.fetchLastModified, .publish data] :=
  ⟨rfl,
   match C15_cancel_in_query_wait demoLib demoMarshal (demoEnv 0 doneInFirstWait)
     [demoEnv 1 neverDone] twoQueries (demoState 0) 0 { Query := "a" }
     { Meta := (metaOnly 200 "").Meta, Videos := [] } (fun _ => ⟨[], rfl⟩) (by decide)
     (by decide) (by decide) (fun j hj => absurd hj (Nat.not_lt_zero j)) rfl (by decide)
     rfl with
   | ⟨p1, st1, acts, data, h1, h2, h3, h4, h5, _⟩ => ⟨p1, st1, acts, data, h1, h2, h3, h4, h5⟩⟩

/-- C15 as stated fails: the context is done in the wait after the first of
two queries; the second query is not issued, but the cycle goes on: the fetch
call for the record in the store and the freshness fetch are made and the feed
is published, before the loop ends. -/
theorem C15_abort_cycle_counterexample :
    (demoEnv 0 doneInFirstWait).cancelInQueryWait 0 = true ∧
      (cycle demoLib demoMarshal (demoEnv 0 doneInFirstWait) twoQueries (demoState 0)).map
          (fun r => (r.2.1, r.2.2)) =
        some ([.search 0 "a" (-(86400 * second)) (-(366 * (86400 * second))), .merge [],
               .wait minute, .fetch 0 "https://img/v1", .fetchLastModified, .publish []],
              true) := by
  decide

/-! ## The claim on the publisher -/

/-- C16 (what a reader observes). `SetFeed` sets the payload, the modification
time and the entity tag together, and a handler during which no `SetFeed` runs
serves the three values of one `SetFeed` call. But when a `SetFeed` runs
between the handler's read of `Etag` and its read of `ModifiedAt`, the handler
serves the entity tag of the earlier publish with the modification time and
the payload of the later one; for the payloads `[1]` and `[2, 3]` this is the
snapshot of neither publish. -/
theorem C16_handler_mixed_snapshot (lib : Lib) (r : RSSRepository) (d0 d1 : List UInt8)
    (t0 t1 : Int) :
    snapshotOf (SetFeed lib r d0 t0) = { etag := etagOf lib d0, modifiedAt := t0, payload := d0 } ∧
    (∀ p0, (handler lib r p0 none none).1 = snapshotOf (publishIf lib r p0)) ∧
    (handler lib (SetFeed lib r d0 t0) none (some (d1, t1)) none).1 =
      { etag := etagOf lib d0, modifiedAt := t1, payload := d1 } ∧
    (handler demoLib (SetFeed demoLib (NewRSSRepository 0) [1] 10) none (some ([2, 3], 20))
        none).1 ≠ snapshotOf (SetFeed demoLib (NewRSSRepository 0) [1] 10) ∧
    (handler demoLib (SetFeed demoLib (NewRSSRepository 0) [1] 10) none (some ([2, 3], 20))
        none).1 ≠
      snapshotOf (SetFeed demoLib (SetFeed demoLib (NewRSSRepository 0) [1] 10) [2, 3] 20) :=
  ⟨rfl, fun _ => rfl, rfl, by decide, by decide⟩

end NicoRSS
